import Mathlib

/-!
The gate block of gr-rfid (`lib/gate_impl.cc`)

A shallow embedding of `gr::rfid::gate_impl`: the constructor that derives the
sample counts from the sample rate, and `general_work`, the per-batch routine
that tracks the average amplitude, the DC offset and the edges of the reader
command, and forwards the samples of the tag response window.

Arithmetic conventions of the embedding:
* The sample arithmetic of `general_work` (`float` and `std::complex<float>`)
  is taken over exact rational arithmetic (`ℚ`, and pairs of `ℚ`); rounding,
  infinities and NaN are not represented there.
* The constructor computes the sample counts in `double`. This arithmetic is
  modelled with its rounding: `to_double` rounds a rational to the nearest
  IEEE 754 binary64 value, ties to even, and every operation of the
  constructor is the exact operation followed by `to_double`.
* `int` is `Int`; no counter of the block is assumed to reach `2^31`.
* `std::vector` is `List`; an element read outside the vector yields `0` and a
  write outside the vector is dropped (both are undefined in C++).
* Constants, enumerations and functions that live in headers outside
  `gate_impl.cc` are parameters (`Consts`) or are modelled from the spec.
-/

set_option linter.dupNamespace false

namespace gr.rfid

/-! ## Samples -/

/-- A complex sample, `gr_complex` = `std::complex<float>`, over `ℚ`. -/
structure gr_complex where
  re : ℚ
  im : ℚ
deriving DecidableEq

namespace gr_complex

/-- Complex addition, `operator+`. -/
def add (z w : gr_complex) : gr_complex := ⟨z.re + w.re, z.im + w.im⟩

/-- Complex subtraction, `operator-`. -/
def sub (z w : gr_complex) : gr_complex := ⟨z.re - w.re, z.im - w.im⟩

/-- Complex division, `operator/`. -/
def div (z w : gr_complex) : gr_complex :=
  ⟨(z.re * w.re + z.im * w.im) / (w.re * w.re + w.im * w.im),
   (z.im * w.re - z.re * w.im) / (w.re * w.re + w.im * w.im)⟩

/-- Squared magnitude, `std::norm`. -/
def norm (z : gr_complex) : ℚ := z.re * z.re + z.im * z.im

instance : Add gr_complex := ⟨add⟩
instance : Sub gr_complex := ⟨sub⟩
instance : Div gr_complex := ⟨div⟩

end gr_complex

/-! ## Enumerations and constants of the missing headers -/

/-- Modelled from the spec: the run/terminated status of the reader
(`reader_state->status`); the enumeration is declared in a header that is not
part of the sources. -/
inductive STATUS where
  | RUNNING
  | TERMINATED
deriving DecidableEq

/-- Modelled from the spec: the gate request field (`reader_state->gate_status`),
one of closed / seeking-EPC / seeking-RN16 / open; the enumeration is declared
in a header that is not part of the sources. -/
inductive GATE_STATUS where
  | GATE_OPEN
  | GATE_CLOSED
  | GATE_SEEK_RN16
  | GATE_SEEK_EPC
deriving DecidableEq

/-- Modelled from the spec: the edge state, RISING (`POS_EDGE`) or FALLING
(`NEG_EDGE`); the enumeration is declared in `gate_impl.h`, which is not part of
the sources. -/
inductive SIGNAL_STATE where
  | NEG_EDGE
  | POS_EDGE
deriving DecidableEq

open STATUS GATE_STATUS SIGNAL_STATE

/-- The compile-time constants `gate_impl.cc` takes from headers that are not
part of the sources, together with `std::abs` on complex samples (a square root,
which has no exact rational value in general). Every theorem holds for all
values of these parameters unless it says otherwise. -/
structure Consts where
  /-- Duration of T1 in microseconds. -/
  T1_D : Int
  /-- Duration of a pulse width in microseconds. -/
  PW_D : Int
  /-- Duration of one tag bit in microseconds. -/
  TAG_BIT_D : Int
  /-- Duration of the amplitude averaging window in microseconds. -/
  WIN_SIZE_D : Int
  /-- Duration of the DC estimation window in microseconds. -/
  DC_SIZE_D : Int
  EPC_BITS : Int
  RN16_BITS : Int
  TAG_PREAMBLE_BITS : Int
  THRESH_FRACTION : ℚ
  NUM_PULSES_COMMAND : Int
  MAX_NUM_QUERIES : Int
  NUMBER_UNIQUE_TAGS : Int
  /-- Magnitude of a sample, `std::abs`. -/
  abs : gr_complex → ℚ

/-! ## State -/

/-- The part of `reader_state->reader_stats` that `gate_impl.cc` touches:
`tag_reads_size` is `tag_reads.size()`, `end_tv_sec` is `end.tv_sec`. -/
structure READER_STATS where
  n_queries_sent : Int
  tag_reads_size : Nat
  start_tv_sec : Int
  end_tv_sec : Int
deriving DecidableEq

/-- The part of the shared `reader_state` that `gate_impl.cc` touches. -/
structure READER_STATE where
  status : STATUS
  gate_status : GATE_STATUS
  n_samples_to_ungate : Int
  magn_squared_samples : List ℚ
  reader_stats : READER_STATS
deriving DecidableEq

/-- The members of `gate_impl` and the shared `reader_state` it works on. -/
structure gate_impl where
  n_samples : Int
  n_samples_T1 : Int
  n_samples_PW : Int
  n_samples_TAG_BIT : Int
  win_index : Int
  dc_index : Int
  win_length : Int
  dc_length : Int
  num_pulses : Int
  signal_state : SIGNAL_STATE
  avg_ampl : ℚ
  sample_thresh : ℚ
  dc_est : gr_complex
  win_samples : List ℚ
  dc_samples : List gr_complex
  reader_state : READER_STATE
deriving DecidableEq

/-! ## Construction -/

/-- Conversion of a `double` to `int`: truncation toward zero. -/
def truncate (q : ℚ) : Int := Int.tdiv q.num q.den

/-- The position of the leading binary digit of `n`, computed by halving at
most `fuel` times. -/
def floor_log2_aux : Nat → Nat → Nat
  | 0, _ => 0
  | fuel + 1, n => if n < 2 then 0 else floor_log2_aux fuel (n / 2) + 1

/-- The position of the leading binary digit of `n`: the `k` with
`2^k ≤ n < 2^(k+1)` for `n ≥ 1`. -/
def floor_log2 (n : Nat) : Nat := floor_log2_aux n n

/-- Rounding of a rational to the nearest integer, a tie going to the even
neighbour (the IEEE 754 default rounding direction). -/
def round_nearest_even (q : ℚ) : Int :=
  if q - (⌊q⌋ : ℚ) < 1 / 2 then ⌊q⌋
  else if 1 / 2 < q - (⌊q⌋ : ℚ) then ⌊q⌋ + 1
  else if ⌊q⌋ % 2 = 0 then ⌊q⌋ else ⌊q⌋ + 1

/-- The binary exponent of a nonzero rational: the `e` with
`2^e ≤ |q| < 2^(e+1)`. -/
def binade (q : ℚ) : Int :=
  if (2 : ℚ) ^ ((floor_log2 q.num.natAbs : Int) - (floor_log2 q.den : Int)) ≤ |q|
  then (floor_log2 q.num.natAbs : Int) - (floor_log2 q.den : Int)
  else (floor_log2 q.num.natAbs : Int) - (floor_log2 q.den : Int) - 1

/-- The `double` nearest to the real number `q`: `q` is scaled so that its
magnitude lies in `[2^52, 2^53)`, rounded to an integer (a significand of 53
bits), ties to even, and scaled back. This is the value an IEEE 754 binary64
operation returns for the exact result `q`, as long as `q` is in the range of
the normal numbers (magnitude between `2^-1022` and `2^1024`), which the
constructor's values are for every `int` sample rate. -/
def to_double (q : ℚ) : ℚ :=
  if q = 0 then 0
  else (round_nearest_even (q / (2 : ℚ) ^ (binade q - 52)) : ℚ) * (2 : ℚ) ^ (binade q - 52)

/-- The expression `D * (sample_rate / pow(10,6))` assigned to an `int`
(gate_impl.cc lines 49, 52, 56, 60, 66). `sample_rate`, `pow(10,6)` and the
duration `D` are integers that a `double` holds exactly; the quotient is
rounded to a `double`, the product is rounded to a `double`, and the
assignment truncates toward zero. -/
def derive_samples (D : Int) (sample_rate : Int) : Int :=
  truncate (to_double ((D : ℚ) * to_double ((sample_rate : ℚ) / (10 : ℚ) ^ 6)))

/-- The constructor `gate_impl::gate_impl(int sample_rate)`. `rs0` is the reader
state that `initialize_reader_state()` (not part of the sources) sets up. The
only step that can fail is `resize` with a negative length, which converts to a
size above `max_size()` and throws `std::length_error`: the result is then
`none`. `sample_thresh` is not initialised by the constructor; it is written
before it is read in `general_work` and starts at `0` here. -/
def gate_impl.gate_impl (C : Consts) (rs0 : READER_STATE) (sample_rate : Int) :
    Option gate_impl :=
  let n_samples_T1 := derive_samples C.T1_D sample_rate
  let n_samples_PW := derive_samples C.PW_D sample_rate
  let n_samples_TAG_BIT := derive_samples C.TAG_BIT_D sample_rate
  let win_length := derive_samples C.WIN_SIZE_D sample_rate
  let dc_length := derive_samples C.DC_SIZE_D sample_rate
  if win_length < 0 ∨ dc_length < 0 then none
  else some
    { n_samples := 0, win_index := 0, dc_index := 0, num_pulses := 0,
      signal_state := NEG_EDGE, avg_ampl := 0, dc_est := ⟨0, 0⟩,
      sample_thresh := 0,
      n_samples_T1 := n_samples_T1, n_samples_PW := n_samples_PW,
      n_samples_TAG_BIT := n_samples_TAG_BIT,
      win_length := win_length, dc_length := dc_length,
      win_samples := List.replicate win_length.toNat 0,
      dc_samples := List.replicate dc_length.toNat ⟨0, 0⟩,
      reader_state := rs0 }

/-! ## `general_work` -/

/-- The local variables of `general_work` that the sample loop updates, and the
output buffer: `out` holds `out[0 .. written)`. -/
structure work_locals where
  number_samples_consumed : Int
  written : Int
  out : List gr_complex
deriving DecidableEq

/-- What one call of `general_work` leaves behind: the state of the block and of
the shared reader state, the samples written to `out`, the count passed to
`consume_each`, the returned count, and whether the termination notice was
printed. -/
structure work_result where
  state : gate_impl
  out : List gr_complex
  consumed : Int
  returned : Int
  notice : Bool
deriving DecidableEq

/-- The first part of the condition of lines 109-110: more queries sent than
`MAX_NUM_QUERIES`, or more tags read than `NUMBER_UNIQUE_TAGS`. -/
def limits_exceeded (C : Consts) (s : gate_impl) : Prop :=
  s.reader_state.reader_stats.n_queries_sent > C.MAX_NUM_QUERIES ∨
    (s.reader_state.reader_stats.tag_reads_size : Int) > C.NUMBER_UNIQUE_TAGS

instance (C : Consts) (s : gate_impl) : Decidable (limits_exceeded C s) := by
  unfold limits_exceeded; infer_instance

/-- The termination check (lines 109-118); `now` is the `tv_sec` that
`gettimeofday` reports. The flag tells whether the branch was taken (the notice
is printed exactly there). -/
def termination_check (C : Consts) (now : Int) (s : gate_impl) : gate_impl × Bool :=
  if limits_exceeded C s ∧ s.reader_state.status ≠ TERMINATED then
    ({ s with reader_state :=
        { s.reader_state with
          status := TERMINATED,
          reader_stats := { s.reader_state.reader_stats with end_tv_sec := now } } }, true)
  else (s, false)

/-- The arming step (lines 120-134): a SEEK request of the Gen2 logic block is
taken, the window length set and the gate closed. -/
def gate_control (C : Consts) (s : gate_impl) : gate_impl :=
  if s.reader_state.gate_status = GATE_SEEK_EPC then
    { s with
      reader_state :=
        { s.reader_state with
          gate_status := GATE_CLOSED,
          n_samples_to_ungate :=
            (C.EPC_BITS + C.TAG_PREAMBLE_BITS) * s.n_samples_TAG_BIT + 2 * s.n_samples_TAG_BIT },
      n_samples := 0 }
  else if s.reader_state.gate_status = GATE_SEEK_RN16 then
    { s with
      reader_state :=
        { s.reader_state with
          gate_status := GATE_CLOSED,
          n_samples_to_ungate :=
            (C.RN16_BITS + C.TAG_PREAMBLE_BITS) * s.n_samples_TAG_BIT + 2 * s.n_samples_TAG_BIT },
      n_samples := 0 }
  else s

/-- Tracking of the average amplitude and of the threshold (lines 143-149). -/
def track_amplitude (C : Consts) (s : gate_impl) (x : gr_complex) : gate_impl :=
  let sample_ampl := C.abs x
  let avg_ampl :=
    s.avg_ampl + (sample_ampl - s.win_samples.getD s.win_index.toNat 0) / (s.win_length : ℚ)
  { s with
    avg_ampl := avg_ampl,
    win_samples := s.win_samples.set s.win_index.toNat sample_ampl,
    win_index := Int.tmod (s.win_index + 1) s.win_length,
    sample_thresh := avg_ampl * C.THRESH_FRACTION }

/-- Tracking of the DC offset (lines 156-158). -/
def track_dc (s : gate_impl) (x : gr_complex) : gate_impl :=
  { s with
    dc_est := s.dc_est + (x - s.dc_samples.getD s.dc_index.toNat ⟨0, 0⟩) / ⟨(s.dc_length : ℚ), 0⟩,
    dc_samples := s.dc_samples.set s.dc_index.toNat x,
    dc_index := Int.tmod (s.dc_index + 1) s.dc_length }

/-- The elapsed counter and the edge detector (lines 160-177). -/
def edge_detect (C : Consts) (s : gate_impl) (x : gr_complex) : gate_impl :=
  let sample_ampl := C.abs x
  let s1 := { s with n_samples := s.n_samples + 1 }
  if sample_ampl < s1.sample_thresh ∧ s1.signal_state = POS_EDGE then
    { s1 with n_samples := 0, signal_state := NEG_EDGE }
  else if sample_ampl > s1.sample_thresh ∧ s1.signal_state = NEG_EDGE then
    { s1 with
      signal_state := POS_EDGE,
      num_pulses := if s1.n_samples > Int.tdiv s1.n_samples_PW 2 then s1.num_pulses + 1 else 0,
      n_samples := 0 }
  else s1

/-- The condition of line 179, on the state the edge detector leaves. -/
def command_detected (C : Consts) (s : gate_impl) : Prop :=
  s.n_samples > s.n_samples_T1 ∧ s.signal_state = POS_EDGE ∧ s.num_pulses > C.NUM_PULSES_COMMAND

instance (C : Consts) (s : gate_impl) : Decidable (command_detected C s) := by
  unfold command_detected; infer_instance

/-- What lines 143-177 do to the state for a sample taken while the gate is not
open: amplitude tracking, DC tracking, elapsed counter and edge detector. -/
def seek_step (C : Consts) (s : gate_impl) (x : gr_complex) : gate_impl :=
  edge_detect C (track_dc (track_amplitude C s x) x) x

/-- The body of the sample loop (lines 141-213) for the sample `x = in[i]`:
the new state, the new locals, and whether the loop is left by `break`. -/
def loop_body (C : Consts) (s : gate_impl) (l : work_locals) (i : Int) (x : gr_complex) :
    gate_impl × work_locals × Bool :=
  let s1 := track_amplitude C s x
  if ¬ (s1.reader_state.gate_status = GATE_OPEN) then
    let s2 := edge_detect C (track_dc s1 x) x
    if command_detected C s2 then
      ({ s2 with
          reader_state :=
            { s2.reader_state with
              gate_status := GATE_OPEN,
              magn_squared_samples := [] ++ [gr_complex.norm (x - s2.dc_est)] },
          num_pulses := 0,
          n_samples := 1 },
        { l with out := l.out ++ [x - s2.dc_est], written := l.written + 1 },
        false)
    else (s2, l, false)
  else
    let s2 := { s1 with n_samples := s1.n_samples + 1 }
    let s3 :=
      { s2 with
        reader_state :=
          { s2.reader_state with
            magn_squared_samples :=
              s2.reader_state.magn_squared_samples ++ [gr_complex.norm (x - s2.dc_est)] } }
    let l1 := { l with out := l.out ++ [x - s3.dc_est], written := l.written + 1 }
    if s3.n_samples ≥ s3.reader_state.n_samples_to_ungate then
      ({ s3 with reader_state := { s3.reader_state with gate_status := GATE_CLOSED } },
        { l1 with number_samples_consumed := i + 1 },
        true)
    else (s3, l1, false)

/-- The sample loop `for (int i = 0; i < n_items; i++)` from index `i` on, over
the samples `in[i], in[i+1], ...` that are left. The flag tells whether the loop
was left by `break` (true) or by running out of samples (false). -/
def sample_loop (C : Consts) (s : gate_impl) (l : work_locals) (i : Int) :
    List gr_complex → gate_impl × work_locals × Bool
  | [] => (s, l, false)
  | x :: rest =>
    let r := loop_body C s l i x
    if r.2.2 then r else sample_loop C r.1 r.2.1 (i + 1) rest

/-- The routine `gate_impl::general_work` on the input batch `input`
(`n_items = ninput_items[0]` is its length). `noutput_items` is not read by the
routine and is left out. -/
def general_work (C : Consts) (now : Int) (s : gate_impl) (input : List gr_complex) :
    work_result :=
  let n_items : Int := input.length
  let l0 : work_locals := { number_samples_consumed := n_items, written := 0, out := [] }
  let t := termination_check C now s
  let s1 := gate_control C t.1
  let r :=
    if s1.reader_state.status = RUNNING then sample_loop C s1 l0 0 input else (s1, l0, false)
  { state := r.1, out := r.2.1.out, consumed := r.2.1.number_samples_consumed,
    returned := r.2.1.written, notice := t.2 }

/-! ## Auxiliary definitions for the statements -/

/-- The state a sample forwarded through the open gate leaves, before the
window test: the averager has absorbed the sample, the counter is advanced and
the squared magnitude is appended. -/
def forwarded (C : Consts) (s : gate_impl) (x : gr_complex) : gate_impl :=
  { track_amplitude C s x with
    n_samples := s.n_samples + 1,
    reader_state :=
      { s.reader_state with
        magn_squared_samples :=
          s.reader_state.magn_squared_samples ++ [gr_complex.norm (x - s.dc_est)] } }

/-- The state the last sample of the window leaves: forwarded, and the gate
closed. -/
def window_closed (C : Consts) (s : gate_impl) (x : gr_complex) : gate_impl :=
  { forwarded C s x with
    reader_state := { (forwarded C s x).reader_state with gate_status := GATE_CLOSED } }

/-- The state the trigger sample leaves: the seeking state with the gate opened,
the squared-magnitude buffer restarted, the pulse counter cleared and the
elapsed counter at 1. -/
def opened (C : Consts) (s : gate_impl) (x : gr_complex) : gate_impl :=
  { seek_step C s x with
    reader_state :=
      { (seek_step C s x).reader_state with
        gate_status := GATE_OPEN,
        magn_squared_samples := [gr_complex.norm (x - (seek_step C s x).dc_est)] },
    num_pulses := 0,
    n_samples := 1 }

/-- The state after the samples `xs` have all been taken with the gate not open. -/
def seek_run (C : Consts) (s : gate_impl) (xs : List gr_complex) : gate_impl :=
  xs.foldl (seek_step C) s

/-- No sample of `xs`, taken in order from `s` with the gate not open, meets the
command-detection condition. -/
def never_detected (C : Consts) (s : gate_impl) : List gr_complex → Prop
  | [] => True
  | x :: rest => ¬ command_detected C (seek_step C s x) ∧ never_detected C (seek_step C s x) rest

/-- Whether a command is never detected over `xs` can be computed. -/
def never_detected.decide (C : Consts) :
    ∀ (xs : List gr_complex) (s : gate_impl), Decidable (never_detected C s xs)
  | [], _ => isTrue trivial
  | x :: rest, s =>
    @instDecidableAnd _ _ inferInstance (never_detected.decide C rest (seek_step C s x))

instance (C : Consts) (s : gate_impl) (xs : List gr_complex) :
    Decidable (never_detected C s xs) :=
  never_detected.decide C xs s

/-- The locals with which `general_work` enters the sample loop. -/
def initial_locals (input : List gr_complex) : work_locals :=
  { number_samples_consumed := (input.length : Int), written := 0, out := [] }

/-- The gate status is OPEN or CLOSED: no SEEK request is pending. -/
def gate_settled (s : gate_impl) : Prop :=
  s.reader_state.gate_status = GATE_OPEN ∨ s.reader_state.gate_status = GATE_CLOSED

/-- In the sample loop entered at `s` (locals `l`, index `i`) over `xs`, the
window completes at the sample with offset `k`: no earlier sample of `xs` takes
the gate from OPEN to CLOSED, and the sample at offset `k` does. -/
def window_completes_at (C : Consts) (s : gate_impl) (l : work_locals) (i : Int) :
    List gr_complex → Nat → Prop
  | [], _ => False
  | x :: _, 0 =>
    s.reader_state.gate_status = GATE_OPEN ∧
      (loop_body C s l i x).1.reader_state.gate_status = GATE_CLOSED
  | x :: rest, k + 1 =>
    ¬ (s.reader_state.gate_status = GATE_OPEN ∧
        (loop_body C s l i x).1.reader_state.gate_status = GATE_CLOSED) ∧
      window_completes_at C (loop_body C s l i x).1 (loop_body C s l i x).2.1 (i + 1) rest k

/-- Whether the window completes at a given offset can be computed. -/
def window_completes_at.decide (C : Consts) :
    ∀ (xs : List gr_complex) (s : gate_impl) (l : work_locals) (i : Int) (k : Nat),
      Decidable (window_completes_at C s l i xs k)
  | [], _, _, _, _ => isFalse (fun h => h)
  | x :: _, s, l, i, 0 =>
    inferInstanceAs (Decidable (s.reader_state.gate_status = GATE_OPEN ∧
      (loop_body C s l i x).1.reader_state.gate_status = GATE_CLOSED))
  | x :: rest, s, l, i, k + 1 =>
    @instDecidableAnd _ _ inferInstance
      (window_completes_at.decide C rest (loop_body C s l i x).1 (loop_body C s l i x).2.1
        (i + 1) k)

instance (C : Consts) (s : gate_impl) (l : work_locals) (i : Int) (xs : List gr_complex)
    (k : Nat) : Decidable (window_completes_at C s l i xs k) :=
  window_completes_at.decide C xs s l i k

/-- In the call `general_work C now s input` the sample loop runs and the open
window completes at input index `k`. -/
def completes_at (C : Consts) (now : Int) (s : gate_impl) (input : List gr_complex)
    (k : Nat) : Prop :=
  (gate_control C (termination_check C now s).1).reader_state.status = RUNNING ∧
    window_completes_at C (gate_control C (termination_check C now s).1)
      (initial_locals input) 0 input k

instance (C : Consts) (now : Int) (s : gate_impl) (input : List gr_complex) (k : Nat) :
    Decidable (completes_at C now s input k) := by
  unfold completes_at; infer_instance

/-! ## Runs of calls, ring invariants and checked accesses -/

/-- Processing history at the level of single samples: `processes C s xs t`
says that `t` is reached from `s` by processing the samples `xs` in order with
the body of the sample loop, with any number of arming steps and of changes to
the shared reader state (by the termination check or by the other blocks) in
between. -/
inductive processes (C : Consts) (s : gate_impl) : List gr_complex → gate_impl → Prop
  | start : processes C s [] s
  | sample (xs : List gr_complex) (t : gate_impl) (l : work_locals) (i : Int) (x : gr_complex) :
      processes C s xs t → processes C s (xs ++ [x]) (loop_body C t l i x).1
  | arm (xs : List gr_complex) (t : gate_impl) :
      processes C s xs t → processes C s xs (gate_control C t)
  | shared (xs : List gr_complex) (t : gate_impl) (rs : READER_STATE) :
      processes C s xs t → processes C s xs { t with reader_state := rs }

/-- A sequence of calls of `general_work`. Each call comes with the time `now`,
with what the other blocks did to the shared reader state since the previous
call, and with its input batch. The result is the final state and the number of
termination notices printed. -/
def run_calls (C : Consts) :
    gate_impl → List (Int × (READER_STATE → READER_STATE) × List gr_complex) → gate_impl × Nat
  | s, [] => (s, 0)
  | s, (now, ext, input) :: rest =>
    let r := general_work C now { s with reader_state := ext s.reader_state } input
    let q := run_calls C r.state rest
    (q.1, (if r.notice then 1 else 0) + q.2)

/-- The two rings are well formed: lengths at least 1, buffers of exactly these
lengths, indices inside the buffers. -/
def ring_ok (s : gate_impl) : Prop :=
  1 ≤ s.win_length ∧ 1 ≤ s.dc_length ∧
  (s.win_samples.length : Int) = s.win_length ∧ (s.dc_samples.length : Int) = s.dc_length ∧
  0 ≤ s.win_index ∧ s.win_index < s.win_length ∧
  0 ≤ s.dc_index ∧ s.dc_index < s.dc_length

instance (s : gate_impl) : Decidable (ring_ok s) := by
  unfold ring_ok; infer_instance

/-- The amplitude ring alone is well formed. -/
def win_ok (s : gate_impl) : Prop :=
  1 ≤ s.win_length ∧ (s.win_samples.length : Int) = s.win_length ∧
  0 ≤ s.win_index ∧ s.win_index < s.win_length

instance (s : gate_impl) : Decidable (win_ok s) := by
  unfold win_ok; infer_instance

/-- Arithmetic mean of a list of magnitudes. -/
def mean (xs : List ℚ) : ℚ := xs.sum / (xs.length : ℚ)

/-- Arithmetic mean of a list of complex samples, component by component. -/
def gr_complex.mean (xs : List gr_complex) : gr_complex :=
  ⟨(xs.map gr_complex.re).sum / (xs.length : ℚ), (xs.map gr_complex.im).sum / (xs.length : ℚ)⟩

/-- The running-mean invariant of both estimators. -/
def means_ok (s : gate_impl) : Prop :=
  s.avg_ampl = mean s.win_samples ∧ s.dc_est = gr_complex.mean s.dc_samples

instance (s : gate_impl) : Decidable (means_ok s) := by
  unfold means_ok; infer_instance

/-- The amplitude window read as a queue, oldest entry first: the entries from
`win_index` to the end, then those before `win_index`. -/
def win_queue (s : gate_impl) : List ℚ :=
  s.win_samples.drop s.win_index.toNat ++ s.win_samples.take s.win_index.toNat

/-- The accesses of lines 144-146 are defined: `win_index` is inside
`win_samples` and `win_length` is not zero. -/
def win_access_ok (s : gate_impl) : Prop :=
  0 ≤ s.win_index ∧ s.win_index.toNat < s.win_samples.length ∧ s.win_length ≠ 0

/-- The accesses of lines 156-158 are defined: `dc_index` is inside
`dc_samples` and `dc_length` is not zero. -/
def dc_access_ok (s : gate_impl) : Prop :=
  0 ≤ s.dc_index ∧ s.dc_index.toNat < s.dc_samples.length ∧ s.dc_length ≠ 0

instance (s : gate_impl) : Decidable (win_access_ok s) := by
  unfold win_access_ok; infer_instance

instance (s : gate_impl) : Decidable (dc_access_ok s) := by
  unfold dc_access_ok; infer_instance

/-- The body of the sample loop with its undefined behaviour made explicit: the
result is `none` when the sample would read or write outside `win_samples`,
divide or reduce modulo a zero `win_length`, or (in the branch with the gate not
open) do the same with `dc_samples` and `dc_length`. -/
def loop_body_checked (C : Consts) (s : gate_impl) (l : work_locals) (i : Int)
    (x : gr_complex) : Option (gate_impl × work_locals × Bool) :=
  if win_access_ok s then
    if ¬ (s.reader_state.gate_status = GATE_OPEN) then
      if dc_access_ok s then some (loop_body C s l i x) else none
    else some (loop_body C s l i x)
  else none

/-- The sample loop over the checked body. -/
def sample_loop_checked (C : Consts) (s : gate_impl) (l : work_locals) (i : Int) :
    List gr_complex → Option (gate_impl × work_locals × Bool)
  | [] => some (s, l, false)
  | x :: rest =>
    match loop_body_checked C s l i x with
    | none => none
    | some r => if r.2.2 then some r else sample_loop_checked C r.1 r.2.1 (i + 1) rest

/-- The routine `general_work` over the checked sample loop. -/
def general_work_checked (C : Consts) (now : Int) (s : gate_impl) (input : List gr_complex) :
    Option work_result :=
  let n_items : Int := input.length
  let l0 : work_locals := { number_samples_consumed := n_items, written := 0, out := [] }
  let t := termination_check C now s
  let s1 := gate_control C t.1
  let r :=
    if s1.reader_state.status = RUNNING then sample_loop_checked C s1 l0 0 input
    else some (s1, l0, false)
  r.map (fun r =>
    { state := r.1, out := r.2.1.out, consumed := r.2.1.number_samples_consumed,
      returned := r.2.1.written, notice := t.2 })

/-! ## Concrete parameters for the worked instances -/

/-- Square root of a rational whose reduced numerator and denominator are
perfect squares (the integer square roots are taken otherwise). -/
def exact_sqrt (q : ℚ) : ℚ := (Nat.sqrt q.num.toNat : ℚ) / (Nat.sqrt q.den : ℚ)

/-- The magnitude `std::abs` for the worked instances: exact on every sample
whose squared magnitude is the square of a rational, in particular on the
samples `(a, 0)` with `a ≥ 0` that the instances use. -/
def abs_exact (z : gr_complex) : ℚ := exact_sqrt (gr_complex.norm z)

/-- The constants for the worked instances. The five durations are the ones the
comments of the constructor document (240, 12, 25, 250 and 120 microseconds);
the other values stand in for the constants of the missing headers. -/
def sample_consts : Consts :=
  { T1_D := 240, PW_D := 12, TAG_BIT_D := 25, WIN_SIZE_D := 250, DC_SIZE_D := 120,
    EPC_BITS := 129, RN16_BITS := 17, TAG_PREAMBLE_BITS := 6,
    THRESH_FRACTION := 3 / 4, NUM_PULSES_COMMAND := 5,
    MAX_NUM_QUERIES := 1000, NUMBER_UNIQUE_TAGS := 100,
    abs := abs_exact }

/-- A reader state with the given status, gate request, forward-window length
and number of queries sent; no tag read so far and an empty squared-magnitude
buffer. -/
def sample_reader_state (st : STATUS) (g : GATE_STATUS) (L : Int) (queries : Int) :
    READER_STATE :=
  { status := st, gate_status := g, n_samples_to_ungate := L, magn_squared_samples := [],
    reader_stats := { n_queries_sent := queries, tag_reads_size := 0, start_tv_sec := 0,
                      end_tv_sec := 0 } }

/-- The block the constructor builds for `sample_consts` at 400 kHz around the
reader state `rs`. -/
def sample_block (rs : READER_STATE) : gate_impl :=
  { n_samples := 0, n_samples_T1 := 96, n_samples_PW := 4, n_samples_TAG_BIT := 10,
    win_index := 0, dc_index := 0, win_length := 100, dc_length := 48, num_pulses := 0,
    signal_state := NEG_EDGE, avg_ampl := 0, sample_thresh := 0, dc_est := ⟨0, 0⟩,
    win_samples := List.replicate 100 0, dc_samples := List.replicate 48 ⟨0, 0⟩,
    reader_state := rs }

/-- A block that is seeking with a full preamble behind it: edge state RISING,
96 samples elapsed, 6 pulses counted, window length `L`. -/
def primed_block (L : Int) : gate_impl :=
  { sample_block (sample_reader_state RUNNING GATE_CLOSED L 0) with
    signal_state := POS_EDGE, n_samples := 96, num_pulses := 6 }

/-- An open block, window length 3 and nothing forwarded yet, whose reader has
sent 1001 queries (more than `MAX_NUM_QUERIES`) while the status is RUNNING. -/
def over_limit_open_block : gate_impl :=
  sample_block (sample_reader_state RUNNING GATE_OPEN 3 1001)

/-- An open block, window length 3 and nothing forwarded yet, below the limits. -/
def open_block : gate_impl :=
  sample_block (sample_reader_state RUNNING GATE_OPEN 3 0)

/-- The samples `(1,0), (2,0), (3,0), (4,0)`. -/
def four_samples : List gr_complex := [⟨1, 0⟩, ⟨2, 0⟩, ⟨3, 0⟩, ⟨4, 0⟩]

/-- The block of the truncation scenario: RUNNING, gate OPEN, window length 50,
window counter 0, below the limits. -/
def scenario_block : gate_impl :=
  sample_block (sample_reader_state RUNNING GATE_OPEN 50 0)

/-- A batch of 80 samples `(1,0)`. -/
def eighty_samples : List gr_complex := List.replicate 80 ⟨1, 0⟩

/-- Six pulses: three samples at level 0, then one at level 1, six times over. -/
def preamble_pulses : List gr_complex :=
  (List.replicate 6 [⟨0, 0⟩, ⟨0, 0⟩, ⟨0, 0⟩, ⟨1, 0⟩]).flatten

/-- A stretch of `n` samples at level 1. -/
def carrier (n : Nat) : List gr_complex := List.replicate n ⟨1, 0⟩

/-- A freshly built block with an RN16 request pending. -/
def armed_block : gate_impl :=
  sample_block (sample_reader_state RUNNING GATE_SEEK_RN16 0 0)

/-- A first batch for `armed_block`: a rising edge, six pulses, 97 samples of
carrier (on the last of which the command is detected) and the 249 samples that
fill the window of 250. -/
def first_batch : List gr_complex := [⟨1, 0⟩] ++ preamble_pulses ++ carrier 97 ++ carrier 249

/-- A second batch: six pulses and 97 samples of carrier. -/
def second_batch : List gr_complex := preamble_pulses ++ carrier 97

/-- A closed block in the FALLING state with six pulses counted and three
samples elapsed: the next rising edge completes the preamble. -/
def pulsed_block : gate_impl :=
  { sample_block (sample_reader_state RUNNING GATE_CLOSED 250 0) with
    signal_state := NEG_EDGE, n_samples := 3, num_pulses := 6 }

/-! ## Lemmas on the sample loop -/

theorem loop_body_open_continue (C : Consts) (s : gate_impl) (l : work_locals) (i : Int)
    (x : gr_complex) (h : s.reader_state.gate_status = GATE_OPEN)
    (hb : s.n_samples + 1 < s.reader_state.n_samples_to_ungate) :
    loop_body C s l i x =
      (forwarded C s x,
       { l with out := l.out ++ [x - s.dc_est], written := l.written + 1 }, false) := by
  simp [loop_body, track_amplitude, forwarded, h, hb]

theorem loop_body_open_break (C : Consts) (s : gate_impl) (l : work_locals) (i : Int)
    (x : gr_complex) (h : s.reader_state.gate_status = GATE_OPEN)
    (hb : s.reader_state.n_samples_to_ungate ≤ s.n_samples + 1) :
    loop_body C s l i x =
      (window_closed C s x,
       { number_samples_consumed := i + 1, out := l.out ++ [x - s.dc_est],
         written := l.written + 1 }, true) := by
  simp [loop_body, track_amplitude, forwarded, window_closed, h, hb]

theorem sample_loop_open (C : Consts) :
    ∀ (xs : List gr_complex) (s : gate_impl) (l : work_locals) (i : Int),
      s.reader_state.gate_status = GATE_OPEN →
      ((xs.length : Int) < s.reader_state.n_samples_to_ungate - s.n_samples →
        (sample_loop C s l i xs).2.2 = false ∧
        (sample_loop C s l i xs).1.reader_state.gate_status = GATE_OPEN ∧
        (sample_loop C s l i xs).2.1.out = l.out ++ xs.map (fun x => x - s.dc_est) ∧
        (sample_loop C s l i xs).2.1.written = l.written + xs.length ∧
        (sample_loop C s l i xs).2.1.number_samples_consumed = l.number_samples_consumed ∧
        (sample_loop C s l i xs).1.n_samples = s.n_samples + xs.length) ∧
      (s.n_samples < s.reader_state.n_samples_to_ungate →
        s.reader_state.n_samples_to_ungate - s.n_samples ≤ (xs.length : Int) →
        (sample_loop C s l i xs).2.2 = true ∧
        (sample_loop C s l i xs).1.reader_state.gate_status = GATE_CLOSED ∧
        (sample_loop C s l i xs).2.1.out =
          l.out ++ (xs.take (s.reader_state.n_samples_to_ungate - s.n_samples).toNat).map
            (fun x => x - s.dc_est) ∧
        (sample_loop C s l i xs).2.1.written =
          l.written + (s.reader_state.n_samples_to_ungate - s.n_samples) ∧
        (sample_loop C s l i xs).2.1.number_samples_consumed =
          i + (s.reader_state.n_samples_to_ungate - s.n_samples)) := by
  intro xs
  induction xs with
  | nil =>
    intro s l i h
    refine ⟨fun _ => ?_, fun h1 h2 => ?_⟩
    · simp [sample_loop, h]
    · simp at h2; omega
  | cons x rest ih =>
    intro s l i h
    by_cases hb : s.n_samples + 1 < s.reader_state.n_samples_to_ungate
    · have hbody := loop_body_open_continue C s l i x h hb
      have hs : sample_loop C s l i (x :: rest) =
          sample_loop C (forwarded C s x)
            { l with out := l.out ++ [x - s.dc_est], written := l.written + 1 } (i + 1) rest := by
        simp [sample_loop, hbody]
      have hg : (forwarded C s x).reader_state.gate_status = GATE_OPEN := by
        simp [forwarded, h]
      have hL : (forwarded C s x).reader_state.n_samples_to_ungate =
          s.reader_state.n_samples_to_ungate := by simp [forwarded]
      have hn : (forwarded C s x).n_samples = s.n_samples + 1 := by simp [forwarded]
      have hd : (forwarded C s x).dc_est = s.dc_est := by simp [forwarded, track_amplitude]
      obtain ⟨ih1, ih2⟩ := ih (forwarded C s x)
        { l with out := l.out ++ [x - s.dc_est], written := l.written + 1 } (i + 1) hg
      rw [hs, hL, hn, hd] at *
      refine ⟨fun h1 => ?_, fun h1 h2 => ?_⟩
      · have h1' : (rest.length : Int) <
            s.reader_state.n_samples_to_ungate - (s.n_samples + 1) := by
          simp at h1; omega
        obtain ⟨a, b, c, d, e, f⟩ := ih1 h1'
        refine ⟨a, b, ?_, ?_, ?_, ?_⟩
        · simp [c]
        · rw [d]; simp; ring
        · simpa using e
        · rw [f]; simp; ring
      · have h2' : s.reader_state.n_samples_to_ungate - (s.n_samples + 1) ≤
            (rest.length : Int) := by
          simp at h2; omega
        obtain ⟨a, b, c, d, e⟩ := ih2 hb h2'
        have hk : (s.reader_state.n_samples_to_ungate - s.n_samples).toNat =
            (s.reader_state.n_samples_to_ungate - (s.n_samples + 1)).toNat + 1 := by omega
        refine ⟨a, b, ?_, ?_, ?_⟩
        · rw [c, hk]; simp
        · rw [d]; simp; ring
        · rw [e]; ring
    · have hb' : s.reader_state.n_samples_to_ungate ≤ s.n_samples + 1 := by omega
      have hbody := loop_body_open_break C s l i x h hb'
      have hs : sample_loop C s l i (x :: rest) = loop_body C s l i x := by
        simp [sample_loop, hbody]
      rw [hs, hbody]
      refine ⟨fun h1 => ?_, fun h1 h2 => ?_⟩
      · simp at h1; omega
      · have hk : s.reader_state.n_samples_to_ungate - s.n_samples = 1 := by omega
        simp [hk, window_closed]

theorem seek_step_reader_state (C : Consts) (s : gate_impl) (x : gr_complex) :
    (seek_step C s x).reader_state = s.reader_state := by
  unfold seek_step edge_detect track_dc track_amplitude
  dsimp only
  split_ifs <;> rfl

theorem track_amplitude_reader_state (C : Consts) (s : gate_impl) (x : gr_complex) :
    (track_amplitude C s x).reader_state = s.reader_state := rfl

theorem seek_run_reader_state (C : Consts) :
    ∀ (xs : List gr_complex) (s : gate_impl),
      (seek_run C s xs).reader_state = s.reader_state := by
  intro xs
  induction xs with
  | nil => intro s; rfl
  | cons x rest ih =>
    intro s
    have := ih (seek_step C s x)
    simp only [seek_run, List.foldl_cons] at this ⊢
    rw [this, seek_step_reader_state]

theorem loop_body_seek_quiet (C : Consts) (s : gate_impl) (l : work_locals) (i : Int)
    (x : gr_complex) (h : s.reader_state.gate_status ≠ GATE_OPEN)
    (hd : ¬ command_detected C (seek_step C s x)) :
    loop_body C s l i x = (seek_step C s x, l, false) := by
  have hg : ¬ (track_amplitude C s x).reader_state.gate_status = GATE_OPEN := h
  have hd' : ¬ command_detected C (edge_detect C (track_dc (track_amplitude C s x) x) x) := hd
  unfold loop_body
  simp only [hg, hd', not_false_eq_true, if_true, if_false]
  rfl

theorem loop_body_seek_detected (C : Consts) (s : gate_impl) (l : work_locals) (i : Int)
    (x : gr_complex) (h : s.reader_state.gate_status ≠ GATE_OPEN)
    (hd : command_detected C (seek_step C s x)) :
    loop_body C s l i x =
      (opened C s x,
       { l with out := l.out ++ [x - (seek_step C s x).dc_est], written := l.written + 1 },
       false) := by
  have hg : ¬ (track_amplitude C s x).reader_state.gate_status = GATE_OPEN := h
  have hd' : command_detected C (edge_detect C (track_dc (track_amplitude C s x) x) x) := hd
  unfold loop_body
  simp only [hg, hd', not_false_eq_true, if_true]
  rfl

theorem sample_loop_seek_quiet (C : Consts) :
    ∀ (xs : List gr_complex) (s : gate_impl) (l : work_locals) (i : Int),
      s.reader_state.gate_status ≠ GATE_OPEN → never_detected C s xs →
      sample_loop C s l i xs = (seek_run C s xs, l, false) := by
  intro xs
  induction xs with
  | nil => intro s l i _ _; rfl
  | cons x rest ih =>
    intro s l i h hn
    obtain ⟨hd, hrest⟩ := hn
    have hbody := loop_body_seek_quiet C s l i x h hd
    have hg : (seek_step C s x).reader_state.gate_status ≠ GATE_OPEN := by
      rw [seek_step_reader_state]; exact h
    have := ih (seek_step C s x) l (i + 1) hg hrest
    simp only [sample_loop, hbody]
    simpa [seek_run] using this

theorem sample_loop_append (C : Consts) :
    ∀ (xs ys : List gr_complex) (s : gate_impl) (l : work_locals) (i : Int),
      sample_loop C s l i (xs ++ ys) =
        if (sample_loop C s l i xs).2.2 then sample_loop C s l i xs
        else sample_loop C (sample_loop C s l i xs).1 (sample_loop C s l i xs).2.1
          (i + xs.length) ys := by
  intro xs
  induction xs with
  | nil => intro ys s l i; simp [sample_loop]
  | cons x rest ih =>
    intro ys s l i
    by_cases hb : (loop_body C s l i x).2.2 = true
    · simp [sample_loop, hb]
    · have e1 : sample_loop C s l i (x :: rest ++ ys) =
          sample_loop C (loop_body C s l i x).1 (loop_body C s l i x).2.1 (i + 1) (rest ++ ys) := by
        simp [sample_loop, hb]
      have e2 : sample_loop C s l i (x :: rest) =
          sample_loop C (loop_body C s l i x).1 (loop_body C s l i x).2.1 (i + 1) rest := by
        simp [sample_loop, hb]
      have e3 : i + ((x :: rest).length : Int) = i + 1 + (rest.length : Int) := by
        simp; ring
      rw [e1, e2, e3, ih]


theorem termination_check_quiet (C : Consts) (now : Int) (s : gate_impl)
    (h : ¬ limits_exceeded C s) : termination_check C now s = (s, false) := by
  simp [termination_check, h]

theorem gate_control_status (C : Consts) (s : gate_impl) :
    (gate_control C s).reader_state.status = s.reader_state.status := by
  unfold gate_control
  split_ifs <;> rfl

theorem gate_control_idle (C : Consts) (s : gate_impl)
    (h : s.reader_state.gate_status = GATE_OPEN ∨ s.reader_state.gate_status = GATE_CLOSED) :
    gate_control C s = s := by
  unfold gate_control
  rcases h with h | h <;> simp [h]

theorem gate_control_not_open (C : Consts) (s : gate_impl)
    (h : s.reader_state.gate_status ≠ GATE_OPEN) :
    (gate_control C s).reader_state.gate_status = GATE_CLOSED := by
  unfold gate_control
  split_ifs with h1 h2
  · rfl
  · rfl
  · cases hg : s.reader_state.gate_status <;> simp_all

theorem general_work_running (C : Consts) (now : Int) (s : gate_impl) (input : List gr_complex)
    (hrun : s.reader_state.status = RUNNING) (hlim : ¬ limits_exceeded C s) :
    general_work C now s input =
      { state := (sample_loop C (gate_control C s) (initial_locals input) 0 input).1,
        out := (sample_loop C (gate_control C s) (initial_locals input) 0 input).2.1.out,
        consumed :=
          (sample_loop C (gate_control C s) (initial_locals input) 0 input).2.1.number_samples_consumed,
        returned := (sample_loop C (gate_control C s) (initial_locals input) 0 input).2.1.written,
        notice := false } := by
  have h2 : (gate_control C s).reader_state.status = RUNNING := by
    rw [gate_control_status]; exact hrun
  simp only [general_work, termination_check_quiet C now s hlim, h2, if_true, initial_locals]


theorem loop_body_shape (C : Consts) (s : gate_impl) (x : gr_complex) :
    ∃ (st : gate_impl) (o : List gr_complex) (brk : Bool),
      o.length ≤ 1 ∧
      (brk = true ↔
        s.reader_state.gate_status = GATE_OPEN ∧ st.reader_state.gate_status = GATE_CLOSED) ∧
      ∀ (l : work_locals) (i : Int),
        loop_body C s l i x =
          (st,
           { number_samples_consumed := if brk then i + 1 else l.number_samples_consumed,
             written := l.written + (o.length : Int),
             out := l.out ++ o },
           brk) := by
  by_cases h : s.reader_state.gate_status = GATE_OPEN
  · by_cases hb : s.n_samples + 1 < s.reader_state.n_samples_to_ungate
    · refine ⟨forwarded C s x, [x - s.dc_est], false, by simp, ?_, fun l i => ?_⟩
      · simp [forwarded, h]
      · rw [loop_body_open_continue C s l i x h hb]; simp
    · have hb' : s.reader_state.n_samples_to_ungate ≤ s.n_samples + 1 := by omega
      refine ⟨window_closed C s x, [x - s.dc_est], true, by simp, ?_, fun l i => ?_⟩
      · simp [h, window_closed]
      · rw [loop_body_open_break C s l i x h hb']; simp
  · by_cases hd : command_detected C (seek_step C s x)
    · refine ⟨opened C s x, [x - (seek_step C s x).dc_est], false, by simp, ?_, fun l i => ?_⟩
      · simp [h]
      · rw [loop_body_seek_detected C s l i x h hd]; simp
    · refine ⟨seek_step C s x, [], false, by simp, ?_, fun l i => ?_⟩
      · simp [h]
      · rw [loop_body_seek_quiet C s l i x h hd]; simp

theorem sample_loop_completes (C : Consts) :
    ∀ (xs : List gr_complex) (s : gate_impl) (l : work_locals) (i : Int) (k : Nat),
      window_completes_at C s l i xs k →
      (sample_loop C s l i xs).2.2 = true ∧
      (sample_loop C s l i xs).2.1.number_samples_consumed = i + k + 1 ∧
      ∀ (ys : List gr_complex) (l' : work_locals), l'.out = l.out → l'.written = l.written →
        sample_loop C s l' i (xs.take (k + 1) ++ ys) = sample_loop C s l i xs := by
  intro xs
  induction xs with
  | nil => intro s l i k h; exact absurd h (by simp [window_completes_at])
  | cons x rest ih =>
    intro s l i k h
    obtain ⟨st, o, brk, _, hiff, hbody⟩ := loop_body_shape C s x
    cases k with
    | zero =>
      simp only [window_completes_at, hbody l i] at h
      have hbrk : brk = true := hiff.2 h
      subst hbrk
      refine ⟨by simp [sample_loop, hbody], by simp [sample_loop, hbody], ?_⟩
      intro ys l' ho hw
      simp [sample_loop, hbody, ho, hw]
    | succ k =>
      simp only [window_completes_at, hbody l i] at h
      obtain ⟨hno, hrest⟩ := h
      have hbrk : brk = false := by
        cases brk
        · rfl
        · exact absurd (hiff.1 rfl) hno
      subst hbrk
      obtain ⟨h1, h2, h3⟩ := ih st _ (i + 1) k hrest
      have e : sample_loop C s l i (x :: rest) =
          sample_loop C st
            { number_samples_consumed := l.number_samples_consumed,
              written := l.written + (o.length : Int), out := l.out ++ o } (i + 1) rest := by
        simp [sample_loop, hbody]
      rw [e]
      refine ⟨by simpa using h1, ?_, ?_⟩
      · simp only [Bool.false_eq_true, if_false] at h2
        rw [h2]; push_cast; ring
      · intro ys l' ho hw
        have := h3 ys
          { number_samples_consumed := l'.number_samples_consumed,
            written := l'.written + (o.length : Int), out := l'.out ++ o }
          (by simp [ho]) (by simp [hw])
        simpa [sample_loop, hbody] using this

theorem sample_loop_never_completes (C : Consts) :
    ∀ (xs : List gr_complex) (s : gate_impl) (l : work_locals) (i : Int),
      (∀ k, ¬ window_completes_at C s l i xs k) →
      (sample_loop C s l i xs).2.2 = false ∧
      (sample_loop C s l i xs).2.1.number_samples_consumed = l.number_samples_consumed := by
  intro xs
  induction xs with
  | nil => intro s l i _; simp [sample_loop]
  | cons x rest ih =>
    intro s l i h
    obtain ⟨st, o, brk, _, hiff, hbody⟩ := loop_body_shape C s x
    have h0 := h 0
    simp only [window_completes_at, hbody l i] at h0
    have hbrk : brk = false := by
      cases brk
      · rfl
      · exact absurd (hiff.1 rfl) h0
    subst hbrk
    have hrest : ∀ k, ¬ window_completes_at C st
        { number_samples_consumed := l.number_samples_consumed,
          written := l.written + (o.length : Int), out := l.out ++ o } (i + 1) rest k := by
      intro k hk
      have := h (k + 1)
      simp only [window_completes_at, hbody l i] at this
      exact this ⟨h0, by simpa using hk⟩
    have := ih st _ (i + 1) hrest
    simpa [sample_loop, hbody] using this

theorem sample_loop_written (C : Consts) :
    ∀ (xs : List gr_complex) (s : gate_impl) (l : work_locals) (i : Int),
      ∃ o : List gr_complex,
        (sample_loop C s l i xs).2.1.out = l.out ++ o ∧
        (sample_loop C s l i xs).2.1.written = l.written + (o.length : Int) := by
  intro xs
  induction xs with
  | nil => intro s l i; exact ⟨[], by simp [sample_loop]⟩
  | cons x rest ih =>
    intro s l i
    obtain ⟨st, o, brk, _, _, hbody⟩ := loop_body_shape C s x
    cases brk with
    | true => exact ⟨o, by simp [sample_loop, hbody]⟩
    | false =>
      obtain ⟨o', h1, h2⟩ := ih st
        { number_samples_consumed := l.number_samples_consumed,
          written := l.written + (o.length : Int), out := l.out ++ o } (i + 1)
      refine ⟨o ++ o', ?_, ?_⟩
      · simpa [sample_loop, hbody] using h1
      · simp only [sample_loop, hbody, Bool.false_eq_true, if_false]
        rw [h2]; simp; ring

theorem sample_loop_shape (C : Consts) :
    ∀ (xs : List gr_complex) (s : gate_impl),
      ∃ (st : gate_impl) (o : List gr_complex) (brk : Bool) (k : Nat),
        o.length ≤ k ∧ k ≤ xs.length ∧
        ∀ (l : work_locals) (i : Int),
          sample_loop C s l i xs =
            (st,
             { number_samples_consumed := if brk then i + (k : Int) else l.number_samples_consumed,
               written := l.written + (o.length : Int),
               out := l.out ++ o },
             brk) := by
  intro xs
  induction xs with
  | nil =>
    intro s
    exact ⟨s, [], false, 0, by simp, by simp, fun l i => by simp [sample_loop]⟩
  | cons x rest ih =>
    intro s
    obtain ⟨st, o, brk, ho, _, hbody⟩ := loop_body_shape C s x
    cases brk with
    | true =>
      refine ⟨st, o, true, 1, ho, by simp, fun l i => ?_⟩
      simp [sample_loop, hbody]
    | false =>
      obtain ⟨st', o', brk', k, ho', hk, hloop⟩ := ih st
      refine ⟨st', o ++ o', brk', k + 1, by simp; omega, by simp; omega, fun l i => ?_⟩
      simp only [sample_loop, hbody, Bool.false_eq_true, if_false, hloop]
      cases brk' with
      | true => simp [add_assoc]; ring
      | false => simp [add_assoc]

theorem seek_step_frame (C : Consts) (s : gate_impl) (x : gr_complex) :
    (seek_step C s x).n_samples_T1 = s.n_samples_T1 ∧
    (seek_step C s x).n_samples_PW = s.n_samples_PW ∧
    (seek_step C s x).n_samples_TAG_BIT = s.n_samples_TAG_BIT ∧
    (seek_step C s x).win_length = s.win_length ∧
    (seek_step C s x).dc_length = s.dc_length := by
  unfold seek_step edge_detect track_dc track_amplitude
  dsimp only
  split_ifs <;> simp

theorem loop_body_frame (C : Consts) (s : gate_impl) (l : work_locals) (i : Int)
    (x : gr_complex) :
    (loop_body C s l i x).1.reader_state.status = s.reader_state.status ∧
    (loop_body C s l i x).1.reader_state.reader_stats = s.reader_state.reader_stats ∧
    (loop_body C s l i x).1.reader_state.n_samples_to_ungate
      = s.reader_state.n_samples_to_ungate ∧
    ((loop_body C s l i x).1.reader_state.gate_status = GATE_OPEN ∨
      (loop_body C s l i x).1.reader_state.gate_status = GATE_CLOSED ∨
      (loop_body C s l i x).1.reader_state.gate_status = s.reader_state.gate_status) := by
  by_cases h : s.reader_state.gate_status = GATE_OPEN
  · by_cases hb : s.n_samples + 1 < s.reader_state.n_samples_to_ungate
    · rw [loop_body_open_continue C s l i x h hb]
      simp [forwarded, track_amplitude, h]
    · rw [loop_body_open_break C s l i x h (by omega)]
      simp [window_closed, forwarded, track_amplitude]
  · by_cases hd : command_detected C (seek_step C s x)
    · rw [loop_body_seek_detected C s l i x h hd]
      simp [opened, seek_step_reader_state]
    · rw [loop_body_seek_quiet C s l i x h hd]
      simp [seek_step_reader_state]

theorem sample_loop_frame (C : Consts) :
    ∀ (xs : List gr_complex) (s : gate_impl) (l : work_locals) (i : Int),
      (sample_loop C s l i xs).1.reader_state.status = s.reader_state.status ∧
      (sample_loop C s l i xs).1.reader_state.reader_stats = s.reader_state.reader_stats ∧
      (sample_loop C s l i xs).1.reader_state.n_samples_to_ungate
        = s.reader_state.n_samples_to_ungate ∧
      (gate_settled s → gate_settled (sample_loop C s l i xs).1) := by
  intro xs
  induction xs with
  | nil => intro s l i; simp [sample_loop]
  | cons x rest ih =>
    intro s l i
    obtain ⟨h1, h2, h3, h4⟩ := loop_body_frame C s l i x
    have hset : gate_settled s → gate_settled (loop_body C s l i x).1 := by
      intro hs
      rcases h4 with h | h | h
      · exact Or.inl h
      · exact Or.inr h
      · unfold gate_settled; rw [h]; exact hs
    by_cases hb : (loop_body C s l i x).2.2 = true
    · have e : sample_loop C s l i (x :: rest) = loop_body C s l i x := by
        simp [sample_loop, hb]
      rw [e]; exact ⟨h1, h2, h3, hset⟩
    · have e : sample_loop C s l i (x :: rest) =
          sample_loop C (loop_body C s l i x).1 (loop_body C s l i x).2.1 (i + 1) rest := by
        simp [sample_loop, hb]
      obtain ⟨g1, g2, g3, g4⟩ := ih (loop_body C s l i x).1 (loop_body C s l i x).2.1 (i + 1)
      rw [e]
      exact ⟨g1.trans h1, g2.trans h2, g3.trans h3, fun hs => g4 (hset hs)⟩

theorem gate_control_settled (C : Consts) (s : gate_impl) : gate_settled (gate_control C s) := by
  unfold gate_settled gate_control
  split_ifs with h1 h2
  · right; rfl
  · right; rfl
  · cases hg : s.reader_state.gate_status <;> simp_all

theorem gate_control_stats (C : Consts) (s : gate_impl) :
    (gate_control C s).reader_state.reader_stats = s.reader_state.reader_stats := by
  unfold gate_control
  split_ifs <;> rfl

theorem termination_check_running (C : Consts) (now : Int) (s : gate_impl)
    (h : (termination_check C now s).1.reader_state.status = RUNNING) :
    ¬ limits_exceeded C s ∧ s.reader_state.status = RUNNING := by
  unfold termination_check at h
  split_ifs at h with hc
  constructor
  · intro hl
    apply hc
    refine ⟨hl, ?_⟩
    simp only at h
    rw [h]; decide
  · exact h

theorem limits_exceeded_congr (C : Consts) (s t : gate_impl)
    (h : t.reader_state.reader_stats = s.reader_state.reader_stats) :
    limits_exceeded C t ↔ limits_exceeded C s := by
  unfold limits_exceeded; rw [h]

theorem general_work_settled (C : Consts) (now : Int) (s : gate_impl) (input : List gr_complex)
    (hset : gate_settled s)
    (hq : ¬ limits_exceeded C s ∨ s.reader_state.status = TERMINATED) :
    general_work C now s input =
      if s.reader_state.status = RUNNING then
        { state := (sample_loop C s (initial_locals input) 0 input).1,
          out := (sample_loop C s (initial_locals input) 0 input).2.1.out,
          consumed := (sample_loop C s (initial_locals input) 0 input).2.1.number_samples_consumed,
          returned := (sample_loop C s (initial_locals input) 0 input).2.1.written,
          notice := false }
      else
        { state := s, out := [], consumed := (input.length : Int), returned := 0,
          notice := false } := by
  have ht : termination_check C now s = (s, false) := by
    unfold termination_check
    rw [if_neg]
    rintro ⟨h1, h2⟩
    rcases hq with h | h
    · exact h h1
    · exact h2 h
  have hg : gate_control C s = s := gate_control_idle C s hset
  simp only [general_work, ht, hg, initial_locals]
  split_ifs <;> rfl


/-! ### The `double` arithmetic of the constructor -/
theorem floor_log2_aux_spec (fuel : Nat) : ∀ n : Nat, n ≤ fuel → n ≠ 0 →
    2 ^ floor_log2_aux fuel n ≤ n ∧ n < 2 ^ (floor_log2_aux fuel n + 1) := by
  induction fuel with
  | zero => intro n h h0; omega
  | succ fuel ih =>
    intro n h h0
    unfold floor_log2_aux
    by_cases h2 : n < 2
    · rw [if_pos h2]
      have : n = 1 := by omega
      subst this
      norm_num
    · rw [if_neg h2]
      have hn : n / 2 ≤ fuel := by omega
      have hn0 : n / 2 ≠ 0 := by omega
      obtain ⟨a, b⟩ := ih (n / 2) hn hn0
      constructor
      · rw [pow_succ]; omega
      · rw [pow_succ]; omega

theorem floor_log2_spec (n : Nat) (h : n ≠ 0) :
    2 ^ floor_log2 n ≤ n ∧ n < 2 ^ (floor_log2 n + 1) :=
  floor_log2_aux_spec n n (le_refl n) h

theorem binade_spec (q : ℚ) (h : q ≠ 0) :
    (2 : ℚ) ^ binade q ≤ |q| ∧ |q| < (2 : ℚ) ^ (binade q + 1) := by
  have hn : q.num.natAbs ≠ 0 := by
    intro h0; apply h; exact Rat.zero_of_num_zero (Int.natAbs_eq_zero.mp h0)
  obtain ⟨a1, a2⟩ := floor_log2_spec q.num.natAbs hn
  obtain ⟨b1, b2⟩ := floor_log2_spec q.den q.den_nz
  have hq : |q| = (q.num.natAbs : ℚ) / (q.den : ℚ) := by
    rw [Rat.abs_def, Rat.divInt_eq_div]
    simp [Nat.cast_natAbs]
  have hd : (0 : ℚ) < (q.den : ℚ) := by exact_mod_cast q.den_pos
  have a1q : (2 : ℚ) ^ (floor_log2 q.num.natAbs) ≤ (q.num.natAbs : ℚ) := by exact_mod_cast a1
  have a2q : (q.num.natAbs : ℚ) < (2 : ℚ) ^ (floor_log2 q.num.natAbs + 1) := by exact_mod_cast a2
  have b1q : (2 : ℚ) ^ (floor_log2 q.den) ≤ (q.den : ℚ) := by exact_mod_cast b1
  have b2q : (q.den : ℚ) < (2 : ℚ) ^ (floor_log2 q.den + 1) := by exact_mod_cast b2
  have two : (0 : ℚ) < 2 := by norm_num
  have e0 : ∀ z : Int, (2 : ℚ) ^ ((floor_log2 q.num.natAbs : Int) - (floor_log2 q.den : Int) + z)
      = (2 : ℚ) ^ (floor_log2 q.num.natAbs) / (2 : ℚ) ^ (floor_log2 q.den) * (2 : ℚ) ^ z := by
    intro z
    rw [zpow_add₀ two.ne', zpow_sub₀ two.ne', zpow_natCast, zpow_natCast]
  have pa : (0 : ℚ) < (2 : ℚ) ^ (floor_log2 q.num.natAbs) := by positivity
  have pb : (0 : ℚ) < (2 : ℚ) ^ (floor_log2 q.den) := by positivity
  have lo : (2 : ℚ) ^ ((floor_log2 q.num.natAbs : Int) - (floor_log2 q.den : Int) + (-1)) ≤ |q| := by
    rw [e0, hq, zpow_neg_one, div_mul_eq_mul_div, div_le_div_iff₀ pb hd]
    rw [pow_succ] at b2q
    nlinarith
  have hi : |q| < (2 : ℚ) ^ ((floor_log2 q.num.natAbs : Int) - (floor_log2 q.den : Int) + 1) := by
    rw [e0, hq, zpow_one, div_mul_eq_mul_div, div_lt_div_iff₀ hd pb]
    rw [pow_succ] at a2q
    nlinarith
  unfold binade
  split_ifs with c
  · exact ⟨c, hi⟩
  · push_neg at c
    constructor
    · rw [sub_eq_add_neg]; exact lo
    · have : (floor_log2 q.num.natAbs : Int) - (floor_log2 q.den : Int) - 1 + 1 =
        (floor_log2 q.num.natAbs : Int) - (floor_log2 q.den : Int) := by ring
      rw [this]; exact c

theorem round_nearest_even_err (y : ℚ) : |((round_nearest_even y : Int) : ℚ) - y| ≤ 1 / 2 := by
  have h1 := Int.floor_le y
  have h2 := Int.lt_floor_add_one y
  unfold round_nearest_even
  rw [abs_le]
  split_ifs with a b c
  · constructor <;> linarith
  · push_cast; constructor <;> linarith
  · push_neg at a b; constructor <;> linarith
  · push_neg at a b; push_cast; constructor <;> linarith

theorem round_nearest_even_nonneg (y : ℚ) (h : 0 ≤ y) : 0 ≤ round_nearest_even y := by
  have h1 : 0 ≤ ⌊y⌋ := Int.floor_nonneg.mpr h
  unfold round_nearest_even
  split_ifs <;> omega

theorem to_double_nonneg (q : ℚ) (h : 0 ≤ q) : 0 ≤ to_double q := by
  unfold to_double
  split_ifs with c
  · exact le_refl 0
  · have p : (0 : ℚ) < (2 : ℚ) ^ (binade q - 52) := by positivity
    have : 0 ≤ round_nearest_even (q / (2 : ℚ) ^ (binade q - 52)) :=
      round_nearest_even_nonneg _ (div_nonneg h p.le)
    have : (0 : ℚ) ≤ ((round_nearest_even (q / (2 : ℚ) ^ (binade q - 52)) : Int) : ℚ) := by
      exact_mod_cast this
    positivity

theorem to_double_err (q : ℚ) : |to_double q - q| ≤ |q| / 2 ^ 53 := by
  unfold to_double
  split_ifs with c
  · subst c; norm_num
  · have p : (0 : ℚ) < (2 : ℚ) ^ (binade q - 52) := by positivity
    have hb := (binade_spec q c).1
    have e : (2 : ℚ) ^ (binade q - 52) = (2 : ℚ) ^ binade q / 2 ^ 52 := by
      rw [zpow_sub₀ (by norm_num)]; norm_num
    have hr := round_nearest_even_err (q / (2 : ℚ) ^ (binade q - 52))
    have e2 : ((round_nearest_even (q / (2 : ℚ) ^ (binade q - 52)) : Int) : ℚ) *
        (2 : ℚ) ^ (binade q - 52) - q =
        (((round_nearest_even (q / (2 : ℚ) ^ (binade q - 52)) : Int) : ℚ) -
          q / (2 : ℚ) ^ (binade q - 52)) * (2 : ℚ) ^ (binade q - 52) := by
      field_simp
    rw [e2, abs_mul, abs_of_pos p]
    calc |((round_nearest_even (q / (2 : ℚ) ^ (binade q - 52)) : Int) : ℚ) -
            q / (2 : ℚ) ^ (binade q - 52)| * (2 : ℚ) ^ (binade q - 52)
        ≤ 1 / 2 * (2 : ℚ) ^ (binade q - 52) := mul_le_mul_of_nonneg_right hr p.le
      _ = (2 : ℚ) ^ binade q / 2 ^ 53 := by rw [e]; ring
      _ ≤ |q| / 2 ^ 53 := div_le_div_of_nonneg_right hb (by positivity)

theorem truncate_nonneg (q : ℚ) (h : 0 ≤ q) : truncate q = ⌊q⌋ := by
  unfold truncate
  rw [Rat.floor_def, Int.tdiv_eq_ediv (Rat.num_nonneg.mpr h) (Int.natCast_nonneg _)]

theorem derive_samples_err (D sample_rate : Int) (hD : 0 ≤ D) (hs : 0 ≤ sample_rate)
    (hX : D * sample_rate ≤ 2 ^ 51) :
    0 ≤ to_double ((D : ℚ) * to_double ((sample_rate : ℚ) / (10 : ℚ) ^ 6)) ∧
    |to_double ((D : ℚ) * to_double ((sample_rate : ℚ) / (10 : ℚ) ^ 6)) -
      ((D * sample_rate : Int) : ℚ) / 10 ^ 6| < 1 / 10 ^ 6 := by
  have hDq : (0 : ℚ) ≤ (D : ℚ) := by exact_mod_cast hD
  have hsq : (0 : ℚ) ≤ (sample_rate : ℚ) := by exact_mod_cast hs
  have hXq : (D : ℚ) * (sample_rate : ℚ) ≤ 2 ^ 51 := by exact_mod_cast hX
  have hr : (0 : ℚ) ≤ (sample_rate : ℚ) / (10 : ℚ) ^ 6 := by positivity
  have hr' := to_double_nonneg _ hr
  have er := to_double_err ((sample_rate : ℚ) / (10 : ℚ) ^ 6)
  rw [abs_of_nonneg hr, abs_le] at er
  have hp : (0 : ℚ) ≤ (D : ℚ) * to_double ((sample_rate : ℚ) / (10 : ℚ) ^ 6) :=
    mul_nonneg hDq hr'
  have ep := to_double_err ((D : ℚ) * to_double ((sample_rate : ℚ) / (10 : ℚ) ^ 6))
  rw [abs_of_nonneg hp, abs_le] at ep
  refine ⟨to_double_nonneg _ hp, ?_⟩
  generalize to_double ((D : ℚ) * to_double ((sample_rate : ℚ) / (10 : ℚ) ^ 6)) = v at ep ⊢
  generalize to_double ((sample_rate : ℚ) / (10 : ℚ) ^ 6) = r at er ep hr' hp
  push_cast
  generalize (D : ℚ) = d at *
  generalize (sample_rate : ℚ) = t at *
  have k1 : d * r ≤ d * (t / 10 ^ 6 + t / 10 ^ 6 / 2 ^ 53) :=
    mul_le_mul_of_nonneg_left (by linarith [er.2]) hDq
  have k2 : d * (t / 10 ^ 6 - t / 10 ^ 6 / 2 ^ 53) ≤ d * r :=
    mul_le_mul_of_nonneg_left (by linarith [er.1]) hDq
  have k3 : d * t / 10 ^ 6 ≤ 2 ^ 51 / 10 ^ 6 := div_le_div_of_nonneg_right hXq (by positivity)
  have k4 : 0 ≤ d * t := mul_nonneg hDq hsq
  rw [abs_lt]
  constructor
  · have : -(d * r / 2 ^ 53) ≤ v - d * r := ep.1
    norm_num at *
    linarith
  · have : v - d * r ≤ d * r / 2 ^ 53 := ep.2
    norm_num at *
    linarith

theorem derive_samples_nonneg (D sample_rate : Int) (hD : 0 ≤ D) (hs : 0 ≤ sample_rate) :
    0 ≤ derive_samples D sample_rate := by
  have hDq : (0 : ℚ) ≤ (D : ℚ) := by exact_mod_cast hD
  have hsq : (0 : ℚ) ≤ (sample_rate : ℚ) := by exact_mod_cast hs
  have hr : (0 : ℚ) ≤ (sample_rate : ℚ) / (10 : ℚ) ^ 6 := by positivity
  have hp : (0 : ℚ) ≤ (D : ℚ) * to_double ((sample_rate : ℚ) / (10 : ℚ) ^ 6) :=
    mul_nonneg hDq (to_double_nonneg _ hr)
  unfold derive_samples
  rw [truncate_nonneg _ (to_double_nonneg _ hp)]
  exact Int.floor_nonneg.mpr (to_double_nonneg _ hp)

theorem derive_samples_bounds (D sample_rate : Int) (hD : 0 ≤ D) (hs : 0 ≤ sample_rate)
    (hX : D * sample_rate ≤ 2 ^ 51) :
    Int.tdiv (D * sample_rate) (10 ^ 6) - 1 ≤ derive_samples D sample_rate ∧
    derive_samples D sample_rate ≤ Int.tdiv (D * sample_rate) (10 ^ 6) ∧
    (Int.tmod (D * sample_rate) (10 ^ 6) ≠ 0 →
      derive_samples D sample_rate = Int.tdiv (D * sample_rate) (10 ^ 6)) := by
  obtain ⟨h0, he⟩ := derive_samples_err D sample_rate hD hs hX
  have hXn : 0 ≤ D * sample_rate := Int.mul_nonneg hD hs
  have e1 : Int.tdiv (D * sample_rate) (10 ^ 6) = (D * sample_rate) / 1000000 :=
    Int.tdiv_eq_ediv hXn (by norm_num)
  have e2 : Int.tmod (D * sample_rate) (10 ^ 6) = (D * sample_rate) % 1000000 :=
    Int.tmod_eq_emod hXn (by norm_num)
  unfold derive_samples
  rw [truncate_nonneg _ h0, e1, e2]
  generalize to_double ((D : ℚ) * to_double ((sample_rate : ℚ) / (10 : ℚ) ^ 6)) = v at h0 he ⊢
  generalize D * sample_rate = X at *
  rw [abs_lt] at he
  have hdm : (1000000 : Int) * (X / 1000000) + X % 1000000 = X := Int.ediv_add_emod X 1000000
  have hm0 : 0 ≤ X % 1000000 := Int.emod_nonneg X (by norm_num)
  have hm1 : X % 1000000 < 1000000 := Int.emod_lt_of_pos X (by norm_num)
  generalize X / 1000000 = n at hdm ⊢
  generalize X % 1000000 = m at hdm hm0 hm1 ⊢
  subst hdm
  have hm0q : (0 : ℚ) ≤ (m : ℚ) := by exact_mod_cast hm0
  have hm1q : (m : ℚ) ≤ 999999 := by
    have : m ≤ 999999 := by omega
    exact_mod_cast this
  push_cast at he
  refine ⟨?_, ?_, fun hm => ?_⟩
  · have : ((n - 1 : Int) : ℚ) ≤ v := by push_cast; linarith [he.1]
    exact Int.le_floor.mpr this
  · have : v < ((n + 1 : Int) : ℚ) := by push_cast; linarith [he.2]
    have := Int.floor_lt.mpr this
    omega
  · have hm2 : (1 : ℚ) ≤ (m : ℚ) := by
      have : 1 ≤ m := by omega
      exact_mod_cast this
    have l : (n : ℚ) ≤ v := by linarith [he.1]
    have u : v < ((n + 1 : Int) : ℚ) := by push_cast; linarith [he.2]
    have l' := Int.le_floor.mpr l
    have u' := Int.floor_lt.mpr u
    omega

theorem derive_samples_documented :
    derive_samples 240 400000 = 96 ∧ derive_samples 12 400000 = 4 ∧
    derive_samples 25 400000 = 10 ∧ derive_samples 250 400000 = 100 ∧
    derive_samples 120 400000 = 48 := by
  decide!


theorem first_detection (C : Consts) :
    ∀ (xs : List gr_complex) (s : gate_impl), ¬ never_detected C s xs →
      ∃ (pre : List gr_complex) (x : gr_complex) (ys : List gr_complex),
        xs = pre ++ x :: ys ∧ never_detected C s pre ∧
        command_detected C (seek_step C (seek_run C s pre) x) := by
  intro xs
  induction xs with
  | nil => intro s h; exact absurd trivial h
  | cons x rest ih =>
    intro s h
    by_cases hd : command_detected C (seek_step C s x)
    · exact ⟨[], x, rest, rfl, trivial, hd⟩
    · have hrest : ¬ never_detected C (seek_step C s x) rest := fun hr => h ⟨hd, hr⟩
      obtain ⟨pre, y, ys, e, hq, hdet⟩ := ih (seek_step C s x) hrest
      refine ⟨x :: pre, y, ys, by rw [e]; rfl, ⟨hd, hq⟩, ?_⟩
      simpa [seek_run] using hdet


theorem gr_complex.div_real (z : gr_complex) (d : ℚ) :
    z / (⟨d, 0⟩ : gr_complex) = ⟨z.re / d, z.im / d⟩ := by
  show gr_complex.div z ⟨d, 0⟩ = _
  unfold gr_complex.div
  by_cases hd : d = 0
  · subst hd; simp
  · congr 1
    · field_simp; ring
    · field_simp; ring

theorem seek_step_dc (C : Consts) (s : gate_impl) (x : gr_complex) :
    (seek_step C s x).dc_est =
      s.dc_est + (x - s.dc_samples.getD s.dc_index.toNat ⟨0, 0⟩) / ⟨(s.dc_length : ℚ), 0⟩ ∧
    (seek_step C s x).dc_samples = s.dc_samples.set s.dc_index.toNat x ∧
    (seek_step C s x).dc_index = Int.tmod (s.dc_index + 1) s.dc_length := by
  unfold seek_step edge_detect
  dsimp only
  split_ifs <;> exact ⟨rfl, rfl, rfl⟩

theorem sample_loop_open_dc (C : Consts) :
    ∀ (xs : List gr_complex) (s : gate_impl) (l : work_locals) (i : Int),
      s.reader_state.gate_status = GATE_OPEN →
      (sample_loop C s l i xs).1.dc_est = s.dc_est ∧
      (sample_loop C s l i xs).1.dc_samples = s.dc_samples ∧
      (sample_loop C s l i xs).1.dc_index = s.dc_index := by
  intro xs
  induction xs with
  | nil => intro s l i _; exact ⟨rfl, rfl, rfl⟩
  | cons x rest ih =>
    intro s l i h
    by_cases hb : s.n_samples + 1 < s.reader_state.n_samples_to_ungate
    · have hbody := loop_body_open_continue C s l i x h hb
      have hg : (forwarded C s x).reader_state.gate_status = GATE_OPEN := by
        simp [forwarded, h]
      have := ih (forwarded C s x)
        { l with out := l.out ++ [x - s.dc_est], written := l.written + 1 } (i + 1) hg
      simp only [sample_loop, hbody, Bool.false_eq_true, if_false]
      exact this
    · have hbody := loop_body_open_break C s l i x h (by omega)
      simp only [sample_loop, hbody, if_true]
      exact ⟨rfl, rfl, rfl⟩


theorem sample_block_constructed (rs : READER_STATE) :
    gate_impl.gate_impl sample_consts rs 400000 = some (sample_block rs) := by
  obtain ⟨h1, h2, h3, h4, h5⟩ := derive_samples_documented
  unfold gate_impl.gate_impl
  simp only [show sample_consts.T1_D = 240 from rfl, show sample_consts.PW_D = 12 from rfl,
    show sample_consts.TAG_BIT_D = 25 from rfl, show sample_consts.WIN_SIZE_D = 250 from rfl,
    show sample_consts.DC_SIZE_D = 120 from rfl, h1, h2, h3, h4, h5]
  rfl

/-! ## Lemmas for runs, traces and invariants -/

theorem sample_loop_open_trace (C : Consts) :
    ∀ (xs : List gr_complex) (s : gate_impl) (l : work_locals) (i : Int),
      s.reader_state.gate_status = GATE_OPEN →
      ∃ m : Nat, m ≤ xs.length ∧
        (sample_loop C s l i xs).2.1.out = l.out ++ (xs.take m).map (fun x => x - s.dc_est) ∧
        (sample_loop C s l i xs).2.1.written = l.written + (m : Int) ∧
        (sample_loop C s l i xs).1.reader_state.magn_squared_samples =
          s.reader_state.magn_squared_samples ++
            (xs.take m).map (fun x => gr_complex.norm (x - s.dc_est)) ∧
        (sample_loop C s l i xs).1.dc_est = s.dc_est ∧
        ((sample_loop C s l i xs).2.2 = true →
          (sample_loop C s l i xs).2.1.number_samples_consumed = i + (m : Int) ∧
          (sample_loop C s l i xs).1.reader_state.gate_status = GATE_CLOSED) ∧
        ((sample_loop C s l i xs).2.2 = false →
          m = xs.length ∧
          (sample_loop C s l i xs).2.1.number_samples_consumed = l.number_samples_consumed ∧
          (sample_loop C s l i xs).1.reader_state.gate_status = GATE_OPEN) := by
  intro xs
  induction xs with
  | nil =>
    intro s l i h
    exact ⟨0, by simp, by simp [sample_loop], by simp [sample_loop], by simp [sample_loop],
      rfl, by simp [sample_loop], by simp [sample_loop, h]⟩
  | cons x rest ih =>
    intro s l i h
    by_cases hb : s.n_samples + 1 < s.reader_state.n_samples_to_ungate
    · have hbody := loop_body_open_continue C s l i x h hb
      have hs : sample_loop C s l i (x :: rest) =
          sample_loop C (forwarded C s x)
            { l with out := l.out ++ [x - s.dc_est], written := l.written + 1 } (i + 1) rest := by
        simp [sample_loop, hbody]
      have hg : (forwarded C s x).reader_state.gate_status = GATE_OPEN := by
        simp [forwarded, h]
      have hd : (forwarded C s x).dc_est = s.dc_est := by simp [forwarded, track_amplitude]
      have hm : (forwarded C s x).reader_state.magn_squared_samples =
          s.reader_state.magn_squared_samples ++ [gr_complex.norm (x - s.dc_est)] := by
        simp [forwarded]
      obtain ⟨m, hm1, ho, hw, hq, hdc, hbt, hbf⟩ := ih (forwarded C s x)
        { l with out := l.out ++ [x - s.dc_est], written := l.written + 1 } (i + 1) hg
      rw [hd] at ho hq hdc
      rw [hm] at hq
      rw [hs]
      refine ⟨m + 1, by simp; omega, ?_, ?_, ?_, hdc, ?_, ?_⟩
      · rw [ho]; simp
      · rw [hw]; push_cast; ring
      · rw [hq]; simp
      · intro hb1
        obtain ⟨h1, h2⟩ := hbt hb1
        exact ⟨by rw [h1]; push_cast; ring, h2⟩
      · intro hb1
        obtain ⟨h1, h2, h3⟩ := hbf hb1
        exact ⟨by simp [h1], h2, h3⟩
    · have hbody := loop_body_open_break C s l i x h (by omega)
      have hs : sample_loop C s l i (x :: rest) = loop_body C s l i x := by
        simp [sample_loop, hbody]
      rw [hs, hbody]
      refine ⟨1, by simp, by simp, by simp, ?_, ?_, ?_, ?_⟩
      · simp [window_closed, forwarded]
      · simp [window_closed, forwarded, track_amplitude]
      · intro _; exact ⟨by simp, by simp [window_closed]⟩
      · intro hf; simp at hf

theorem sample_loop_seek_trace (C : Consts) (xs : List gr_complex) (s : gate_impl)
    (l : work_locals) (i : Int) (h : s.reader_state.gate_status ≠ GATE_OPEN) :
    (never_detected C s xs ∧ sample_loop C s l i xs = (seek_run C s xs, l, false)) ∨
    ∃ (pre : List gr_complex) (x : gr_complex) (ys : List gr_complex) (m : Nat),
      xs = pre ++ x :: ys ∧ never_detected C s pre ∧
      command_detected C (seek_step C (seek_run C s pre) x) ∧ m ≤ ys.length ∧
      (sample_loop C s l i xs).2.1.out =
        l.out ++ ((x :: ys).take (m + 1)).map
          (fun y => y - (seek_step C (seek_run C s pre) x).dc_est) ∧
      (sample_loop C s l i xs).2.1.written = l.written + ((m : Int) + 1) ∧
      (sample_loop C s l i xs).1.reader_state.magn_squared_samples =
        ((x :: ys).take (m + 1)).map
          (fun y => gr_complex.norm (y - (seek_step C (seek_run C s pre) x).dc_est)) ∧
      (sample_loop C s l i xs).1.dc_est = (seek_step C (seek_run C s pre) x).dc_est ∧
      ((sample_loop C s l i xs).2.2 = true →
        (sample_loop C s l i xs).2.1.number_samples_consumed =
          i + ((pre.length : Int) + 1 + (m : Int)) ∧
        (sample_loop C s l i xs).1.reader_state.gate_status = GATE_CLOSED) ∧
      ((sample_loop C s l i xs).2.2 = false →
        m = ys.length ∧
        (sample_loop C s l i xs).2.1.number_samples_consumed = l.number_samples_consumed ∧
        (sample_loop C s l i xs).1.reader_state.gate_status = GATE_OPEN) := by
  by_cases hq : never_detected C s xs
  · exact Or.inl ⟨hq, sample_loop_seek_quiet C xs s l i h hq⟩
  · right
    obtain ⟨pre, x, ys, e, hpre, hdet⟩ := first_detection C xs s hq
    have hb' : (seek_run C s pre).reader_state.gate_status ≠ GATE_OPEN := by
      rw [seek_run_reader_state]; exact h
    have e1 : sample_loop C s l i xs =
        sample_loop C (opened C (seek_run C s pre) x)
          { l with
            out := l.out ++ [x - (seek_step C (seek_run C s pre) x).dc_est],
            written := l.written + 1 }
          (i + (pre.length : Int) + 1) ys := by
      rw [e, sample_loop_append, sample_loop_seek_quiet C pre s l i h hpre]
      simp only [Bool.false_eq_true, if_false]
      rw [sample_loop]
      simp only [loop_body_seek_detected C _ _ _ x hb' hdet, Bool.false_eq_true, if_false]
    obtain ⟨m, hm, ho, hw, hmag, hdc, hbt, hbf⟩ :=
      sample_loop_open_trace C ys (opened C (seek_run C s pre) x)
        { l with
          out := l.out ++ [x - (seek_step C (seek_run C s pre) x).dc_est],
          written := l.written + 1 }
        (i + (pre.length : Int) + 1) rfl
    have hd : (opened C (seek_run C s pre) x).dc_est =
        (seek_step C (seek_run C s pre) x).dc_est := rfl
    have hmg : (opened C (seek_run C s pre) x).reader_state.magn_squared_samples =
        [gr_complex.norm (x - (seek_step C (seek_run C s pre) x).dc_est)] := rfl
    rw [hd] at ho hmag hdc
    rw [hmg] at hmag
    refine ⟨pre, x, ys, m, e, hpre, hdet, hm, ?_, ?_, ?_, ?_, ?_, ?_⟩
    · rw [e1, ho]; simp
    · rw [e1, hw]; simp; ring
    · rw [e1, hmag]; simp
    · rw [e1, hdc]
    · intro hb1
      rw [e1] at hb1 ⊢
      obtain ⟨h1, h2⟩ := hbt hb1
      exact ⟨by rw [h1]; ring, h2⟩
    · intro hb1
      rw [e1] at hb1 ⊢
      exact hbf hb1

theorem gate_control_magn (C : Consts) (s : gate_impl) :
    (gate_control C s).reader_state.magn_squared_samples =
      s.reader_state.magn_squared_samples ∧
    (gate_control C s).dc_est = s.dc_est := by
  unfold gate_control
  split_ifs <;> exact ⟨rfl, rfl⟩

theorem termination_check_fields (C : Consts) (now : Int) (s : gate_impl) :
    (termination_check C now s).1.reader_state.magn_squared_samples =
      s.reader_state.magn_squared_samples ∧
    (termination_check C now s).1.reader_state.gate_status = s.reader_state.gate_status ∧
    (termination_check C now s).1.reader_state.n_samples_to_ungate =
      s.reader_state.n_samples_to_ungate ∧
    (termination_check C now s).1 =
      { s with reader_state := (termination_check C now s).1.reader_state } := by
  unfold termination_check
  split_ifs <;> exact ⟨rfl, rfl, rfl, rfl⟩

theorem general_work_cases (C : Consts) (now : Int) (s : gate_impl) (input : List gr_complex) :
    ((gate_control C (termination_check C now s).1).reader_state.status ≠ RUNNING ∧
      general_work C now s input =
        { state := gate_control C (termination_check C now s).1, out := [],
          consumed := (input.length : Int), returned := 0,
          notice := (termination_check C now s).2 }) ∨
    (s.reader_state.status = RUNNING ∧ ¬ limits_exceeded C s ∧
      general_work C now s input =
        { state := (sample_loop C (gate_control C s) (initial_locals input) 0 input).1,
          out := (sample_loop C (gate_control C s) (initial_locals input) 0 input).2.1.out,
          consumed := (sample_loop C (gate_control C s) (initial_locals input) 0
            input).2.1.number_samples_consumed,
          returned := (sample_loop C (gate_control C s) (initial_locals input) 0
            input).2.1.written,
          notice := false }) := by
  by_cases hr : (gate_control C (termination_check C now s).1).reader_state.status = RUNNING
  · right
    have hr' : (termination_check C now s).1.reader_state.status = RUNNING := by
      rw [← gate_control_status C]; exact hr
    obtain ⟨hlim, hrun⟩ := termination_check_running C now s hr'
    exact ⟨hrun, hlim, general_work_running C now s input hrun hlim⟩
  · left
    refine ⟨hr, ?_⟩
    simp only [general_work, hr, if_false]


theorem processes_trans (C : Consts) (s t : gate_impl) (xs : List gr_complex)
    (h1 : processes C s xs t) :
    ∀ (ys : List gr_complex) (u : gate_impl), processes C t ys u → processes C s (xs ++ ys) u := by
  intro ys u h2
  induction h2 with
  | start => simpa using h1
  | sample zs v l i x _ ih =>
    rw [← List.append_assoc]
    exact processes.sample _ _ l i x ih
  | arm zs v _ ih => exact processes.arm _ _ ih
  | shared zs v rs _ ih => exact processes.shared _ _ rs ih

theorem sample_loop_processes (C : Consts) :
    ∀ (xs : List gr_complex) (s : gate_impl) (l : work_locals) (i : Int) (s0 : gate_impl)
      (xs0 : List gr_complex), processes C s0 xs0 s →
      ∃ k : Nat, k ≤ xs.length ∧
        processes C s0 (xs0 ++ xs.take k) (sample_loop C s l i xs).1 := by
  intro xs
  induction xs with
  | nil => intro s l i s0 xs0 h; exact ⟨0, by simp, by simpa [sample_loop] using h⟩
  | cons x rest ih =>
    intro s l i s0 xs0 h
    have h1 := processes.sample xs0 s l i x h
    by_cases hb : (loop_body C s l i x).2.2 = true
    · refine ⟨1, by simp, ?_⟩
      simpa [sample_loop, hb] using h1
    · obtain ⟨k, hk, hp⟩ := ih (loop_body C s l i x).1 (loop_body C s l i x).2.1 (i + 1) s0
        (xs0 ++ [x]) h1
      refine ⟨k + 1, by simp; omega, ?_⟩
      simpa [sample_loop, hb] using hp

theorem general_work_processes (C : Consts) (now : Int) (s : gate_impl)
    (input : List gr_complex) :
    ∃ k : Nat, k ≤ input.length ∧
      processes C s (input.take k) (general_work C now s input).state := by
  have h0 : processes C s [] (gate_control C (termination_check C now s).1) := by
    have h : processes C s [] { s with reader_state := (termination_check C now s).1.reader_state } :=
      processes.shared [] s (termination_check C now s).1.reader_state processes.start
    rw [← (termination_check_fields C now s).2.2.2] at h
    exact processes.arm _ _ h
  by_cases hr : (gate_control C (termination_check C now s).1).reader_state.status = RUNNING
  · obtain ⟨k, hk, hp⟩ := sample_loop_processes C input _ (initial_locals input) 0 s [] h0
    refine ⟨k, hk, ?_⟩
    simp only [general_work, hr, if_true]
    simpa [initial_locals] using hp
  · refine ⟨0, by simp, ?_⟩
    simp only [general_work, hr, if_false]
    simpa using h0

theorem run_calls_processes (C : Consts) :
    ∀ (calls : List (Int × (READER_STATE → READER_STATE) × List gr_complex)) (s : gate_impl),
      ∃ xs : List gr_complex, processes C s xs (run_calls C s calls).1 := by
  intro calls
  induction calls with
  | nil => intro s; exact ⟨[], processes.start⟩
  | cons c rest ih =>
    intro s
    obtain ⟨now, ext, input⟩ := c
    have h1 : processes C s [] { s with reader_state := ext s.reader_state } :=
      processes.shared [] s _ processes.start
    obtain ⟨k, _, h2⟩ := general_work_processes C now
      { s with reader_state := ext s.reader_state } input
    obtain ⟨ys, h3⟩ := ih (general_work C now { s with reader_state := ext s.reader_state }
      input).state
    refine ⟨[] ++ input.take k ++ ys, ?_⟩
    exact processes_trans C _ _ _ (processes_trans C _ _ _ h1 _ _ h2) _ _ h3

theorem seek_step_win (C : Consts) (s : gate_impl) (x : gr_complex) :
    (seek_step C s x).avg_ampl =
      s.avg_ampl + (C.abs x - s.win_samples.getD s.win_index.toNat 0) / (s.win_length : ℚ) ∧
    (seek_step C s x).win_samples = s.win_samples.set s.win_index.toNat (C.abs x) ∧
    (seek_step C s x).win_index = Int.tmod (s.win_index + 1) s.win_length ∧
    (seek_step C s x).sample_thresh = (seek_step C s x).avg_ampl * C.THRESH_FRACTION := by
  unfold seek_step edge_detect
  dsimp only
  split_ifs <;> exact ⟨rfl, rfl, rfl, rfl⟩

theorem loop_body_rings (C : Consts) (s : gate_impl) (l : work_locals) (i : Int)
    (x : gr_complex) :
    (loop_body C s l i x).1.win_length = s.win_length ∧
    (loop_body C s l i x).1.dc_length = s.dc_length ∧
    (loop_body C s l i x).1.n_samples_T1 = s.n_samples_T1 ∧
    (loop_body C s l i x).1.avg_ampl =
      s.avg_ampl + (C.abs x - s.win_samples.getD s.win_index.toNat 0) / (s.win_length : ℚ) ∧
    (loop_body C s l i x).1.win_samples = s.win_samples.set s.win_index.toNat (C.abs x) ∧
    (loop_body C s l i x).1.win_index = Int.tmod (s.win_index + 1) s.win_length ∧
    (s.reader_state.gate_status = GATE_OPEN →
      (loop_body C s l i x).1.dc_est = s.dc_est ∧
      (loop_body C s l i x).1.dc_samples = s.dc_samples ∧
      (loop_body C s l i x).1.dc_index = s.dc_index) ∧
    (s.reader_state.gate_status ≠ GATE_OPEN →
      (loop_body C s l i x).1.dc_est =
        s.dc_est + (x - s.dc_samples.getD s.dc_index.toNat ⟨0, 0⟩) / ⟨(s.dc_length : ℚ), 0⟩ ∧
      (loop_body C s l i x).1.dc_samples = s.dc_samples.set s.dc_index.toNat x ∧
      (loop_body C s l i x).1.dc_index = Int.tmod (s.dc_index + 1) s.dc_length) := by
  by_cases h : s.reader_state.gate_status = GATE_OPEN
  · by_cases hb : s.n_samples + 1 < s.reader_state.n_samples_to_ungate
    · rw [loop_body_open_continue C s l i x h hb]
      exact ⟨rfl, rfl, rfl, rfl, rfl, rfl, fun _ => ⟨rfl, rfl, rfl⟩, fun hn => absurd h hn⟩
    · rw [loop_body_open_break C s l i x h (by omega)]
      exact ⟨rfl, rfl, rfl, rfl, rfl, rfl, fun _ => ⟨rfl, rfl, rfl⟩, fun hn => absurd h hn⟩
  · obtain ⟨f1, _, _, f4, f5⟩ := seek_step_frame C s x
    obtain ⟨w1, w2, w3, _⟩ := seek_step_win C s x
    have hdc := seek_step_dc C s x
    by_cases hd : command_detected C (seek_step C s x)
    · rw [loop_body_seek_detected C s l i x h hd]
      exact ⟨f4, f5, f1, w1, w2, w3, fun ho => absurd ho h, fun _ => hdc⟩
    · rw [loop_body_seek_quiet C s l i x h hd]
      exact ⟨f4, f5, f1, w1, w2, w3, fun ho => absurd ho h, fun _ => hdc⟩

theorem sum_set (xs : List ℚ) :
    ∀ (n : Nat) (v : ℚ), n < xs.length → (xs.set n v).sum = xs.sum - xs.getD n 0 + v := by
  induction xs with
  | nil => intro n v h; simp at h
  | cons a rest ih =>
    intro n v h
    cases n with
    | zero => simp [add_comm]
    | succ n =>
      have h' : n < rest.length := by simpa using h
      simp only [List.set_cons_succ, List.sum_cons, List.getD_cons_succ, ih n v h']
      ring

theorem getD_map (f : gr_complex → ℚ) (xs : List gr_complex) :
    ∀ n : Nat, n < xs.length → (xs.map f).getD n 0 = f (xs.getD n ⟨0, 0⟩) := by
  induction xs with
  | nil => intro n h; simp at h
  | cons a rest ih =>
    intro n h
    cases n with
    | zero => simp
    | succ n =>
      have h' : n < rest.length := by simpa using h
      simpa using ih n h'

theorem mean_set (xs : List ℚ) (n : Nat) (v : ℚ) (h : n < xs.length) :
    mean (xs.set n v) = mean xs + (v - xs.getD n 0) / (xs.length : ℚ) := by
  unfold mean
  rw [sum_set xs n v h, List.length_set]
  ring

theorem complex_mean_set (xs : List gr_complex) (n : Nat) (v : gr_complex)
    (h : n < xs.length) :
    gr_complex.mean (xs.set n v) =
      gr_complex.mean xs + (v - xs.getD n ⟨0, 0⟩) / ⟨(xs.length : ℚ), 0⟩ := by
  rw [gr_complex.div_real]
  unfold gr_complex.mean
  have hre : n < (xs.map gr_complex.re).length := by simpa using h
  have him : n < (xs.map gr_complex.im).length := by simpa using h
  rw [List.map_set, List.map_set, sum_set _ n _ hre, sum_set _ n _ him, List.length_set,
    getD_map _ xs n h, getD_map _ xs n h]
  show _ = gr_complex.add _ _
  unfold gr_complex.add
  congr 1
  · show _ = _ + (v.re - (xs.getD n ⟨0, 0⟩).re) / (xs.length : ℚ)
    ring
  · show _ = _ + (v.im - (xs.getD n ⟨0, 0⟩).im) / (xs.length : ℚ)
    ring

theorem tmod_succ_range (a n : Int) (ha : 0 ≤ a) (hn : 1 ≤ n) :
    0 ≤ Int.tmod (a + 1) n ∧ Int.tmod (a + 1) n < n := by
  rw [Int.tmod_eq_emod (by omega) (by omega)]
  exact ⟨Int.emod_nonneg _ (by omega), Int.emod_lt_of_pos _ (by omega)⟩

theorem gate_control_rings (C : Consts) (s : gate_impl) :
    (gate_control C s).win_length = s.win_length ∧
    (gate_control C s).dc_length = s.dc_length ∧
    (gate_control C s).win_samples = s.win_samples ∧
    (gate_control C s).dc_samples = s.dc_samples ∧
    (gate_control C s).win_index = s.win_index ∧
    (gate_control C s).dc_index = s.dc_index ∧
    (gate_control C s).avg_ampl = s.avg_ampl ∧
    (gate_control C s).dc_est = s.dc_est ∧
    (gate_control C s).n_samples_T1 = s.n_samples_T1 := by
  unfold gate_control
  split_ifs <;> exact ⟨rfl, rfl, rfl, rfl, rfl, rfl, rfl, rfl, rfl⟩

theorem loop_body_ring_ok (C : Consts) (s : gate_impl) (l : work_locals) (i : Int)
    (x : gr_complex) (h : ring_ok s) : ring_ok (loop_body C s l i x).1 := by
  obtain ⟨h1, h2, h3, h4, h5, h6, h7, h8⟩ := h
  obtain ⟨r1, r2, _, _, r5, r6, ro, rn⟩ := loop_body_rings C s l i x
  have hw := tmod_succ_range s.win_index s.win_length h5 h1
  have hd := tmod_succ_range s.dc_index s.dc_length h7 h2
  unfold ring_ok
  rw [r1, r2, r5, r6, List.length_set]
  by_cases hg : s.reader_state.gate_status = GATE_OPEN
  · obtain ⟨_, d2, d3⟩ := ro hg
    rw [d2, d3]
    exact ⟨h1, h2, h3, h4, hw.1, hw.2, h7, h8⟩
  · obtain ⟨_, d2, d3⟩ := rn hg
    rw [d2, d3, List.length_set]
    exact ⟨h1, h2, h3, h4, hw.1, hw.2, hd.1, hd.2⟩

theorem loop_body_means_ok (C : Consts) (s : gate_impl) (l : work_locals) (i : Int)
    (x : gr_complex) (h : ring_ok s) (hm : means_ok s) : means_ok (loop_body C s l i x).1 := by
  obtain ⟨h1, h2, h3, h4, h5, h6, h7, h8⟩ := h
  obtain ⟨m1, m2⟩ := hm
  obtain ⟨_, _, _, r4, r5, _, ro, rn⟩ := loop_body_rings C s l i x
  have hwi : s.win_index.toNat < s.win_samples.length := by omega
  have hdi : s.dc_index.toNat < s.dc_samples.length := by omega
  unfold means_ok
  constructor
  · rw [r4, r5, mean_set _ _ _ hwi, m1]
    have : (s.win_samples.length : ℚ) = (s.win_length : ℚ) := by exact_mod_cast h3
    rw [this]
  · by_cases hg : s.reader_state.gate_status = GATE_OPEN
    · obtain ⟨d1, d2, _⟩ := ro hg
      rw [d1, d2]; exact m2
    · obtain ⟨d1, d2, _⟩ := rn hg
      rw [d1, d2, complex_mean_set _ _ _ hdi, m2]
      have : (s.dc_samples.length : ℚ) = (s.dc_length : ℚ) := by exact_mod_cast h4
      rw [this]

theorem processes_invariants (C : Consts) (s : gate_impl) (hr : ring_ok s) :
    ∀ (xs : List gr_complex) (t : gate_impl), processes C s xs t →
      ring_ok t ∧ (means_ok s → means_ok t) ∧
      t.win_length = s.win_length ∧ t.dc_length = s.dc_length := by
  intro xs t h
  induction h with
  | start => exact ⟨hr, fun h => h, rfl, rfl⟩
  | sample zs v l i x _ ih =>
    obtain ⟨i1, i2, i3, i4⟩ := ih
    obtain ⟨r1, r2, _⟩ := loop_body_rings C v l i x
    exact ⟨loop_body_ring_ok C v l i x i1, fun hm => loop_body_means_ok C v l i x i1 (i2 hm),
      r1.trans i3, r2.trans i4⟩
  | arm zs v _ ih =>
    obtain ⟨i1, i2, i3, i4⟩ := ih
    obtain ⟨g1, g2, g3, g4, g5, g6, g7, g8, _⟩ := gate_control_rings C v
    refine ⟨?_, fun hm => ?_, g1.trans i3, g2.trans i4⟩
    · unfold ring_ok; rw [g1, g2, g3, g4, g5, g6]; exact i1
    · unfold means_ok; rw [g3, g4, g7, g8]; exact i2 hm
  | shared zs v rs _ ih => exact ih

theorem constructed_invariants (C : Consts) (rs0 : READER_STATE) (sample_rate : Int)
    (b : gate_impl) (hb : gate_impl.gate_impl C rs0 sample_rate = some b)
    (hw : 1 ≤ b.win_length) (hd : 1 ≤ b.dc_length) : ring_ok b ∧ means_ok b := by
  unfold gate_impl.gate_impl at hb
  simp only at hb
  split_ifs at hb
  simp only [Option.some.injEq] at hb
  subst hb
  simp only at hw hd
  constructor
  · unfold ring_ok
    simp only [List.length_replicate]
    refine ⟨hw, hd, by omega, by omega, le_refl _, by omega, le_refl _, by omega⟩
  · unfold means_ok mean gr_complex.mean
    simp

theorem general_work_invariants (C : Consts) (now : Int) (s : gate_impl)
    (input : List gr_complex) (hr : ring_ok s) :
    ring_ok (general_work C now s input).state ∧
    (means_ok s → means_ok (general_work C now s input).state) := by
  obtain ⟨k, _, hp⟩ := general_work_processes C now s input
  obtain ⟨h1, h2, _⟩ := processes_invariants C s hr _ _ hp
  exact ⟨h1, h2⟩


theorem general_work_status (C : Consts) (now : Int) (s : gate_impl) (input : List gr_complex) :
    (general_work C now s input).state.reader_state.status =
      (termination_check C now s).1.reader_state.status ∧
    (general_work C now s input).state.reader_state.reader_stats =
      (termination_check C now s).1.reader_state.reader_stats ∧
    (general_work C now s input).notice = (termination_check C now s).2 := by
  have g1 := gate_control_status C (termination_check C now s).1
  have g2 := gate_control_stats C (termination_check C now s).1
  by_cases hr : (gate_control C (termination_check C now s).1).reader_state.status = RUNNING
  · obtain ⟨f1, f2, _, _⟩ := sample_loop_frame C input
      (gate_control C (termination_check C now s).1) (initial_locals input) 0
    simp only [general_work, hr, if_true]
    exact ⟨f1.trans g1, f2.trans g2, trivial⟩
  · simp only [general_work, hr, if_false]
    exact ⟨g1, g2, trivial⟩

theorem run_calls_terminated (C : Consts) :
    ∀ (calls : List (Int × (READER_STATE → READER_STATE) × List gr_complex)) (s : gate_impl),
      (∀ c ∈ calls, ∀ rs : READER_STATE, (c.2.1 rs).status = rs.status) →
      s.reader_state.status = TERMINATED →
      (run_calls C s calls).2 = 0 ∧ (run_calls C s calls).1.reader_state.status = TERMINATED := by
  intro calls
  induction calls with
  | nil => intro s _ h; exact ⟨rfl, h⟩
  | cons c rest ih =>
    intro s hext h
    obtain ⟨now, ext, input⟩ := c
    have hs : ({ s with reader_state := ext s.reader_state } : gate_impl).reader_state.status
        = TERMINATED := by
      show (ext s.reader_state).status = TERMINATED
      rw [hext (now, ext, input) (List.mem_cons_self _ _) s.reader_state]; exact h
    have ht : termination_check C now { s with reader_state := ext s.reader_state } =
        ({ s with reader_state := ext s.reader_state }, false) := by
      unfold termination_check
      rw [if_neg]
      rintro ⟨_, h2⟩
      exact h2 hs
    obtain ⟨g1, _, g3⟩ := general_work_status C now
      { s with reader_state := ext s.reader_state } input
    rw [ht] at g1 g3
    obtain ⟨i1, i2⟩ := ih (general_work C now { s with reader_state := ext s.reader_state }
      input).state (fun c hc => hext c (List.mem_cons_of_mem _ hc)) (g1.trans hs)
    simp only [run_calls, g3, i1]
    exact ⟨by simp, i2⟩

theorem run_calls_notices (C : Consts) :
    ∀ (calls : List (Int × (READER_STATE → READER_STATE) × List gr_complex)) (s : gate_impl),
      (∀ c ∈ calls, ∀ rs : READER_STATE, (c.2.1 rs).status = rs.status) →
      (run_calls C s calls).2 ≤ 1 := by
  intro calls
  induction calls with
  | nil => intro s _; simp [run_calls]
  | cons c rest ih =>
    intro s hext
    obtain ⟨now, ext, input⟩ := c
    have hrest : ∀ c ∈ rest, ∀ rs : READER_STATE, (c.2.1 rs).status = rs.status :=
      fun c hc => hext c (List.mem_cons_of_mem _ hc)
    obtain ⟨g1, _, g3⟩ := general_work_status C now
      { s with reader_state := ext s.reader_state } input
    by_cases hn : (general_work C now { s with reader_state := ext s.reader_state }
        input).notice = true
    · have hfire : (termination_check C now { s with reader_state := ext s.reader_state }).2
          = true := by rw [← g3]; exact hn
      have hst : (termination_check C now
          { s with reader_state := ext s.reader_state }).1.reader_state.status = TERMINATED := by
        unfold termination_check at hfire ⊢
        split_ifs at hfire ⊢
        rfl
      obtain ⟨i1, _⟩ := run_calls_terminated C rest _ hrest (g1.trans hst)
      simp only [run_calls, hn, i1, if_true]
      exact le_refl _
    · have := ih (general_work C now { s with reader_state := ext s.reader_state } input).state
        hrest
      simp only [run_calls, hn, if_false, Bool.false_eq_true]
      omega


theorem seek_step_edge (C : Consts) (s : gate_impl) (x : gr_complex) :
    seek_step C s x =
      (if C.abs x < (track_amplitude C s x).avg_ampl * C.THRESH_FRACTION ∧
          s.signal_state = POS_EDGE then
        { track_dc (track_amplitude C s x) x with n_samples := 0, signal_state := NEG_EDGE }
      else if C.abs x > (track_amplitude C s x).avg_ampl * C.THRESH_FRACTION ∧
          s.signal_state = NEG_EDGE then
        { track_dc (track_amplitude C s x) x with
          signal_state := POS_EDGE,
          num_pulses :=
            if s.n_samples + 1 > Int.tdiv s.n_samples_PW 2 then s.num_pulses + 1 else 0,
          n_samples := 0 }
      else { track_dc (track_amplitude C s x) x with n_samples := s.n_samples + 1 }) := rfl


theorem seek_step_elapsed (C : Consts) (s : gate_impl) (x : gr_complex) :
    (seek_step C s x).n_samples = 0 ∨ (seek_step C s x).n_samples = s.n_samples + 1 := by
  by_cases c1 : C.abs x < (track_amplitude C s x).avg_ampl * C.THRESH_FRACTION ∧
      s.signal_state = POS_EDGE
  · rw [seek_step_edge, if_pos c1]; left; rfl
  · by_cases c2 : C.abs x > (track_amplitude C s x).avg_ampl * C.THRESH_FRACTION ∧
        s.signal_state = NEG_EDGE
    · rw [seek_step_edge, if_neg c1, if_pos c2]; left; rfl
    · rw [seek_step_edge, if_neg c1, if_neg c2]; right; rfl

theorem seek_step_edge_resets (C : Consts) (s : gate_impl) (x : gr_complex)
    (h : (seek_step C s x).signal_state ≠ s.signal_state) : (seek_step C s x).n_samples = 0 := by
  by_cases c1 : C.abs x < (track_amplitude C s x).avg_ampl * C.THRESH_FRACTION ∧
      s.signal_state = POS_EDGE
  · rw [seek_step_edge, if_pos c1]
  · by_cases c2 : C.abs x > (track_amplitude C s x).avg_ampl * C.THRESH_FRACTION ∧
        s.signal_state = NEG_EDGE
    · rw [seek_step_edge, if_neg c1, if_pos c2]
    · rw [seek_step_edge, if_neg c1, if_neg c2] at h
      exact absurd rfl h

theorem loop_body_elapsed (C : Consts) (s : gate_impl) (l : work_locals) (i : Int)
    (x : gr_complex) :
    (loop_body C s l i x).1.n_samples ≤ 1 ∨
      (loop_body C s l i x).1.n_samples = s.n_samples + 1 := by
  by_cases h : s.reader_state.gate_status = GATE_OPEN
  · by_cases hb : s.n_samples + 1 < s.reader_state.n_samples_to_ungate
    · rw [loop_body_open_continue C s l i x h hb]; right; rfl
    · rw [loop_body_open_break C s l i x h (by omega)]; right; rfl
  · by_cases hd : command_detected C (seek_step C s x)
    · rw [loop_body_seek_detected C s l i x h hd]; left; exact le_refl _
    · rw [loop_body_seek_quiet C s l i x h hd]
      rcases seek_step_elapsed C s x with h0 | h1
      · left; rw [h0]; norm_num
      · right; exact h1

theorem gate_control_elapsed (C : Consts) (s : gate_impl) :
    (gate_control C s).n_samples = 0 ∨ (gate_control C s).n_samples = s.n_samples := by
  unfold gate_control
  split_ifs
  · left; rfl
  · left; rfl
  · right; rfl

theorem processes_elapsed (C : Consts) (s : gate_impl) (h0 : s.n_samples ≤ 0) :
    ∀ (xs : List gr_complex) (t : gate_impl), processes C s xs t →
      t.n_samples ≤ (xs.length : Int) ∧ t.n_samples_T1 = s.n_samples_T1 := by
  intro xs t h
  induction h with
  | start => exact ⟨by simpa using h0, rfl⟩
  | sample zs v l i x _ ih =>
    obtain ⟨i1, i2⟩ := ih
    refine ⟨?_, (loop_body_rings C v l i x).2.2.1.trans i2⟩
    have hz : (0 : Int) ≤ (zs.length : Int) := Int.ofNat_nonneg _
    rcases loop_body_elapsed C v l i x with h1 | h1
    · simp only [List.length_append, List.length_singleton]; push_cast; omega
    · simp only [List.length_append, List.length_singleton]; push_cast; omega
  | arm zs v _ ih =>
    obtain ⟨i1, i2⟩ := ih
    refine ⟨?_, (gate_control_rings C v).2.2.2.2.2.2.2.2.trans i2⟩
    have hz : (0 : Int) ≤ (zs.length : Int) := Int.ofNat_nonneg _
    rcases gate_control_elapsed C v with h1 | h1
    · omega
    · omega
  | shared zs v rs _ ih => exact ih

theorem opening_needs_detection (C : Consts) (t : gate_impl) (l : work_locals) (i : Int)
    (y : gr_complex) (hg : t.reader_state.gate_status ≠ GATE_OPEN)
    (ho : (loop_body C t l i y).1.reader_state.gate_status = GATE_OPEN) :
    command_detected C (seek_step C t y) := by
  by_contra hd
  rw [loop_body_seek_quiet C t l i y hg hd] at ho
  simp only at ho
  rw [seek_step_reader_state] at ho
  exact hg ho

theorem opening_needs_elapsed (C : Consts) (s0 : gate_impl) (h0 : s0.n_samples ≤ 0)
    (hT : 0 ≤ s0.n_samples_T1) (ys : List gr_complex) (t : gate_impl)
    (hp : processes C s0 ys t) (l : work_locals) (i : Int) (y : gr_complex)
    (hg : t.reader_state.gate_status ≠ GATE_OPEN)
    (ho : (loop_body C t l i y).1.reader_state.gate_status = GATE_OPEN) :
    s0.n_samples_T1 < (ys.length : Int) + 1 := by
  obtain ⟨e1, e2⟩ := processes_elapsed C s0 h0 ys t hp
  have hd := opening_needs_detection C t l i y hg ho
  unfold command_detected at hd
  have h1 := hd.1
  rw [(seek_step_frame C t y).1, e2] at h1
  rcases seek_step_elapsed C t y with h | h
  · rw [h] at h1; omega
  · rw [h] at h1; omega


theorem ring_rotate (xs : List ℚ) (n : Nat) (v : ℚ) (h : n < xs.length) :
    (xs.set n v).drop ((n + 1) % xs.length) ++ (xs.set n v).take ((n + 1) % xs.length) =
      (xs.drop n ++ xs.take n).drop 1 ++ [v] := by
  have hlen : (xs.take n).length = n := by
    rw [List.length_take]; omega
  have hset : xs.set n v = xs.take n ++ v :: xs.drop (n + 1) := by
    rw [List.set_eq_take_append_cons_drop, if_pos h]
  have hdrop : xs.drop n = xs[n] :: xs.drop (n + 1) := List.drop_eq_getElem_cons h
  have hxl : xs.length = n + 1 + (xs.drop (n + 1)).length := by
    rw [List.length_drop]; omega
  rw [hset, hdrop, hxl]
  generalize xs.take n = a at hlen
  generalize xs.drop (n + 1) = b
  generalize xs[n] = c
  cases b with
  | nil =>
    simp
  | cons b0 bs =>
    have hmod : (n + 1) % (n + 1 + (b0 :: bs).length) = n + 1 :=
      Nat.mod_eq_of_lt (by simp)
    rw [hmod]
    have h1 : (a ++ v :: b0 :: bs).drop (n + 1) = b0 :: bs := by
      rw [List.drop_append_eq_append_drop]
      simp [hlen]
    have h2 : (a ++ v :: b0 :: bs).take (n + 1) = a ++ [v] := by
      rw [List.take_append_eq_append_take]
      simp [hlen]
    rw [h1, h2]
    simp

theorem loop_body_win_queue (C : Consts) (s : gate_impl) (l : work_locals) (i : Int)
    (x : gr_complex) (h : win_ok s) :
    win_ok (loop_body C s l i x).1 ∧
    win_queue (loop_body C s l i x).1 = (win_queue s).drop 1 ++ [C.abs x] := by
  obtain ⟨h1, h2, h3, h4⟩ := h
  obtain ⟨r1, _, _, _, r5, r6, _, _⟩ := loop_body_rings C s l i x
  have hw := tmod_succ_range s.win_index s.win_length h3 h1
  constructor
  · unfold win_ok
    rw [r1, r5, r6, List.length_set]
    exact ⟨h1, h2, hw.1, hw.2⟩
  · have hidx : s.win_index.toNat < s.win_samples.length := by omega
    have hmod : (Int.tmod (s.win_index + 1) s.win_length).toNat =
        (s.win_index.toNat + 1) % s.win_samples.length := by
      rw [Int.tmod_eq_emod (by omega) (by omega), ← h2]
      have e : s.win_index + 1 = ((s.win_index.toNat + 1 : Nat) : Int) := by
        push_cast; omega
      rw [e, ← Int.natCast_mod, Int.toNat_ofNat]
    unfold win_queue
    rw [r5, r6, hmod]
    exact ring_rotate s.win_samples s.win_index.toNat (C.abs x) hidx

theorem win_queue_length (s : gate_impl) : (win_queue s).length = s.win_samples.length := by
  unfold win_queue
  rw [List.length_append, List.length_drop, List.length_take]
  omega

theorem win_queue_sum (s : gate_impl) : (win_queue s).sum = s.win_samples.sum := by
  unfold win_queue
  rw [List.sum_append, add_comm, List.sum_take_add_sum_drop]

theorem processes_window (C : Consts) (s : gate_impl) (hw : win_ok s)
    (hm : s.avg_ampl = mean s.win_samples) :
    ∀ (xs : List gr_complex) (t : gate_impl), processes C s xs t →
      win_ok t ∧ t.avg_ampl = mean t.win_samples ∧ t.win_length = s.win_length ∧
      win_queue t = (win_queue s ++ xs.map C.abs).drop xs.length := by
  intro xs t h
  induction h with
  | start => exact ⟨hw, hm, rfl, by simp⟩
  | sample zs v l i x _ ih =>
    obtain ⟨i1, i2, i3, i4⟩ := ih
    obtain ⟨q1, q2⟩ := loop_body_win_queue C v l i x i1
    obtain ⟨r1, _, _, r4, r5, _, _, _⟩ := loop_body_rings C v l i x
    refine ⟨q1, ?_, r1.trans i3, ?_⟩
    · have hidx : v.win_index.toNat < v.win_samples.length := by
        obtain ⟨a1, a2, a3, a4⟩ := i1; omega
      have hl : (v.win_samples.length : ℚ) = (v.win_length : ℚ) := by exact_mod_cast i1.2.1
      rw [r4, r5, mean_set _ _ _ hidx, i2, hl]
    · have hq : (win_queue s).length = s.win_samples.length := win_queue_length s
      have hpos : 1 ≤ s.win_samples.length := by
        obtain ⟨a1, a2, _, _⟩ := hw; omega
      rw [q2, i4, List.drop_drop, List.map_append, List.map_singleton, ← List.append_assoc,
        List.length_append, List.length_singleton]
      have hle : zs.length + 1 ≤ (win_queue s ++ List.map C.abs zs).length := by
        rw [List.length_append, List.length_map]; omega
      rw [List.drop_append_of_le_length hle]
  | arm zs v _ ih =>
    obtain ⟨i1, i2, i3, i4⟩ := ih
    obtain ⟨g1, _, g3, _, g5, _, g7, _, _⟩ := gate_control_rings C v
    refine ⟨?_, ?_, g1.trans i3, ?_⟩
    · unfold win_ok; rw [g1, g3, g5]; exact i1
    · rw [g7, g3]; exact i2
    · unfold win_queue at i4 ⊢; rw [g3, g5]; exact i4
  | shared zs v rs _ ih => exact ih

theorem sample_loop_processes_consumed (C : Consts) :
    ∀ (xs : List gr_complex) (s : gate_impl) (l : work_locals) (i : Int) (s0 : gate_impl)
      (xs0 : List gr_complex), processes C s0 xs0 s →
      ∃ k : Nat, k ≤ xs.length ∧
        processes C s0 (xs0 ++ xs.take k) (sample_loop C s l i xs).1 ∧
        ((sample_loop C s l i xs).2.2 = true →
          (sample_loop C s l i xs).2.1.number_samples_consumed = i + (k : Int)) ∧
        ((sample_loop C s l i xs).2.2 = false →
          k = xs.length ∧
          (sample_loop C s l i xs).2.1.number_samples_consumed = l.number_samples_consumed) := by
  intro xs
  induction xs with
  | nil =>
    intro s l i s0 xs0 h
    exact ⟨0, by simp, by simpa [sample_loop] using h, by simp [sample_loop],
      by simp [sample_loop]⟩
  | cons x rest ih =>
    intro s l i s0 xs0 h
    have h1 := processes.sample xs0 s l i x h
    obtain ⟨st, o, brk, _, _, hbody⟩ := loop_body_shape C s x
    cases brk with
    | true =>
      have e : sample_loop C s l i (x :: rest) = loop_body C s l i x := by
        simp [sample_loop, hbody]
      rw [e]
      refine ⟨1, by simp, by simpa using h1, ?_, ?_⟩
      · intro _; rw [hbody]; simp
      · intro hf; rw [hbody] at hf; simp at hf
    | false =>
      have e : sample_loop C s l i (x :: rest) =
          sample_loop C (loop_body C s l i x).1 (loop_body C s l i x).2.1 (i + 1) rest := by
        simp [sample_loop, hbody]
      obtain ⟨k, hk, hp, hbt, hbf⟩ := ih (loop_body C s l i x).1 (loop_body C s l i x).2.1
        (i + 1) s0 (xs0 ++ [x]) h1
      rw [e]
      refine ⟨k + 1, by simp; omega, by simpa using hp, ?_, ?_⟩
      · intro hb; rw [hbt hb]; push_cast; ring
      · intro hb
        obtain ⟨q1, q2⟩ := hbf hb
        refine ⟨by simp [q1], ?_⟩
        rw [q2, hbody]
        simp

theorem general_work_processes_consumed (C : Consts) (now : Int) (s : gate_impl)
    (input : List gr_complex) :
    ∃ k : Nat, k ≤ input.length ∧
      processes C s (input.take k) (general_work C now s input).state ∧
      ((gate_control C (termination_check C now s).1).reader_state.status = RUNNING →
        (general_work C now s input).consumed = (k : Int)) := by
  have h0 : processes C s [] (gate_control C (termination_check C now s).1) := by
    have h : processes C s [] { s with reader_state := (termination_check C now s).1.reader_state } :=
      processes.shared [] s (termination_check C now s).1.reader_state processes.start
    rw [← (termination_check_fields C now s).2.2.2] at h
    exact processes.arm _ _ h
  by_cases hr : (gate_control C (termination_check C now s).1).reader_state.status = RUNNING
  · obtain ⟨k, hk, hp, hbt, hbf⟩ :=
      sample_loop_processes_consumed C input _ (initial_locals input) 0 s [] h0
    refine ⟨k, hk, ?_, fun _ => ?_⟩
    · simp only [general_work, hr, if_true]
      simpa [initial_locals] using hp
    · simp only [general_work, hr, if_true]
      cases hb : (sample_loop C (gate_control C (termination_check C now s).1)
          (initial_locals input) 0 input).2.2
      · obtain ⟨q1, q2⟩ := hbf hb
        simp only [initial_locals] at q2
        rw [q2, q1]
      · have := hbt hb
        simp only [initial_locals] at this
        rw [this]; simp
  · refine ⟨0, by simp, ?_, fun h => absurd h hr⟩
    simp only [general_work, hr, if_false]
    simpa using h0

theorem window_converged (C : Consts) (s : gate_impl) (A : ℚ) (hw : win_ok s)
    (hm : s.avg_ampl = mean s.win_samples) (xs : List gr_complex) (t : gate_impl)
    (hp : processes C s xs t) (hA : ∀ x ∈ xs, C.abs x = A)
    (hlen : s.win_length ≤ (xs.length : Int)) :
    t.avg_ampl = A ∧ (∀ v ∈ t.win_samples, v = A) := by
  obtain ⟨i1, i2, i3, i4⟩ := processes_window C s hw hm xs t hp
  obtain ⟨a1, a2, _, _⟩ := hw
  obtain ⟨b1, b2, _, _⟩ := i1
  have hqs : (win_queue s).length ≤ xs.length := by
    rw [win_queue_length]; omega
  have hq : ∀ v ∈ win_queue t, v = A := by
    intro v hv
    rw [i4, List.drop_append_eq_append_drop, List.drop_eq_nil_of_le hqs, List.nil_append] at hv
    have hv' := List.mem_of_mem_drop hv
    rw [List.mem_map] at hv'
    obtain ⟨x, hx, rfl⟩ := hv'
    exact hA x hx
  have hrep : win_queue t = List.replicate (win_queue t).length A :=
    List.eq_replicate_iff.2 ⟨rfl, hq⟩
  have hsum : t.win_samples.sum = (t.win_samples.length : ℚ) * A := by
    rw [← win_queue_sum, hrep, List.sum_replicate, win_queue_length]
    simp
  have hne : (t.win_samples.length : ℚ) ≠ 0 := by
    have : 1 ≤ t.win_samples.length := by omega
    positivity
  constructor
  · rw [i2]
    unfold mean
    rw [hsum]
    field_simp
  · intro v hv
    apply hq
    unfold win_queue
    rw [List.mem_append]
    have := List.take_append_drop t.win_index.toNat t.win_samples
    rw [← this, List.mem_append] at hv
    exact hv.symm


theorem ring_ok_access (s : gate_impl) (h : ring_ok s) : win_access_ok s ∧ dc_access_ok s := by
  obtain ⟨h1, h2, h3, h4, h5, h6, h7, h8⟩ := h
  unfold win_access_ok dc_access_ok
  refine ⟨⟨h5, by omega, by omega⟩, ⟨h7, by omega, by omega⟩⟩

theorem loop_body_checked_ok (C : Consts) (s : gate_impl) (l : work_locals) (i : Int)
    (x : gr_complex) (h : ring_ok s) :
    loop_body_checked C s l i x = some (loop_body C s l i x) := by
  obtain ⟨hw, hd⟩ := ring_ok_access s h
  unfold loop_body_checked
  rw [if_pos hw]
  split_ifs <;> rfl

theorem sample_loop_checked_ok (C : Consts) :
    ∀ (xs : List gr_complex) (s : gate_impl) (l : work_locals) (i : Int), ring_ok s →
      sample_loop_checked C s l i xs = some (sample_loop C s l i xs) := by
  intro xs
  induction xs with
  | nil => intro s l i _; rfl
  | cons x rest ih =>
    intro s l i h
    have hb := loop_body_checked_ok C s l i x h
    have hr := loop_body_ring_ok C s l i x h
    simp only [sample_loop_checked, hb, sample_loop]
    split_ifs
    · rfl
    · exact ih _ _ _ hr

theorem ring_ok_congr (s t : gate_impl) (h : ring_ok s)
    (e1 : t.win_length = s.win_length) (e2 : t.dc_length = s.dc_length)
    (e3 : t.win_samples = s.win_samples) (e4 : t.dc_samples = s.dc_samples)
    (e5 : t.win_index = s.win_index) (e6 : t.dc_index = s.dc_index) : ring_ok t := by
  unfold ring_ok
  rw [e1, e2, e3, e4, e5, e6]
  exact h

theorem arming_ring_ok (C : Consts) (now : Int) (s : gate_impl) (h : ring_ok s) :
    ring_ok (gate_control C (termination_check C now s).1) := by
  obtain ⟨g1, g2, g3, g4, g5, g6, _⟩ := gate_control_rings C (termination_check C now s).1
  have ht : ring_ok (termination_check C now s).1 := by
    rw [(termination_check_fields C now s).2.2.2]
    exact h
  exact ring_ok_congr _ _ ht g1 g2 g3 g4 g5 g6

/-! ## C1: length of the forward window -/

/-- C1 (as amended). With status RUNNING and no termination limit exceeded, the
gate OPEN, window counter `c = n_samples` and window length
`L = n_samples_to_ungate` with `c < L`, a call on `N` samples writes the first
`min N (L - c)` inputs, each minus the DC estimate, returns that count, and
leaves the gate CLOSED exactly when `N ≥ L - c`. And when a sample `x` meets the
command-detection condition after a prefix `pre` that did not, with `L ≥ 2`,
the call forwards `x` and the samples after it, `min (1 + |ys|) L` in all, each
minus the DC estimate held at the trigger; the gate is CLOSED at the end exactly
when `1 + |ys| ≥ L`, and is otherwise OPEN with the counter at `1 + |ys|`. -/
theorem forward_window_length (C : Consts) :
    (∀ (now : Int) (s : gate_impl) (input : List gr_complex),
      s.reader_state.status = RUNNING → ¬ limits_exceeded C s →
      s.reader_state.gate_status = GATE_OPEN →
      s.n_samples < s.reader_state.n_samples_to_ungate →
      (general_work C now s input).out =
          (input.take (s.reader_state.n_samples_to_ungate - s.n_samples).toNat).map
            (fun x => x - s.dc_est) ∧
        (general_work C now s input).out.length =
          min input.length (s.reader_state.n_samples_to_ungate - s.n_samples).toNat ∧
        (general_work C now s input).returned =
          min (input.length : Int) (s.reader_state.n_samples_to_ungate - s.n_samples) ∧
        ((general_work C now s input).state.reader_state.gate_status = GATE_CLOSED ↔
          s.reader_state.n_samples_to_ungate - s.n_samples ≤ (input.length : Int))) ∧
    (∀ (now : Int) (s : gate_impl) (pre : List gr_complex) (x : gr_complex)
      (ys : List gr_complex),
      s.reader_state.status = RUNNING → ¬ limits_exceeded C s →
      s.reader_state.gate_status ≠ GATE_OPEN →
      never_detected C (gate_control C s) pre →
      command_detected C (seek_step C (seek_run C (gate_control C s) pre) x) →
      2 ≤ (gate_control C s).reader_state.n_samples_to_ungate →
      (general_work C now s (pre ++ x :: ys)).out =
          ((x :: ys).take (gate_control C s).reader_state.n_samples_to_ungate.toNat).map
            (fun y => y - (seek_step C (seek_run C (gate_control C s) pre) x).dc_est) ∧
        (general_work C now s (pre ++ x :: ys)).out.length =
          min (1 + ys.length) (gate_control C s).reader_state.n_samples_to_ungate.toNat ∧
        ((general_work C now s (pre ++ x :: ys)).state.reader_state.gate_status = GATE_CLOSED ↔
          (gate_control C s).reader_state.n_samples_to_ungate ≤ 1 + (ys.length : Int)) ∧
        (1 + (ys.length : Int) < (gate_control C s).reader_state.n_samples_to_ungate →
          (general_work C now s (pre ++ x :: ys)).state.reader_state.gate_status = GATE_OPEN ∧
          (general_work C now s (pre ++ x :: ys)).state.n_samples = 1 + (ys.length : Int))) := by
  constructor
  · intro now s input hrun hlim hopen hlt
    rw [general_work_running C now s input hrun hlim, gate_control_idle C s (Or.inl hopen)]
    obtain ⟨h1, h2⟩ := sample_loop_open C input s (initial_locals input) 0 hopen
    by_cases hN : (input.length : Int) < s.reader_state.n_samples_to_ungate - s.n_samples
    · obtain ⟨_, hg, ho, hw, _, _⟩ := h1 hN
      have hk : input.length ≤ (s.reader_state.n_samples_to_ungate - s.n_samples).toNat := by
        omega
      have ho' : (sample_loop C s (initial_locals input) 0 input).2.1.out =
          input.map (fun x => x - s.dc_est) := by
        rw [ho]; simp [initial_locals]
      refine ⟨?_, ?_, ?_, ?_⟩
      · show (sample_loop C s (initial_locals input) 0 input).2.1.out = _
        rw [ho', List.take_of_length_le hk]
      · show (sample_loop C s (initial_locals input) 0 input).2.1.out.length = _
        rw [ho']; simp; omega
      · show (sample_loop C s (initial_locals input) 0 input).2.1.written = _
        rw [hw]; simp [initial_locals]; omega
      · show (sample_loop C s (initial_locals input) 0 input).1.reader_state.gate_status
            = GATE_CLOSED ↔ _
        rw [hg]; simp; omega
    · have hN' : s.reader_state.n_samples_to_ungate - s.n_samples ≤ (input.length : Int) := by
        omega
      obtain ⟨_, hg, ho, hw, _⟩ := h2 hlt hN'
      have ho' : (sample_loop C s (initial_locals input) 0 input).2.1.out =
          (input.take (s.reader_state.n_samples_to_ungate - s.n_samples).toNat).map
            (fun x => x - s.dc_est) := by
        rw [ho]; simp [initial_locals]
      refine ⟨?_, ?_, ?_, ?_⟩
      · exact ho'
      · show (sample_loop C s (initial_locals input) 0 input).2.1.out.length = _
        rw [ho']; simp [min_comm]
      · show (sample_loop C s (initial_locals input) 0 input).2.1.written = _
        rw [hw]; simp [initial_locals]; omega
      · show (sample_loop C s (initial_locals input) 0 input).1.reader_state.gate_status
            = GATE_CLOSED ↔ _
        rw [hg]; simp; omega
  · intro now s pre x ys hrun hlim hgate hquiet hdet hL
    rw [general_work_running C now s (pre ++ x :: ys) hrun hlim]
    have ha : (gate_control C s).reader_state.gate_status ≠ GATE_OPEN := by
      rw [gate_control_not_open C s hgate]; decide
    have hb : (seek_run C (gate_control C s) pre).reader_state = (gate_control C s).reader_state :=
      seek_run_reader_state C pre (gate_control C s)
    have hb' : (seek_run C (gate_control C s) pre).reader_state.gate_status ≠ GATE_OPEN := by
      rw [hb]; exact ha
    have e1 : sample_loop C (gate_control C s) (initial_locals (pre ++ x :: ys)) 0
          (pre ++ x :: ys) =
        sample_loop C (opened C (seek_run C (gate_control C s) pre) x)
          { initial_locals (pre ++ x :: ys) with
            out := (initial_locals (pre ++ x :: ys)).out ++
              [x - (seek_step C (seek_run C (gate_control C s) pre) x).dc_est],
            written := (initial_locals (pre ++ x :: ys)).written + 1 }
          (0 + (pre.length : Int) + 1) ys := by
      rw [sample_loop_append, sample_loop_seek_quiet C pre _ _ 0 ha hquiet]
      simp only [Bool.false_eq_true, if_false]
      rw [sample_loop]
      simp only [loop_body_seek_detected C _ _ _ x hb' hdet, Bool.false_eq_true, if_false]
    have hopen : (opened C (seek_run C (gate_control C s) pre) x).reader_state.gate_status =
        GATE_OPEN := rfl
    have hL' : (opened C (seek_run C (gate_control C s) pre) x).reader_state.n_samples_to_ungate =
        (gate_control C s).reader_state.n_samples_to_ungate := by
      show (seek_step C (seek_run C (gate_control C s) pre) x).reader_state.n_samples_to_ungate = _
      rw [seek_step_reader_state, hb]
    have hn : (opened C (seek_run C (gate_control C s) pre) x).n_samples = 1 := rfl
    have hd : (opened C (seek_run C (gate_control C s) pre) x).dc_est =
        (seek_step C (seek_run C (gate_control C s) pre) x).dc_est := rfl
    obtain ⟨h1, h2⟩ := sample_loop_open C ys (opened C (seek_run C (gate_control C s) pre) x)
      { initial_locals (pre ++ x :: ys) with
        out := (initial_locals (pre ++ x :: ys)).out ++
          [x - (seek_step C (seek_run C (gate_control C s) pre) x).dc_est],
        written := (initial_locals (pre ++ x :: ys)).written + 1 }
      (0 + (pre.length : Int) + 1) hopen
    rw [hL', hn, hd] at h1 h2
    simp only [e1]
    generalize (gate_control C s).reader_state.n_samples_to_ungate = L at *
    by_cases hN : (ys.length : Int) < L - 1
    · obtain ⟨_, hg, ho, _, _, hc⟩ := h1 hN
      have hk : (x :: ys).length ≤ L.toNat := by simp; omega
      refine ⟨?_, ?_, ?_, ?_⟩
      · rw [ho, List.take_of_length_le hk]; simp [initial_locals]
      · rw [ho]; simp [initial_locals]; omega
      · rw [hg]; simp; omega
      · intro _; exact ⟨hg, hc⟩
    · have hN' : L - 1 ≤ (ys.length : Int) := by omega
      obtain ⟨_, hg, ho, _, _⟩ := h2 (by omega) hN'
      have hk : L.toNat = (L - 1).toNat + 1 := by omega
      refine ⟨?_, ?_, ?_, ?_⟩
      · rw [ho, hk]; simp [initial_locals]
      · rw [ho]; simp [initial_locals]; omega
      · rw [hg]; simp; omega
      · intro h; omega

/-- C1, the claim as written fails: a block with status RUNNING, the gate OPEN,
counter 0 and window length 3, whose reader has exceeded `MAX_NUM_QUERIES`, is
terminated by the check at the head of `general_work`; the sample loop is
skipped, nothing is written for the four input samples (the claim says
`min 4 (3 - 0) = 3`) and the gate is left OPEN although `4 ≥ 3 - 0`. -/
theorem forward_window_length_counterexample :
    over_limit_open_block.reader_state.status = RUNNING ∧
    over_limit_open_block.reader_state.gate_status = GATE_OPEN ∧
    over_limit_open_block.n_samples < over_limit_open_block.reader_state.n_samples_to_ungate ∧
    (general_work sample_consts 0 over_limit_open_block four_samples).out = [] ∧
    (general_work sample_consts 0 over_limit_open_block four_samples).returned = 0 ∧
    (general_work sample_consts 0 over_limit_open_block four_samples).state.reader_state.gate_status
      = GATE_OPEN ∧
    min four_samples.length
      (over_limit_open_block.reader_state.n_samples_to_ungate
        - over_limit_open_block.n_samples).toNat = 3 := by
  decide!

/-- C1, instances of both parts: an open block with window length 3 forwards
three of four samples and closes; a block with a full preamble behind it and
window length 2 opens on the next sample and forwards two of three samples. -/
theorem forward_window_length_witness :
    ((general_work sample_consts 0 open_block four_samples).out =
        (four_samples.take (open_block.reader_state.n_samples_to_ungate
          - open_block.n_samples).toNat).map (fun x => x - open_block.dc_est) ∧
      (general_work sample_consts 0 open_block four_samples).out.length =
        min four_samples.length
          (open_block.reader_state.n_samples_to_ungate - open_block.n_samples).toNat ∧
      (general_work sample_consts 0 open_block four_samples).returned =
        min (four_samples.length : Int)
          (open_block.reader_state.n_samples_to_ungate - open_block.n_samples) ∧
      ((general_work sample_consts 0 open_block four_samples).state.reader_state.gate_status
          = GATE_CLOSED ↔
        open_block.reader_state.n_samples_to_ungate - open_block.n_samples
          ≤ (four_samples.length : Int))) ∧
    (general_work sample_consts 0 (primed_block 2) ([] ++ ⟨1, 0⟩ :: [⟨2, 0⟩, ⟨3, 0⟩])).out.length
      = min (1 + [(⟨2, 0⟩ : gr_complex), ⟨3, 0⟩].length)
          (gate_control sample_consts (primed_block 2)).reader_state.n_samples_to_ungate.toNat :=
  ⟨(forward_window_length sample_consts).1 0 open_block four_samples
      (by decide) (by decide!) (by decide) (by decide),
   ((forward_window_length sample_consts).2 0 (primed_block 2) [] ⟨1, 0⟩ [⟨2, 0⟩, ⟨3, 0⟩]
      (by decide) (by decide!) (by decide) trivial (by decide!) (by decide!)).2.1⟩

/-! ## C2: partial consumption -/

/-- C2. In every call of `general_work`: when the open window completes at
input index `k` (the loop runs, and sample `k` is the first to take the gate
from OPEN to CLOSED), the consumed count is `k + 1` and the whole result (state,
output, counts) is the same for every batch that agrees with `input` on its
first `k + 1` samples; when the window completes at no index, the consumed count
is the batch length; and the returned count is the number of samples written. -/
theorem partial_consumption (C : Consts) (now : Int) (s : gate_impl)
    (input : List gr_complex) :
    (∀ k : Nat, completes_at C now s input k →
      (general_work C now s input).consumed = (k : Int) + 1 ∧
      ∀ ys : List gr_complex,
        general_work C now s (input.take (k + 1) ++ ys) = general_work C now s input) ∧
    ((∀ k : Nat, ¬ completes_at C now s input k) →
      (general_work C now s input).consumed = (input.length : Int)) ∧
    (general_work C now s input).returned = ((general_work C now s input).out.length : Int) := by
  by_cases hr : (gate_control C (termination_check C now s).1).reader_state.status = RUNNING
  · refine ⟨fun k hk => ?_, fun hk => ?_, ?_⟩
    · obtain ⟨_, h2, h3⟩ := sample_loop_completes C input _ _ 0 k hk.2
      refine ⟨?_, fun ys => ?_⟩
      · simp only [general_work, hr, if_true]
        simpa [initial_locals] using h2
      · have := h3 ys (initial_locals (input.take (k + 1) ++ ys)) rfl rfl
        simp only [general_work, hr, if_true]
        simp only [initial_locals] at this
        rw [this]
    · have hk' : ∀ k, ¬ window_completes_at C (gate_control C (termination_check C now s).1)
          (initial_locals input) 0 input k := fun k h => hk k ⟨hr, h⟩
      obtain ⟨_, h2⟩ := sample_loop_never_completes C input _ _ 0 hk'
      simp only [general_work, hr, if_true]
      simpa [initial_locals] using h2
    · obtain ⟨o, h1, h2⟩ := sample_loop_written C input
        (gate_control C (termination_check C now s).1) (initial_locals input) 0
      simp only [general_work, hr, if_true]
      simp only [initial_locals] at h1 h2
      rw [h1, h2]; simp
  · refine ⟨fun k hk => absurd hk.1 hr, fun _ => ?_, ?_⟩
    · simp [general_work, hr]
    · simp [general_work, hr]

/-- C2, an instance: an open block with window length 3 given four samples
completes its window at index 2, consumes 3 samples, and yields the same result
when the fourth sample is replaced by others. -/
theorem partial_consumption_witness :
    completes_at sample_consts 0 open_block four_samples 2 ∧
    (general_work sample_consts 0 open_block four_samples).consumed = 3 ∧
    general_work sample_consts 0 open_block (four_samples.take 3 ++ [⟨7, 5⟩, ⟨0, 1⟩]) =
      general_work sample_consts 0 open_block four_samples ∧
    (general_work sample_consts 0 open_block four_samples).returned =
      ((general_work sample_consts 0 open_block four_samples).out.length : Int) :=
  ⟨by decide!,
   ((partial_consumption sample_consts 0 open_block four_samples).1 2 (by decide!)).1,
   ((partial_consumption sample_consts 0 open_block four_samples).1 2 (by decide!)).2 _,
   (partial_consumption sample_consts 0 open_block four_samples).2.2⟩

/-! ## C3: the truncation scenario -/

/-- C3, the claim as written fails: in the scenario (RUNNING, gate OPEN, window
length 50, counter 0, a batch of 80 samples) the call writes 50 samples and
closes the gate, and the count passed to `consume_each` is 50, not 51; 30
samples, not 29, are left for the next call. -/
theorem truncation_scenario_counterexample :
    scenario_block.reader_state.status = RUNNING ∧
    scenario_block.reader_state.gate_status = GATE_OPEN ∧
    scenario_block.reader_state.n_samples_to_ungate = 50 ∧
    scenario_block.n_samples = 0 ∧
    eighty_samples.length = 80 ∧
    (general_work sample_consts 0 scenario_block eighty_samples).out.length = 50 ∧
    (general_work sample_consts 0 scenario_block eighty_samples).state.reader_state.gate_status
      = GATE_CLOSED ∧
    (general_work sample_consts 0 scenario_block eighty_samples).consumed = 50 ∧
    (general_work sample_consts 0 scenario_block eighty_samples).consumed ≠ 51 ∧
    (eighty_samples.length : Int)
      - (general_work sample_consts 0 scenario_block eighty_samples).consumed = 30 := by
  decide!

/-- C3 (as amended). With status RUNNING and no termination limit exceeded, the
gate OPEN, a window length of 50 and window counter 0, a call on any batch of 80
samples writes exactly 50 output samples (the first 50 inputs minus the DC
estimate), returns 50, leaves the gate CLOSED and reports a consumed count of
50, which leaves 30 samples for the next call. -/
theorem truncation_scenario (C : Consts) (now : Int) (s : gate_impl)
    (input : List gr_complex)
    (hrun : s.reader_state.status = RUNNING) (hlim : ¬ limits_exceeded C s)
    (hopen : s.reader_state.gate_status = GATE_OPEN)
    (hL : s.reader_state.n_samples_to_ungate = 50) (hc : s.n_samples = 0)
    (hN : input.length = 80) :
    (general_work C now s input).out = (input.take 50).map (fun x => x - s.dc_est) ∧
    (general_work C now s input).out.length = 50 ∧
    (general_work C now s input).returned = 50 ∧
    (general_work C now s input).state.reader_state.gate_status = GATE_CLOSED ∧
    (general_work C now s input).consumed = 50 ∧
    (input.length : Int) - (general_work C now s input).consumed = 30 := by
  rw [general_work_running C now s input hrun hlim, gate_control_idle C s (Or.inl hopen)]
  obtain ⟨_, h2⟩ := sample_loop_open C input s (initial_locals input) 0 hopen
  rw [hL, hc, hN] at h2
  obtain ⟨_, hg, ho, hw, hcons⟩ := h2 (by norm_num) (by norm_num)
  have ho' : (sample_loop C s (initial_locals input) 0 input).2.1.out =
      (input.take 50).map (fun x => x - s.dc_est) := by
    rw [ho]; simp [initial_locals]
  refine ⟨ho', ?_, ?_, hg, ?_, ?_⟩
  · show (sample_loop C s (initial_locals input) 0 input).2.1.out.length = 50
    rw [ho']; simp [hN]
  · show (sample_loop C s (initial_locals input) 0 input).2.1.written = 50
    rw [hw]; simp [initial_locals]
  · show (sample_loop C s (initial_locals input) 0 input).2.1.number_samples_consumed = 50
    rw [hcons]; norm_num
  · show (input.length : Int)
      - (sample_loop C s (initial_locals input) 0 input).2.1.number_samples_consumed = 30
    rw [hcons, hN]; norm_num

/-- C3, the amended scenario at the block and batch of the counterexample. -/
theorem truncation_scenario_witness :
    (general_work sample_consts 0 scenario_block eighty_samples).out =
      (eighty_samples.take 50).map (fun x => x - scenario_block.dc_est) ∧
    (general_work sample_consts 0 scenario_block eighty_samples).out.length = 50 ∧
    (general_work sample_consts 0 scenario_block eighty_samples).returned = 50 ∧
    (general_work sample_consts 0 scenario_block eighty_samples).state.reader_state.gate_status
      = GATE_CLOSED ∧
    (general_work sample_consts 0 scenario_block eighty_samples).consumed = 50 ∧
    (eighty_samples.length : Int)
      - (general_work sample_consts 0 scenario_block eighty_samples).consumed = 30 :=
  truncation_scenario sample_consts 0 scenario_block eighty_samples
    (by decide) (by decide!) (by decide) (by decide) (by decide) (by decide)

/-! ## C4: chunking -/

/-- C4 (as amended). When the open window does not complete during the call on
`xs`, calling `general_work` on `xs` and then on `ys` leaves the same state as
one call on `xs ++ ys`, the two outputs concatenate to the output of the one
call, and the returned and consumed counts add up to those of the one call. -/
theorem chunking_invariance (C : Consts) (now now' : Int) (s : gate_impl)
    (xs ys : List gr_complex) (h : ∀ k : Nat, ¬ completes_at C now s xs k) :
    (general_work C now' (general_work C now s xs).state ys).state =
      (general_work C now s (xs ++ ys)).state ∧
    (general_work C now s xs).out ++ (general_work C now' (general_work C now s xs).state ys).out =
      (general_work C now s (xs ++ ys)).out ∧
    (general_work C now s xs).returned
        + (general_work C now' (general_work C now s xs).state ys).returned =
      (general_work C now s (xs ++ ys)).returned ∧
    (general_work C now s xs).consumed
        + (general_work C now' (general_work C now s xs).state ys).consumed =
      (general_work C now s (xs ++ ys)).consumed := by
  have hs1 := gate_control_settled C (termination_check C now s).1
  by_cases hr : (gate_control C (termination_check C now s).1).reader_state.status = RUNNING
  · have hr' : (termination_check C now s).1.reader_state.status = RUNNING := by
      rw [← gate_control_status C]; exact hr
    obtain ⟨hlim, _⟩ := termination_check_running C now s hr'
    obtain ⟨s2, o1, b1, k1, _, _, hx⟩ :=
      sample_loop_shape C xs (gate_control C (termination_check C now s).1)
    have hb1 : b1 = false := by
      have := (sample_loop_never_completes C xs _ (initial_locals xs) 0
        (fun k hk => h k ⟨hr, hk⟩)).1
      rw [hx] at this; exact this
    subst hb1
    obtain ⟨f1, f2, _, f4⟩ := sample_loop_frame C xs
      (gate_control C (termination_check C now s).1) (initial_locals xs) 0
    rw [hx] at f1 f2 f4
    simp only at f1 f2 f4
    have hs2 : gate_settled s2 := f4 hs1
    have hr2 : s2.reader_state.status = RUNNING := f1.trans hr
    have hl2 : ¬ limits_exceeded C s2 := by
      rw [limits_exceeded_congr C s (s2)]
      · exact hlim
      · rw [f2, gate_control_stats]
        rw [termination_check_quiet C now s hlim]
    obtain ⟨s3, o2, b2, k2, _, _, hy⟩ := sample_loop_shape C ys s2
    have e1 : general_work C now s xs =
        { state := s2, out := o1, consumed := (xs.length : Int), returned := (o1.length : Int),
          notice := (termination_check C now s).2 } := by
      simp only [general_work, hr, if_true, hx]
      simp
    have e2 : general_work C now' s2 ys =
        { state := s3, out := o2,
          consumed := if b2 then (k2 : Int) else (ys.length : Int),
          returned := (o2.length : Int), notice := false } := by
      rw [general_work_settled C now' s2 ys hs2 (Or.inl hl2), if_pos hr2, hy]
      simp [initial_locals]
    have e3 : general_work C now s (xs ++ ys) =
        { state := s3, out := o1 ++ o2,
          consumed := if b2 then (xs.length : Int) + (k2 : Int)
            else (xs.length : Int) + (ys.length : Int),
          returned := (o1.length : Int) + (o2.length : Int),
          notice := (termination_check C now s).2 } := by
      simp only [general_work, hr, if_true, sample_loop_append, hx, hy]
      simp
    rw [e1]
    simp only
    rw [e2, e3]
    refine ⟨rfl, rfl, rfl, ?_⟩
    cases b2 <;> simp
  · have hterm : (gate_control C (termination_check C now s).1).reader_state.status
        = TERMINATED := by
      cases hst : (gate_control C (termination_check C now s).1).reader_state.status
      · exact absurd hst hr
      · rfl
    have e1 : general_work C now s xs =
        { state := gate_control C (termination_check C now s).1, out := [],
          consumed := (xs.length : Int), returned := 0,
          notice := (termination_check C now s).2 } := by
      simp only [general_work, hr, if_false]
    have e3 : general_work C now s (xs ++ ys) =
        { state := gate_control C (termination_check C now s).1, out := [],
          consumed := (xs.length : Int) + (ys.length : Int), returned := 0,
          notice := (termination_check C now s).2 } := by
      simp only [general_work, hr, if_false]
      simp
    rw [e1]
    simp only
    rw [general_work_settled C now' _ ys hs1 (Or.inr hterm), if_neg hr, e3]
    simp

/-- C4, the claim as written fails: an open block with window length 3 given
`four_samples ++ [(5,0)]` in one call stops when the window completes at index
2, so the samples after it are never absorbed; given `four_samples` and then
`[(5,0)]` in two calls, the first call stops at the same place and the second
call processes `(5,0)` with the gate closed. The final states differ (average
amplitude 3/50 against 11/100, ring index 3 against 4, pulse counter 0 against
1). -/
theorem chunking_invariance_counterexample :
    (general_work sample_consts 0
        (general_work sample_consts 0 open_block four_samples).state [⟨5, 0⟩]).state ≠
      (general_work sample_consts 0 open_block (four_samples ++ [⟨5, 0⟩])).state ∧
    (general_work sample_consts 0 open_block (four_samples ++ [⟨5, 0⟩])).state.avg_ampl
      = 3 / 50 ∧
    (general_work sample_consts 0
        (general_work sample_consts 0 open_block four_samples).state [⟨5, 0⟩]).state.avg_ampl
      = 11 / 100 ∧
    (general_work sample_consts 0 open_block (four_samples ++ [⟨5, 0⟩])).state.win_index = 3 ∧
    (general_work sample_consts 0
        (general_work sample_consts 0 open_block four_samples).state [⟨5, 0⟩]).state.win_index
      = 4 ∧
    (general_work sample_consts 0 open_block (four_samples ++ [⟨5, 0⟩])).state.num_pulses = 0 ∧
    (general_work sample_consts 0
        (general_work sample_consts 0 open_block four_samples).state [⟨5, 0⟩]).state.num_pulses
      = 1 := by
  decide!

/-- C4, an instance of the amended claim: the window of length 3 does not
complete within the first two samples, and the split run over `[(1,0), (2,0)]`
and `[(3,0), (4,0)]` agrees with the single call. -/
theorem chunking_invariance_witness :
    (general_work sample_consts 1
        (general_work sample_consts 0 open_block [⟨1, 0⟩, ⟨2, 0⟩]).state [⟨3, 0⟩, ⟨4, 0⟩]).state =
      (general_work sample_consts 0 open_block ([⟨1, 0⟩, ⟨2, 0⟩] ++ [⟨3, 0⟩, ⟨4, 0⟩])).state ∧
    (general_work sample_consts 0 open_block [⟨1, 0⟩, ⟨2, 0⟩]).out ++
        (general_work sample_consts 1
          (general_work sample_consts 0 open_block [⟨1, 0⟩, ⟨2, 0⟩]).state
          [⟨3, 0⟩, ⟨4, 0⟩]).out =
      (general_work sample_consts 0 open_block ([⟨1, 0⟩, ⟨2, 0⟩] ++ [⟨3, 0⟩, ⟨4, 0⟩])).out ∧
    (general_work sample_consts 0 open_block [⟨1, 0⟩, ⟨2, 0⟩]).returned
        + (general_work sample_consts 1
            (general_work sample_consts 0 open_block [⟨1, 0⟩, ⟨2, 0⟩]).state
            [⟨3, 0⟩, ⟨4, 0⟩]).returned =
      (general_work sample_consts 0 open_block ([⟨1, 0⟩, ⟨2, 0⟩] ++ [⟨3, 0⟩, ⟨4, 0⟩])).returned ∧
    (general_work sample_consts 0 open_block [⟨1, 0⟩, ⟨2, 0⟩]).consumed
        + (general_work sample_consts 1
            (general_work sample_consts 0 open_block [⟨1, 0⟩, ⟨2, 0⟩]).state
            [⟨3, 0⟩, ⟨4, 0⟩]).consumed =
      (general_work sample_consts 0 open_block ([⟨1, 0⟩, ⟨2, 0⟩] ++ [⟨3, 0⟩, ⟨4, 0⟩])).consumed :=
  chunking_invariance sample_consts 0 1 open_block [⟨1, 0⟩, ⟨2, 0⟩] [⟨3, 0⟩, ⟨4, 0⟩]
    (fun k => match k with
      | 0 => by decide!
      | 1 => by decide!
      | _ + 2 => fun h => h.2.2.2)

/-! ## C5: derivation of the sample counts -/

/-- C5, the claim as written fails: the constructor computes
`D * (sample_rate / pow(10,6))` in `double`, and at `sample_rate = 512500` the
count derived for T1 = 240 microseconds is 122, while `240 * 512500 / 10^6` is
exactly 123. The same happens for the tag bit (25 microseconds) at 1160000 Hz,
28 against 29, and for the DC window (120 microseconds) at 1025000 Hz, 122
against 123. -/
theorem timing_derivation_counterexample :
    (gate_impl.gate_impl sample_consts (sample_reader_state RUNNING GATE_CLOSED 0 0) 512500).map
      (fun b => b.n_samples_T1) = some 122 ∧
    sample_consts.T1_D = 240 ∧
    ((240 : ℚ) * 512500 / 10 ^ 6 = 123 ∧ Int.tdiv (240 * 512500) (10 ^ 6) = 123) ∧
    to_double ((240 : ℚ) * to_double ((512500 : ℚ) / (10 : ℚ) ^ 6)) < 123 ∧
    (derive_samples 25 1160000 = 28 ∧ Int.tdiv (25 * 1160000) (10 ^ 6) = 29) ∧
    (derive_samples 120 1025000 = 122 ∧ Int.tdiv (120 * 1025000) (10 ^ 6) = 123) := by
  decide!

/-- C5 (as amended). Every sample count of a constructed block is the
truncation toward zero of the `double` value of `duration * (sample_rate /
10^6)`, the quotient and the product each rounded to the nearest `double`
(`derive_samples`). For a duration `≥ 0` and a sample rate `≥ 0` with
`duration * sample_rate ≤ 2^51`, this count is the truncation toward zero of the
exact `duration * sample_rate / 10^6` (`Int.tdiv`) or one below it, and it is
the exact truncation whenever `duration * sample_rate` is not a multiple of
`10^6`. With the documented durations (240, 12, 25, 250 and 120 microseconds)
the constructor at 400000 Hz yields T1 = 96, PW = 4 (the exact value 24/5
truncated, where rounding would give 5), tag bit = 10, averaging window = 100
and DC window = 48. -/
theorem timing_derivation (C : Consts) (rs0 : READER_STATE) :
    (∀ (sample_rate : Int) (b : gate_impl),
      gate_impl.gate_impl C rs0 sample_rate = some b →
      b.n_samples_T1 = derive_samples C.T1_D sample_rate ∧
      b.n_samples_PW = derive_samples C.PW_D sample_rate ∧
      b.n_samples_TAG_BIT = derive_samples C.TAG_BIT_D sample_rate ∧
      b.win_length = derive_samples C.WIN_SIZE_D sample_rate ∧
      b.dc_length = derive_samples C.DC_SIZE_D sample_rate) ∧
    (∀ D sample_rate : Int, 0 ≤ D → 0 ≤ sample_rate → D * sample_rate ≤ 2 ^ 51 →
      Int.tdiv (D * sample_rate) (10 ^ 6) - 1 ≤ derive_samples D sample_rate ∧
      derive_samples D sample_rate ≤ Int.tdiv (D * sample_rate) (10 ^ 6) ∧
      (Int.tmod (D * sample_rate) (10 ^ 6) ≠ 0 →
        derive_samples D sample_rate = Int.tdiv (D * sample_rate) (10 ^ 6))) ∧
    (C.T1_D = 240 → C.PW_D = 12 → C.TAG_BIT_D = 25 → C.WIN_SIZE_D = 250 → C.DC_SIZE_D = 120 →
      ∃ b : gate_impl, gate_impl.gate_impl C rs0 400000 = some b ∧
        b.n_samples_T1 = 96 ∧ b.n_samples_PW = 4 ∧ b.n_samples_TAG_BIT = 10 ∧
        b.win_length = 100 ∧ b.dc_length = 48 ∧
        b.win_samples.length = 100 ∧ b.dc_samples.length = 48) ∧
    ((12 : ℚ) * 400000 / 10 ^ 6 = 24 / 5 ∧ round_nearest_even (24 / 5) = 5 ∧
      truncate (24 / 5) = 4 ∧
      truncate (to_double ((12 : ℚ) * to_double ((400000 : ℚ) / (10 : ℚ) ^ 6))) = 4) := by
  refine ⟨?_, derive_samples_bounds, ?_, ?_⟩
  · intro sample_rate b hb
    unfold gate_impl.gate_impl at hb
    simp only at hb
    split_ifs at hb
    simp only [Option.some.injEq] at hb
    subst hb
    exact ⟨rfl, rfl, rfl, rfl, rfl⟩
  · intro h1 h2 h3 h4 h5
    obtain ⟨d1, d2, d3, d4, d5⟩ := derive_samples_documented
    unfold gate_impl.gate_impl
    simp only [h1, h2, h3, h4, h5, d1, d2, d3, d4, d5]
    refine ⟨_, if_neg (by decide), ?_⟩
    refine ⟨rfl, rfl, rfl, rfl, rfl, ?_, ?_⟩
    · simp only [List.length_replicate]; rfl
    · simp only [List.length_replicate]; rfl
  · decide!

/-- C5, at the documented constants: the constructor at 400000 Hz returns the
block with counts 96, 4, 10, 100 and 48, and at 512500 Hz the count for the
averaging window (250 microseconds, where `250 * 512500` is not a multiple of
`10^6`) is the exact truncation 128. -/
theorem timing_derivation_witness :
    (∃ b : gate_impl,
      gate_impl.gate_impl sample_consts (sample_reader_state RUNNING GATE_CLOSED 0 0) 400000
        = some b ∧
      b.n_samples_T1 = 96 ∧ b.n_samples_PW = 4 ∧ b.n_samples_TAG_BIT = 10 ∧
      b.win_length = 100 ∧ b.dc_length = 48 ∧
      b.win_samples.length = 100 ∧ b.dc_samples.length = 48) ∧
    derive_samples 250 512500 = Int.tdiv (250 * 512500) (10 ^ 6) :=
  ⟨(timing_derivation sample_consts (sample_reader_state RUNNING GATE_CLOSED 0 0)).2.2.1
      rfl rfl rfl rfl rfl,
   ((timing_derivation sample_consts (sample_reader_state RUNNING GATE_CLOSED 0 0)).2.1
      250 512500 (by decide) (by decide) (by decide)).2.2 (by decide)⟩

/-! ## C6: construction does not reject a zero-length window -/

/-- C6, the claim as written fails: at `sample_rate = 1000` the derived
averaging-window and DC-window lengths are both 0, and the constructor returns a
block all the same, with `win_length = 0`, `dc_length = 0` and empty buffers. -/
theorem degenerate_configuration_counterexample :
    derive_samples sample_consts.WIN_SIZE_D 1000 = 0 ∧
    derive_samples sample_consts.DC_SIZE_D 1000 = 0 ∧
    (gate_impl.gate_impl sample_consts (sample_reader_state RUNNING GATE_CLOSED 0 0) 1000).isSome
      = true ∧
    (gate_impl.gate_impl sample_consts (sample_reader_state RUNNING GATE_CLOSED 0 0) 1000).map
      (fun b => (b.win_length, b.dc_length, b.win_samples, b.dc_samples)) = some (0, 0, [], []) := by
  decide!

/-- C6 (as amended). The constructor does not test the derived window lengths
against zero. It fails exactly when a derived window length is negative (the
`resize`). For every sample rate `≥ 0`, with window durations `≥ 0`, it returns
a block whose `win_length` and `dc_length` are the derived counts
(`derive_samples`, the truncated `double` products), both `≥ 0`, with buffers of
exactly these lengths. Whenever `WIN_SIZE_D * sample_rate < 10^6` the returned
block has `win_length = 0` and an empty amplitude ring, and whenever
`DC_SIZE_D * sample_rate < 10^6` it has `dc_length = 0` and an empty DC ring;
above `10^6` (and up to `2^51`) the length is at least 1. -/
theorem degenerate_configuration (C : Consts) (rs0 : READER_STATE) (sample_rate : Int) :
    (gate_impl.gate_impl C rs0 sample_rate = none ↔
      derive_samples C.WIN_SIZE_D sample_rate < 0 ∨
        derive_samples C.DC_SIZE_D sample_rate < 0) ∧
    (0 ≤ sample_rate → 0 ≤ C.WIN_SIZE_D → 0 ≤ C.DC_SIZE_D →
      ∃ b : gate_impl, gate_impl.gate_impl C rs0 sample_rate = some b ∧
        b.win_length = derive_samples C.WIN_SIZE_D sample_rate ∧
        b.dc_length = derive_samples C.DC_SIZE_D sample_rate ∧
        0 ≤ b.win_length ∧ 0 ≤ b.dc_length ∧
        (b.win_samples.length : Int) = b.win_length ∧
        (b.dc_samples.length : Int) = b.dc_length ∧
        (C.WIN_SIZE_D * sample_rate < 10 ^ 6 → b.win_length = 0 ∧ b.win_samples = []) ∧
        (C.DC_SIZE_D * sample_rate < 10 ^ 6 → b.dc_length = 0 ∧ b.dc_samples = []) ∧
        (10 ^ 6 < C.WIN_SIZE_D * sample_rate → C.WIN_SIZE_D * sample_rate ≤ 2 ^ 51 →
          1 ≤ b.win_length) ∧
        (10 ^ 6 < C.DC_SIZE_D * sample_rate → C.DC_SIZE_D * sample_rate ≤ 2 ^ 51 →
          1 ≤ b.dc_length)) := by
  have small : ∀ D : Int, 0 ≤ D → 0 ≤ sample_rate → D * sample_rate < 10 ^ 6 →
      derive_samples D sample_rate = 0 := by
    intro D hD hs hlt
    have h0 := derive_samples_nonneg D sample_rate hD hs
    have hb := (derive_samples_bounds D sample_rate hD hs (by omega)).2.1
    have hX : 0 ≤ D * sample_rate := Int.mul_nonneg hD hs
    rw [Int.tdiv_eq_ediv hX (by norm_num)] at hb
    have : D * sample_rate / 10 ^ 6 = 0 := Int.ediv_eq_zero_of_lt hX hlt
    omega
  have large : ∀ D : Int, 0 ≤ D → 0 ≤ sample_rate → 10 ^ 6 < D * sample_rate →
      D * sample_rate ≤ 2 ^ 51 → 1 ≤ derive_samples D sample_rate := by
    intro D hD hs hgt hle
    obtain ⟨b1, -, b3⟩ := derive_samples_bounds D sample_rate hD hs hle
    have hX : 0 ≤ D * sample_rate := Int.mul_nonneg hD hs
    rw [Int.tdiv_eq_ediv hX (by norm_num)] at b1 b3
    rw [Int.tmod_eq_emod hX (by norm_num)] at b3
    generalize D * sample_rate = X at *
    by_cases hm : X % 10 ^ 6 = 0
    · have : 2 ≤ X / 10 ^ 6 := by omega
      omega
    · rw [b3 hm]; omega
  constructor
  · unfold gate_impl.gate_impl
    simp only
    split_ifs with h
    · simp [h]
    · simp
      push_neg at h
      exact h
  · intro hsr hw hd
    have nW := derive_samples_nonneg C.WIN_SIZE_D sample_rate hw hsr
    have nD := derive_samples_nonneg C.DC_SIZE_D sample_rate hd hsr
    have h1 : ¬ (derive_samples C.WIN_SIZE_D sample_rate < 0 ∨
        derive_samples C.DC_SIZE_D sample_rate < 0) := by omega
    unfold gate_impl.gate_impl
    refine ⟨_, if_neg h1, rfl, rfl, nW, nD, ?_, ?_, ?_, ?_, ?_, ?_⟩
    · show ((List.replicate (derive_samples C.WIN_SIZE_D sample_rate).toNat (0 : ℚ)).length : Int)
        = derive_samples C.WIN_SIZE_D sample_rate
      rw [List.length_replicate]; omega
    · show ((List.replicate (derive_samples C.DC_SIZE_D sample_rate).toNat
        (⟨0, 0⟩ : gr_complex)).length : Int) = derive_samples C.DC_SIZE_D sample_rate
      rw [List.length_replicate]; omega
    · intro hlt
      have e := small C.WIN_SIZE_D hw hsr hlt
      refine ⟨e, ?_⟩
      show List.replicate (derive_samples C.WIN_SIZE_D sample_rate).toNat (0 : ℚ) = []
      rw [e]; rfl
    · intro hlt
      have e := small C.DC_SIZE_D hd hsr hlt
      refine ⟨e, ?_⟩
      show List.replicate (derive_samples C.DC_SIZE_D sample_rate).toNat
        (⟨0, 0⟩ : gr_complex) = []
      rw [e]; rfl
    · exact large C.WIN_SIZE_D hw hsr
    · exact large C.DC_SIZE_D hd hsr

/-- C6, the amended claim at `sample_rate = 1000` with the documented window
durations: a block is returned, and its window lengths are 0 and its rings
empty. -/
theorem degenerate_configuration_witness :
    ∃ b : gate_impl,
      gate_impl.gate_impl sample_consts (sample_reader_state RUNNING GATE_CLOSED 0 0) 1000
        = some b ∧
      (b.win_length = 0 ∧ b.win_samples = []) ∧ (b.dc_length = 0 ∧ b.dc_samples = []) := by
  obtain ⟨b, hb, -, -, -, -, -, -, hw, hd, -, -⟩ :=
    (degenerate_configuration sample_consts (sample_reader_state RUNNING GATE_CLOSED 0 0) 1000).2
      (by decide) (by decide) (by decide)
  exact ⟨b, hb, hw (by decide), hd (by decide)⟩

/-! ## C7: arming -/

/-- C7. In every call of `general_work` the sample loop (if it runs) starts from
the state the arming step leaves, and the arming step is applied to the state at
the start of the call (the termination check before it touches neither the gate
status nor the block). When the call starts with SEEK_EPC the arming step sets
the window length to `(EPC_BITS + TAG_PREAMBLE_BITS) * n_samples_TAG_BIT +
2 * n_samples_TAG_BIT`, closes the gate and clears the elapsed counter, and
leaves the pulse counter, the edge state and both estimators as they were;
likewise with `RN16_BITS` for SEEK_RN16; when the call starts CLOSED or OPEN the
arming step changes nothing. -/
theorem arming (C : Consts) (now : Int) (s : gate_impl) (input : List gr_complex) :
    (general_work C now s input).state =
      (if (gate_control C (termination_check C now s).1).reader_state.status = RUNNING then
        (sample_loop C (gate_control C (termination_check C now s).1)
          (initial_locals input) 0 input).1
      else gate_control C (termination_check C now s).1) ∧
    (general_work C now s []).state = gate_control C (termination_check C now s).1 ∧
    (s.reader_state.gate_status = GATE_SEEK_EPC →
      (gate_control C (termination_check C now s).1).reader_state.n_samples_to_ungate =
        (C.EPC_BITS + C.TAG_PREAMBLE_BITS) * s.n_samples_TAG_BIT + 2 * s.n_samples_TAG_BIT ∧
      (gate_control C (termination_check C now s).1).reader_state.gate_status = GATE_CLOSED ∧
      (gate_control C (termination_check C now s).1).n_samples = 0) ∧
    (s.reader_state.gate_status = GATE_SEEK_RN16 →
      (gate_control C (termination_check C now s).1).reader_state.n_samples_to_ungate =
        (C.RN16_BITS + C.TAG_PREAMBLE_BITS) * s.n_samples_TAG_BIT + 2 * s.n_samples_TAG_BIT ∧
      (gate_control C (termination_check C now s).1).reader_state.gate_status = GATE_CLOSED ∧
      (gate_control C (termination_check C now s).1).n_samples = 0) ∧
    ((gate_control C (termination_check C now s).1).num_pulses = s.num_pulses ∧
      (gate_control C (termination_check C now s).1).signal_state = s.signal_state ∧
      (gate_control C (termination_check C now s).1).avg_ampl = s.avg_ampl ∧
      (gate_control C (termination_check C now s).1).sample_thresh = s.sample_thresh ∧
      (gate_control C (termination_check C now s).1).win_samples = s.win_samples ∧
      (gate_control C (termination_check C now s).1).win_index = s.win_index ∧
      (gate_control C (termination_check C now s).1).dc_est = s.dc_est ∧
      (gate_control C (termination_check C now s).1).dc_samples = s.dc_samples ∧
      (gate_control C (termination_check C now s).1).dc_index = s.dc_index ∧
      (gate_control C (termination_check C now s).1).reader_state.magn_squared_samples =
        s.reader_state.magn_squared_samples) ∧
    (s.reader_state.gate_status = GATE_CLOSED ∨ s.reader_state.gate_status = GATE_OPEN →
      gate_control C (termination_check C now s).1 = (termination_check C now s).1 ∧
      (termination_check C now s).1.reader_state.gate_status = s.reader_state.gate_status ∧
      (termination_check C now s).1.reader_state.n_samples_to_ungate =
        s.reader_state.n_samples_to_ungate ∧
      (termination_check C now s).1.n_samples = s.n_samples) := by
  have hg : (termination_check C now s).1.reader_state.gate_status = s.reader_state.gate_status := by
    unfold termination_check; split_ifs <;> rfl
  have hL : (termination_check C now s).1.reader_state.n_samples_to_ungate =
      s.reader_state.n_samples_to_ungate := by
    unfold termination_check; split_ifs <;> rfl
  have hm : (termination_check C now s).1.reader_state.magn_squared_samples =
      s.reader_state.magn_squared_samples := by
    unfold termination_check; split_ifs <;> rfl
  have hblk : ∀ t : gate_impl, t.reader_state.gate_status = s.reader_state.gate_status →
      t.reader_state.magn_squared_samples = s.reader_state.magn_squared_samples →
      t.n_samples_TAG_BIT = s.n_samples_TAG_BIT → t.num_pulses = s.num_pulses →
      t.signal_state = s.signal_state → t.avg_ampl = s.avg_ampl →
      t.sample_thresh = s.sample_thresh → t.win_samples = s.win_samples →
      t.win_index = s.win_index → t.dc_est = s.dc_est → t.dc_samples = s.dc_samples →
      t.dc_index = s.dc_index →
      (s.reader_state.gate_status = GATE_SEEK_EPC →
        (gate_control C t).reader_state.n_samples_to_ungate =
          (C.EPC_BITS + C.TAG_PREAMBLE_BITS) * s.n_samples_TAG_BIT + 2 * s.n_samples_TAG_BIT ∧
        (gate_control C t).reader_state.gate_status = GATE_CLOSED ∧
        (gate_control C t).n_samples = 0) ∧
      (s.reader_state.gate_status = GATE_SEEK_RN16 →
        (gate_control C t).reader_state.n_samples_to_ungate =
          (C.RN16_BITS + C.TAG_PREAMBLE_BITS) * s.n_samples_TAG_BIT + 2 * s.n_samples_TAG_BIT ∧
        (gate_control C t).reader_state.gate_status = GATE_CLOSED ∧
        (gate_control C t).n_samples = 0) ∧
      ((gate_control C t).num_pulses = s.num_pulses ∧
        (gate_control C t).signal_state = s.signal_state ∧
        (gate_control C t).avg_ampl = s.avg_ampl ∧
        (gate_control C t).sample_thresh = s.sample_thresh ∧
        (gate_control C t).win_samples = s.win_samples ∧
        (gate_control C t).win_index = s.win_index ∧
        (gate_control C t).dc_est = s.dc_est ∧
        (gate_control C t).dc_samples = s.dc_samples ∧
        (gate_control C t).dc_index = s.dc_index ∧
        (gate_control C t).reader_state.magn_squared_samples =
          s.reader_state.magn_squared_samples) := by
    intro t h0 h0' h1 h2 h3 h4 h5 h6 h7 h8 h9 h10
    refine ⟨fun he => ?_, fun hr => ?_, ?_⟩
    · have : t.reader_state.gate_status = GATE_SEEK_EPC := h0.trans he
      simp [gate_control, this, h1]
    · have : t.reader_state.gate_status = GATE_SEEK_RN16 := h0.trans hr
      simp [gate_control, this, h1]
    · unfold gate_control
      split_ifs <;> exact ⟨h2, h3, h4, h5, h6, h7, h8, h9, h10, h0'⟩
  have hfields := hblk (termination_check C now s).1 hg hm
    (by unfold termination_check; split_ifs <;> rfl)
    (by unfold termination_check; split_ifs <;> rfl)
    (by unfold termination_check; split_ifs <;> rfl)
    (by unfold termination_check; split_ifs <;> rfl)
    (by unfold termination_check; split_ifs <;> rfl)
    (by unfold termination_check; split_ifs <;> rfl)
    (by unfold termination_check; split_ifs <;> rfl)
    (by unfold termination_check; split_ifs <;> rfl)
    (by unfold termination_check; split_ifs <;> rfl)
    (by unfold termination_check; split_ifs <;> rfl)
  refine ⟨?_, ?_, hfields.1, hfields.2.1, hfields.2.2, ?_⟩
  · simp only [general_work, initial_locals]
    split_ifs <;> rfl
  · simp only [general_work, sample_loop]
    split_ifs <;> rfl
  · intro h
    refine ⟨gate_control_idle C _ ?_, hg, hL, ?_⟩
    · rw [hg]; exact h.symm
    · unfold termination_check; split_ifs <;> rfl

/-- C7, an instance: a block armed with SEEK_EPC (129 + 6 bits of 10 samples,
plus 20) gets window length 1370, a closed gate and a cleared counter. -/
theorem arming_witness :
    (gate_control sample_consts
      (termination_check sample_consts 0
        (sample_block (sample_reader_state RUNNING GATE_SEEK_EPC 0 0))).1).reader_state.n_samples_to_ungate
      = 1370 ∧
    (general_work sample_consts 0
      (sample_block (sample_reader_state RUNNING GATE_SEEK_EPC 0 0)) []).state.reader_state.gate_status
      = GATE_CLOSED :=
  ⟨((arming sample_consts 0 (sample_block (sample_reader_state RUNNING GATE_SEEK_EPC 0 0))
      []).2.2.1 rfl).1,
   (arming sample_consts 0 (sample_block (sample_reader_state RUNNING GATE_SEEK_EPC 0 0))
      []).2.1 ▸
    ((arming sample_consts 0 (sample_block (sample_reader_state RUNNING GATE_SEEK_EPC 0 0))
      []).2.2.1 rfl).2.1⟩

/-! ## C8: the command-detection condition -/

/-- C8. For a sample `x` processed while the gate is not OPEN, with
`seek_step C s x` the state after the averager, the DC estimator, the elapsed
counter and the edge detector have taken the sample: the gate is OPEN after the
sample exactly when the edge state is RISING, the elapsed counter is strictly
above `n_samples_T1` and the pulse counter strictly above `NUM_PULSES_COMMAND`;
it does not open when the pulse counter equals `NUM_PULSES_COMMAND` or the
elapsed counter equals `n_samples_T1`. When it opens, the pulse counter is 0,
the elapsed counter is 1 and exactly one sample (`x` minus the DC estimate) is
written; when it does not, nothing is written. The loop is not left. -/
theorem command_detection (C : Consts) (s : gate_impl) (l : work_locals) (i : Int)
    (x : gr_complex) (h : s.reader_state.gate_status ≠ GATE_OPEN) :
    ((loop_body C s l i x).1.reader_state.gate_status = GATE_OPEN ↔
      (seek_step C s x).signal_state = POS_EDGE ∧
      (seek_step C s x).n_samples > s.n_samples_T1 ∧
      (seek_step C s x).num_pulses > C.NUM_PULSES_COMMAND) ∧
    ((seek_step C s x).num_pulses = C.NUM_PULSES_COMMAND →
      (loop_body C s l i x).1.reader_state.gate_status ≠ GATE_OPEN) ∧
    ((seek_step C s x).n_samples = s.n_samples_T1 →
      (loop_body C s l i x).1.reader_state.gate_status ≠ GATE_OPEN) ∧
    ((loop_body C s l i x).1.reader_state.gate_status = GATE_OPEN →
      (loop_body C s l i x).1.num_pulses = 0 ∧
      (loop_body C s l i x).1.n_samples = 1 ∧
      (loop_body C s l i x).2.1.out = l.out ++ [x - (seek_step C s x).dc_est] ∧
      (loop_body C s l i x).2.1.written = l.written + 1) ∧
    ((loop_body C s l i x).1.reader_state.gate_status ≠ GATE_OPEN →
      (loop_body C s l i x).1 = seek_step C s x ∧
      (loop_body C s l i x).2.1.out = l.out ∧
      (loop_body C s l i x).2.1.written = l.written) ∧
    (loop_body C s l i x).2.1.number_samples_consumed = l.number_samples_consumed ∧
    (loop_body C s l i x).2.2 = false := by
  have hT1 : (seek_step C s x).n_samples_T1 = s.n_samples_T1 := (seek_step_frame C s x).1
  have hgs : (seek_step C s x).reader_state.gate_status ≠ GATE_OPEN := by
    rw [seek_step_reader_state]; exact h
  by_cases hd : command_detected C (seek_step C s x)
  · rw [loop_body_seek_detected C s l i x h hd]
    have hd' := hd
    unfold command_detected at hd'
    rw [hT1] at hd'
    refine ⟨?_, ?_, ?_, ?_, ?_, rfl, rfl⟩
    · exact ⟨fun _ => ⟨hd'.2.1, hd'.1, hd'.2.2⟩, fun _ => rfl⟩
    · intro he; have := hd'.2.2; omega
    · intro he; have := hd'.1; omega
    · intro _; exact ⟨rfl, rfl, rfl, rfl⟩
    · intro hne; exact absurd rfl hne
  · rw [loop_body_seek_quiet C s l i x h hd]
    have hd' := hd
    unfold command_detected at hd'
    rw [hT1] at hd'
    refine ⟨?_, ?_, ?_, ?_, ?_, rfl, rfl⟩
    · constructor
      · intro ho; exact absurd ho hgs
      · rintro ⟨h1, h2, h3⟩; exact absurd ⟨h2, h1, h3⟩ hd'
    · intro _; exact hgs
    · intro _; exact hgs
    · intro ho; exact absurd ho hgs
    · intro _; exact ⟨rfl, rfl, rfl⟩

/-- C8, an instance: the block with a full preamble behind it (RISING, 96
samples elapsed, 6 pulses) opens on the sample `(1,0)` and writes it. -/
theorem command_detection_witness :
    (loop_body sample_consts (primed_block 250) (initial_locals [⟨1, 0⟩]) 0
        ⟨1, 0⟩).1.reader_state.gate_status = GATE_OPEN ∧
    (loop_body sample_consts (primed_block 250) (initial_locals [⟨1, 0⟩]) 0 ⟨1, 0⟩).1.num_pulses
      = 0 ∧
    (loop_body sample_consts (primed_block 250) (initial_locals [⟨1, 0⟩]) 0 ⟨1, 0⟩).1.n_samples
      = 1 ∧
    (loop_body sample_consts (primed_block 250) (initial_locals [⟨1, 0⟩]) 0 ⟨1, 0⟩).2.1.out =
      (initial_locals [⟨1, 0⟩]).out
        ++ [⟨1, 0⟩ - (seek_step sample_consts (primed_block 250) ⟨1, 0⟩).dc_est] ∧
    (loop_body sample_consts (primed_block 250) (initial_locals [⟨1, 0⟩]) 0 ⟨1, 0⟩).2.1.written =
      (initial_locals [⟨1, 0⟩]).written + 1 :=
  ⟨((command_detection sample_consts (primed_block 250) (initial_locals [⟨1, 0⟩]) 0 ⟨1, 0⟩
      (by decide)).1).2 (by decide!),
   (command_detection sample_consts (primed_block 250) (initial_locals [⟨1, 0⟩]) 0 ⟨1, 0⟩
      (by decide)).2.2.2.1
    (((command_detection sample_consts (primed_block 250) (initial_locals [⟨1, 0⟩]) 0 ⟨1, 0⟩
      (by decide)).1).2 (by decide!))⟩

/-! ## C9: the gate opens on detection, armed or not -/

/-- C9, the claim as written fails. A block armed for an RN16 reply is given
`first_batch`: it detects the command, forwards its window of 250 samples and
closes the gate on the last sample of the batch. No arming request follows. The
next call starts with the gate CLOSED, and on `second_batch` (six pulses and 97
samples of carrier) the command is detected again: one output sample is written
and the gate is OPEN at the end of the call. -/
theorem gate_opens_unarmed_counterexample :
    armed_block.reader_state.gate_status = GATE_SEEK_RN16 ∧
    (general_work sample_consts 0 armed_block first_batch).out.length = 250 ∧
    (general_work sample_consts 0 armed_block first_batch).consumed
      = (first_batch.length : Int) ∧
    (general_work sample_consts 0 armed_block first_batch).state.reader_state.gate_status
      = GATE_CLOSED ∧
    (general_work sample_consts 1
      (general_work sample_consts 0 armed_block first_batch).state second_batch).out.length = 1 ∧
    (general_work sample_consts 1
      (general_work sample_consts 0 armed_block first_batch).state
      second_batch).state.reader_state.gate_status = GATE_OPEN := by
  decide!

/-- C9 (as amended). The gate opens on command detection whether or not an
arming request has been observed. In a call that starts with the gate CLOSED
(status RUNNING, no termination limit exceeded): if no sample of the batch meets
the command-detection condition, no output sample is written, the gate stays
CLOSED and the whole batch is consumed; if some sample meets it, the gate is
opened on the first such sample, which is forwarded as the first output
sample. -/
theorem gate_opens_on_detection (C : Consts) (now : Int) (s : gate_impl)
    (input : List gr_complex)
    (hrun : s.reader_state.status = RUNNING) (hlim : ¬ limits_exceeded C s)
    (hclosed : s.reader_state.gate_status = GATE_CLOSED) :
    (never_detected C s input →
      (general_work C now s input).out = [] ∧
      (general_work C now s input).returned = 0 ∧
      (general_work C now s input).consumed = (input.length : Int) ∧
      (general_work C now s input).state = seek_run C s input ∧
      (general_work C now s input).state.reader_state.gate_status = GATE_CLOSED) ∧
    (¬ never_detected C s input →
      ∃ (pre : List gr_complex) (x : gr_complex) (ys : List gr_complex),
        input = pre ++ x :: ys ∧ never_detected C s pre ∧
        command_detected C (seek_step C (seek_run C s pre) x) ∧
        (general_work C now s input).out.head? =
          some (x - (seek_step C (seek_run C s pre) x).dc_est) ∧
        (general_work C now s (pre ++ [x])).state.reader_state.gate_status = GATE_OPEN) := by
  have hne : s.reader_state.gate_status ≠ GATE_OPEN := by rw [hclosed]; decide
  have hgc : gate_control C s = s := gate_control_idle C s (Or.inr hclosed)
  constructor
  · intro hq
    rw [general_work_running C now s input hrun hlim, hgc,
      sample_loop_seek_quiet C input s (initial_locals input) 0 hne hq]
    refine ⟨rfl, rfl, rfl, rfl, ?_⟩
    show (seek_run C s input).reader_state.gate_status = GATE_CLOSED
    rw [seek_run_reader_state]; exact hclosed
  · intro hq
    obtain ⟨pre, x, ys, e, hpre, hdet⟩ := first_detection C input s hq
    refine ⟨pre, x, ys, e, hpre, hdet, ?_, ?_⟩
    · have hb' : (seek_run C s pre).reader_state.gate_status ≠ GATE_OPEN := by
        rw [seek_run_reader_state]; exact hne
      rw [general_work_running C now s input hrun hlim, hgc, e, sample_loop_append,
        sample_loop_seek_quiet C pre s _ 0 hne hpre]
      simp only [Bool.false_eq_true, if_false]
      rw [sample_loop]
      simp only [loop_body_seek_detected C _ _ _ x hb' hdet, Bool.false_eq_true, if_false]
      obtain ⟨o, ho, _⟩ := sample_loop_written C ys (opened C (seek_run C s pre) x)
        { initial_locals (pre ++ x :: ys) with
          out := (initial_locals (pre ++ x :: ys)).out ++
            [x - (seek_step C (seek_run C s pre) x).dc_est],
          written := (initial_locals (pre ++ x :: ys)).written + 1 }
        (0 + (pre.length : Int) + 1)
      rw [ho]
      simp [initial_locals]
    · have hb' : (seek_run C s pre).reader_state.gate_status ≠ GATE_OPEN := by
        rw [seek_run_reader_state]; exact hne
      rw [general_work_running C now s (pre ++ [x]) hrun hlim, hgc, sample_loop_append,
        sample_loop_seek_quiet C pre s _ 0 hne hpre]
      simp only [Bool.false_eq_true, if_false]
      rw [sample_loop]
      simp only [loop_body_seek_detected C _ _ _ x hb' hdet, Bool.false_eq_true, if_false]
      rfl

/-- C9, instances of the amended claim: a closed block over a quiet batch writes
nothing and stays closed; the closed block with a full preamble behind it
forwards the first sample of its batch. -/
theorem gate_opens_on_detection_witness :
    ((general_work sample_consts 0 (sample_block (sample_reader_state RUNNING GATE_CLOSED 250 0))
        four_samples).out = [] ∧
      (general_work sample_consts 0 (sample_block (sample_reader_state RUNNING GATE_CLOSED 250 0))
        four_samples).state.reader_state.gate_status = GATE_CLOSED) ∧
    (∃ (pre : List gr_complex) (x : gr_complex) (ys : List gr_complex),
      four_samples = pre ++ x :: ys ∧ never_detected sample_consts (primed_block 250) pre ∧
      command_detected sample_consts
        (seek_step sample_consts (seek_run sample_consts (primed_block 250) pre) x) ∧
      (general_work sample_consts 0 (primed_block 250) four_samples).out.head? =
        some (x - (seek_step sample_consts
          (seek_run sample_consts (primed_block 250) pre) x).dc_est) ∧
      (general_work sample_consts 0 (primed_block 250)
        (pre ++ [x])).state.reader_state.gate_status = GATE_OPEN) :=
  ⟨⟨((gate_opens_on_detection sample_consts 0
        (sample_block (sample_reader_state RUNNING GATE_CLOSED 250 0)) four_samples
        (by decide) (by decide!) (by decide)).1 (by decide!)).1,
    ((gate_opens_on_detection sample_consts 0
        (sample_block (sample_reader_state RUNNING GATE_CLOSED 250 0)) four_samples
        (by decide) (by decide!) (by decide)).1 (by decide!)).2.2.2.2⟩,
   (gate_opens_on_detection sample_consts 0 (primed_block 250) four_samples
      (by decide) (by decide!) (by decide)).2 (by decide!)⟩

/-! ## C10: the DC estimator is frozen while the gate is open -/

/-- C10. A sample processed while the gate is OPEN leaves `dc_est`,
`dc_samples` and `dc_index` unchanged. A sample `x` processed while the gate is
not OPEN updates them by one ring step with the raw sample:
`dc_est += (x - dc_samples[dc_index]) / dc_length` (the complex division by
`(dc_length, 0)` is the division of both components), `dc_samples[dc_index] = x`
(the other entries and the length are kept) and
`dc_index = (dc_index + 1) mod dc_length`. A whole call that starts with the
gate OPEN leaves the three unchanged. -/
theorem dc_frozen_while_open (C : Consts) (s : gate_impl) (l : work_locals) (i : Int)
    (x : gr_complex) :
    (s.reader_state.gate_status = GATE_OPEN →
      (loop_body C s l i x).1.dc_est = s.dc_est ∧
      (loop_body C s l i x).1.dc_samples = s.dc_samples ∧
      (loop_body C s l i x).1.dc_index = s.dc_index) ∧
    (s.reader_state.gate_status ≠ GATE_OPEN →
      (loop_body C s l i x).1.dc_est =
        s.dc_est + (x - s.dc_samples.getD s.dc_index.toNat ⟨0, 0⟩) / ⟨(s.dc_length : ℚ), 0⟩ ∧
      (loop_body C s l i x).1.dc_est.re =
        s.dc_est.re + (x.re - (s.dc_samples.getD s.dc_index.toNat ⟨0, 0⟩).re) / (s.dc_length : ℚ) ∧
      (loop_body C s l i x).1.dc_est.im =
        s.dc_est.im + (x.im - (s.dc_samples.getD s.dc_index.toNat ⟨0, 0⟩).im) / (s.dc_length : ℚ) ∧
      (loop_body C s l i x).1.dc_samples = s.dc_samples.set s.dc_index.toNat x ∧
      (loop_body C s l i x).1.dc_samples.length = s.dc_samples.length ∧
      (s.dc_index.toNat < s.dc_samples.length →
        (loop_body C s l i x).1.dc_samples[s.dc_index.toNat]? = some x) ∧
      (∀ j : Nat, j ≠ s.dc_index.toNat →
        (loop_body C s l i x).1.dc_samples[j]? = s.dc_samples[j]?) ∧
      (loop_body C s l i x).1.dc_index = Int.tmod (s.dc_index + 1) s.dc_length ∧
      (0 ≤ s.dc_index → 0 ≤ s.dc_length →
        (loop_body C s l i x).1.dc_index = (s.dc_index + 1) % s.dc_length)) ∧
    (∀ (now : Int) (input : List gr_complex), s.reader_state.gate_status = GATE_OPEN →
      (general_work C now s input).state.dc_est = s.dc_est ∧
      (general_work C now s input).state.dc_samples = s.dc_samples ∧
      (general_work C now s input).state.dc_index = s.dc_index) := by
  refine ⟨fun h => ?_, fun h => ?_, fun now input h => ?_⟩
  · by_cases hb : s.n_samples + 1 < s.reader_state.n_samples_to_ungate
    · rw [loop_body_open_continue C s l i x h hb]; exact ⟨rfl, rfl, rfl⟩
    · rw [loop_body_open_break C s l i x h (by omega)]; exact ⟨rfl, rfl, rfl⟩
  · obtain ⟨d1, d2, d3⟩ := seek_step_dc C s x
    have hst : (loop_body C s l i x).1.dc_est = (seek_step C s x).dc_est ∧
        (loop_body C s l i x).1.dc_samples = (seek_step C s x).dc_samples ∧
        (loop_body C s l i x).1.dc_index = (seek_step C s x).dc_index := by
      by_cases hd : command_detected C (seek_step C s x)
      · rw [loop_body_seek_detected C s l i x h hd]; exact ⟨rfl, rfl, rfl⟩
      · rw [loop_body_seek_quiet C s l i x h hd]; exact ⟨rfl, rfl, rfl⟩
    obtain ⟨e1, e2, e3⟩ := hst
    rw [e1, e2, e3, d1, d2, d3]
    have hdiv := gr_complex.div_real (x - s.dc_samples.getD s.dc_index.toNat ⟨0, 0⟩)
      (s.dc_length : ℚ)
    refine ⟨rfl, ?_, ?_, rfl, by simp, ?_, ?_, rfl, ?_⟩
    · rw [hdiv]; rfl
    · rw [hdiv]; rfl
    · intro hlt
      simp [List.getElem?_set, hlt]
    · intro j hj
      rw [List.getElem?_set_ne (Ne.symm hj)]
    · intro h0 hl
      exact Int.tmod_eq_emod (by omega) hl
  · have ht : (termination_check C now s).1.dc_est = s.dc_est ∧
        (termination_check C now s).1.dc_samples = s.dc_samples ∧
        (termination_check C now s).1.dc_index = s.dc_index ∧
        (termination_check C now s).1.reader_state.gate_status = GATE_OPEN := by
      unfold termination_check; split_ifs <;> exact ⟨rfl, rfl, rfl, h⟩
    obtain ⟨t1, t2, t3, t4⟩ := ht
    have hg : gate_control C (termination_check C now s).1 = (termination_check C now s).1 :=
      gate_control_idle C _ (Or.inl t4)
    obtain ⟨q1, q2, q3⟩ := sample_loop_open_dc C input (termination_check C now s).1
      (initial_locals input) 0 t4
    simp only [general_work, hg]
    split_ifs
    · exact ⟨q1.trans t1, q2.trans t2, q3.trans t3⟩
    · exact ⟨t1, t2, t3⟩

/-- C10, instances: the open block keeps its DC estimate over four samples; the
closed block folds the sample `(1,0)` into its DC window of 48. -/
theorem dc_frozen_while_open_witness :
    (general_work sample_consts 0 open_block four_samples).state.dc_est = open_block.dc_est ∧
    (loop_body sample_consts (primed_block 250) (initial_locals []) 0 ⟨1, 0⟩).1.dc_est.re =
      (primed_block 250).dc_est.re +
        ((1 : ℚ) - ((primed_block 250).dc_samples.getD (primed_block 250).dc_index.toNat
          ⟨0, 0⟩).re) / ((primed_block 250).dc_length : ℚ) ∧
    (loop_body sample_consts (primed_block 250) (initial_locals []) 0 ⟨1, 0⟩).1.dc_index =
      ((primed_block 250).dc_index + 1) % (primed_block 250).dc_length :=
  ⟨((dc_frozen_while_open sample_consts open_block (initial_locals []) 0 ⟨1, 0⟩).2.2
      0 four_samples (by decide)).1,
   ((dc_frozen_while_open sample_consts (primed_block 250) (initial_locals []) 0 ⟨1, 0⟩).2.1
      (by decide)).2.1,
   ((dc_frozen_while_open sample_consts (primed_block 250) (initial_locals []) 0 ⟨1, 0⟩).2.1
      (by decide)).2.2.2.2.2.2.2.2 (by decide) (by decide)⟩

/-! ## C11: DC correction of the output -/

/-- C11, the claim as written fails for the samples forwarded after a trigger in
the same call. The block with a full preamble behind it (DC estimate 0 at the
start of the call) opens on `(1,0)`, which is folded into the DC window first:
the estimate becomes 1/48, and both the trigger and the sample `(2,0)` forwarded
after it with the gate OPEN are written minus 1/48, not minus the estimate held
at the start of the call. -/
theorem dc_correction_counterexample :
    (primed_block 250).dc_est = ⟨0, 0⟩ ∧
    (general_work sample_consts 0 (primed_block 250) [⟨1, 0⟩, ⟨2, 0⟩]).out =
      [⟨47 / 48, 0⟩, ⟨95 / 48, 0⟩] ∧
    (general_work sample_consts 0 (primed_block 250) [⟨1, 0⟩, ⟨2, 0⟩]).out[1]? ≠
      some ((⟨2, 0⟩ : gr_complex) - (primed_block 250).dc_est) ∧
    (general_work sample_consts 0 (primed_block 250) [⟨1, 0⟩, ⟨2, 0⟩]).state.dc_est =
      ⟨1 / 48, 0⟩ ∧
    (general_work sample_consts 0 (primed_block 250)
      [⟨1, 0⟩, ⟨2, 0⟩]).state.reader_state.gate_status = GATE_OPEN := by
  decide!

/-- C11 (as amended). Every output sample is the input sample that produced it
minus the DC estimate current at the write, and the squared magnitude of the
written value goes to the squared-magnitude buffer. Per sample: with the gate
OPEN the sample is written minus the estimate as it stands and its squared
magnitude is appended; the trigger sample is written minus the estimate after
the sample itself has been folded into the DC window, and the buffer is
restarted with its squared magnitude alone; a seeking sample that does not
trigger writes nothing. Per call: a call that starts with the gate OPEN writes a
prefix of its input minus the estimate held at the start of the call; a call
that starts with the gate not OPEN writes nothing, or writes the trigger sample
and the samples forwarded after it, all minus the estimate of the trigger
sample, which is also the estimate at the end of the call. -/
theorem dc_correction (C : Consts) (now : Int) (s : gate_impl) (input : List gr_complex) :
    (∀ (t : gate_impl) (l : work_locals) (i : Int) (x : gr_complex),
      (t.reader_state.gate_status = GATE_OPEN →
        (loop_body C t l i x).2.1.out = l.out ++ [x - t.dc_est] ∧
        (loop_body C t l i x).1.reader_state.magn_squared_samples =
          t.reader_state.magn_squared_samples ++ [gr_complex.norm (x - t.dc_est)]) ∧
      (t.reader_state.gate_status ≠ GATE_OPEN → command_detected C (seek_step C t x) →
        (loop_body C t l i x).2.1.out = l.out ++ [x - (seek_step C t x).dc_est] ∧
        (seek_step C t x).dc_est =
          t.dc_est + (x - t.dc_samples.getD t.dc_index.toNat ⟨0, 0⟩) / ⟨(t.dc_length : ℚ), 0⟩ ∧
        (loop_body C t l i x).1.reader_state.magn_squared_samples =
          [gr_complex.norm (x - (seek_step C t x).dc_est)]) ∧
      (t.reader_state.gate_status ≠ GATE_OPEN → ¬ command_detected C (seek_step C t x) →
        (loop_body C t l i x).2.1.out = l.out ∧
        (loop_body C t l i x).1.reader_state.magn_squared_samples =
          t.reader_state.magn_squared_samples)) ∧
    (s.reader_state.gate_status = GATE_OPEN →
      ∃ m : Nat, m ≤ input.length ∧
        (general_work C now s input).out = (input.take m).map (fun x => x - s.dc_est) ∧
        (general_work C now s input).state.reader_state.magn_squared_samples =
          s.reader_state.magn_squared_samples ++
            (input.take m).map (fun x => gr_complex.norm (x - s.dc_est)) ∧
        (general_work C now s input).state.dc_est = s.dc_est) ∧
    (s.reader_state.gate_status ≠ GATE_OPEN →
      ((general_work C now s input).out = [] ∧
        (general_work C now s input).state.reader_state.magn_squared_samples =
          s.reader_state.magn_squared_samples) ∨
      ∃ (pre : List gr_complex) (x : gr_complex) (ys : List gr_complex) (m : Nat),
        input = pre ++ x :: ys ∧ never_detected C (gate_control C s) pre ∧
        command_detected C (seek_step C (seek_run C (gate_control C s) pre) x) ∧
        m ≤ ys.length ∧
        (general_work C now s input).out =
          ((x :: ys).take (m + 1)).map
            (fun y => y - (seek_step C (seek_run C (gate_control C s) pre) x).dc_est) ∧
        (general_work C now s input).state.reader_state.magn_squared_samples =
          ((x :: ys).take (m + 1)).map
            (fun y => gr_complex.norm
              (y - (seek_step C (seek_run C (gate_control C s) pre) x).dc_est)) ∧
        (general_work C now s input).state.dc_est =
          (seek_step C (seek_run C (gate_control C s) pre) x).dc_est) := by
  refine ⟨fun t l i x => ⟨fun h => ?_, fun h hd => ?_, fun h hd => ?_⟩, fun h => ?_, fun h => ?_⟩
  · by_cases hb : t.n_samples + 1 < t.reader_state.n_samples_to_ungate
    · rw [loop_body_open_continue C t l i x h hb]; exact ⟨rfl, rfl⟩
    · rw [loop_body_open_break C t l i x h (by omega)]; exact ⟨rfl, rfl⟩
  · rw [loop_body_seek_detected C t l i x h hd]
    exact ⟨rfl, (seek_step_dc C t x).1, rfl⟩
  · rw [loop_body_seek_quiet C t l i x h hd]
    exact ⟨rfl, by rw [seek_step_reader_state]⟩
  · rcases general_work_cases C now s input with ⟨_, e⟩ | ⟨_, _, e⟩
    · rw [e]
      refine ⟨0, by simp, by simp, ?_, ?_⟩
      · simp [(gate_control_magn C _).1, (termination_check_fields C now s).1]
      · show (gate_control C (termination_check C now s).1).dc_est = s.dc_est
        rw [(gate_control_magn C _).2, (termination_check_fields C now s).2.2.2]
    · rw [e, gate_control_idle C s (Or.inl h)]
      obtain ⟨m, hm, ho, _, hmag, hdc, _, _⟩ :=
        sample_loop_open_trace C input s (initial_locals input) 0 h
      exact ⟨m, hm, by simpa [initial_locals] using ho, hmag, hdc⟩
  · rcases general_work_cases C now s input with ⟨_, e⟩ | ⟨_, _, e⟩
    · left
      rw [e]
      exact ⟨rfl, by
        simp [(gate_control_magn C _).1, (termination_check_fields C now s).1]⟩
    · have ha : (gate_control C s).reader_state.gate_status ≠ GATE_OPEN := by
        rw [gate_control_not_open C s h]; decide
      rw [e]
      rcases sample_loop_seek_trace C input (gate_control C s) (initial_locals input) 0 ha with
        ⟨_, hq⟩ | ⟨pre, x, ys, m, e1, hpre, hdet, hm, ho, _, hmag, hdc, _, _⟩
      · left
        rw [hq]
        refine ⟨rfl, ?_⟩
        show (seek_run C (gate_control C s) input).reader_state.magn_squared_samples = _
        rw [seek_run_reader_state, (gate_control_magn C s).1]
      · right
        exact ⟨pre, x, ys, m, e1, hpre, hdet, hm, by simpa [initial_locals] using ho, hmag, hdc⟩

/-- C11, instances of the amended claim: the open block writes a prefix of its
input minus the estimate it holds; the block with a full preamble behind it
writes nothing or else the samples from the trigger on, minus the estimate of
the trigger. -/
theorem dc_correction_witness :
    (∃ m : Nat, m ≤ four_samples.length ∧
      (general_work sample_consts 0 open_block four_samples).out =
        (four_samples.take m).map (fun x => x - open_block.dc_est) ∧
      (general_work sample_consts 0 open_block four_samples).state.reader_state.magn_squared_samples =
        open_block.reader_state.magn_squared_samples ++
          (four_samples.take m).map (fun x => gr_complex.norm (x - open_block.dc_est)) ∧
      (general_work sample_consts 0 open_block four_samples).state.dc_est = open_block.dc_est) ∧
    (loop_body sample_consts (primed_block 250) (initial_locals []) 0 ⟨1, 0⟩).2.1.out =
      (initial_locals []).out ++
        [⟨1, 0⟩ - (seek_step sample_consts (primed_block 250) ⟨1, 0⟩).dc_est] :=
  ⟨(dc_correction sample_consts 0 open_block four_samples).2.1 (by decide),
   (((dc_correction sample_consts 0 open_block four_samples).1 (primed_block 250)
      (initial_locals []) 0 ⟨1, 0⟩).2.1 (by decide) (by decide!)).1⟩

/-! ## C12: the running-mean invariant -/

/-- C12. Over exact arithmetic, for the block the constructor returns with
`win_length ≥ 1` and `dc_length ≥ 1`: the constructed state has `avg_ampl` equal
to the arithmetic mean of `win_samples` and `dc_est` equal to the arithmetic
mean of `dc_samples`, and so has the state after every sequence of calls of
`general_work` on any inputs (whatever the other blocks do to the shared reader
state between the calls), and every state reached sample by sample on the way.
The invariant is inductive: a call from any state with well-formed rings that
satisfies it leads to a state that satisfies it. -/
theorem running_mean_invariant (C : Consts) (rs0 : READER_STATE) (sample_rate : Int)
    (b : gate_impl) (hb : gate_impl.gate_impl C rs0 sample_rate = some b)
    (hw : 1 ≤ b.win_length) (hd : 1 ≤ b.dc_length) :
    (b.avg_ampl = mean b.win_samples ∧ b.dc_est = gr_complex.mean b.dc_samples) ∧
    (∀ calls : List (Int × (READER_STATE → READER_STATE) × List gr_complex),
      (run_calls C b calls).1.avg_ampl = mean (run_calls C b calls).1.win_samples ∧
      (run_calls C b calls).1.dc_est = gr_complex.mean (run_calls C b calls).1.dc_samples) ∧
    (∀ (xs : List gr_complex) (t : gate_impl), processes C b xs t →
      t.avg_ampl = mean t.win_samples ∧ t.dc_est = gr_complex.mean t.dc_samples) ∧
    (∀ (s : gate_impl) (now : Int) (input : List gr_complex), ring_ok s → means_ok s →
      (general_work C now s input).state.avg_ampl =
        mean (general_work C now s input).state.win_samples ∧
      (general_work C now s input).state.dc_est =
        gr_complex.mean (general_work C now s input).state.dc_samples) := by
  obtain ⟨hr, hm⟩ := constructed_invariants C rs0 sample_rate b hb hw hd
  refine ⟨hm, fun calls => ?_, fun xs t hp => ?_, fun s now input hrs hms => ?_⟩
  · obtain ⟨xs, hp⟩ := run_calls_processes C calls b
    exact (processes_invariants C b hr _ _ hp).2.1 hm
  · exact (processes_invariants C b hr _ _ hp).2.1 hm
  · exact (general_work_invariants C now s input hrs).2 hms

/-- C12, an instance: the block built at 400 kHz, armed and given `first_batch`
and then, with no change by the other blocks, `second_batch`, has both estimators
equal to the means of their buffers. -/
theorem running_mean_invariant_witness :
    (run_calls sample_consts armed_block
        [(0, id, first_batch), (1, id, second_batch)]).1.avg_ampl =
      mean (run_calls sample_consts armed_block
        [(0, id, first_batch), (1, id, second_batch)]).1.win_samples ∧
    (run_calls sample_consts armed_block
        [(0, id, first_batch), (1, id, second_batch)]).1.dc_est =
      gr_complex.mean (run_calls sample_consts armed_block
        [(0, id, first_batch), (1, id, second_batch)]).1.dc_samples :=
  (running_mean_invariant sample_consts (sample_reader_state RUNNING GATE_SEEK_RN16 0 0) 400000
    armed_block (sample_block_constructed _) (by decide) (by decide)).2.1
    [(0, id, first_batch), (1, id, second_batch)]

/-! ## C13: termination happens once -/

/-- C13. In a call of `general_work` the termination side effects (status set
to TERMINATED, end time stamped with the current time, notice printed) occur
exactly when a limit is exceeded (`n_queries_sent > MAX_NUM_QUERIES` or
`tag_reads.size() > NUMBER_UNIQUE_TAGS`) and the status at entry is not
TERMINATED; otherwise the call leaves the status and the end time as they were,
in particular when the status at entry is TERMINATED. Hence over every sequence
of calls in which the other blocks leave the status alone, at most one notice is
printed, and none once the status is TERMINATED. -/
theorem termination_once (C : Consts) (now : Int) (s : gate_impl) (input : List gr_complex) :
    ((general_work C now s input).notice = true ↔
      limits_exceeded C s ∧ s.reader_state.status ≠ TERMINATED) ∧
    ((general_work C now s input).notice = true →
      (general_work C now s input).state.reader_state.status = TERMINATED ∧
      (general_work C now s input).state.reader_state.reader_stats.end_tv_sec = now) ∧
    ((general_work C now s input).notice = false →
      (general_work C now s input).state.reader_state.status = s.reader_state.status ∧
      (general_work C now s input).state.reader_state.reader_stats.end_tv_sec =
        s.reader_state.reader_stats.end_tv_sec) ∧
    (s.reader_state.status = TERMINATED →
      (general_work C now s input).notice = false ∧
      (general_work C now s input).state.reader_state.status = TERMINATED ∧
      (general_work C now s input).state.reader_state.reader_stats.end_tv_sec =
        s.reader_state.reader_stats.end_tv_sec) ∧
    (∀ calls : List (Int × (READER_STATE → READER_STATE) × List gr_complex),
      (∀ c ∈ calls, ∀ rs : READER_STATE, (c.2.1 rs).status = rs.status) →
      (run_calls C s calls).2 ≤ 1 ∧
      (s.reader_state.status = TERMINATED →
        (run_calls C s calls).2 = 0 ∧
        (run_calls C s calls).1.reader_state.status = TERMINATED)) := by
  obtain ⟨g1, g2, g3⟩ := general_work_status C now s input
  rw [g1, g2, g3]
  by_cases hc : limits_exceeded C s ∧ s.reader_state.status ≠ TERMINATED
  · have ht : termination_check C now s =
        ({ s with reader_state :=
            { s.reader_state with
              status := TERMINATED,
              reader_stats := { s.reader_state.reader_stats with end_tv_sec := now } } },
          true) := by
      unfold termination_check; rw [if_pos hc]
    rw [ht]
    refine ⟨by simp [hc], fun _ => ⟨rfl, rfl⟩, fun h => by simp at h, fun h => absurd h hc.2, ?_⟩
    intro calls hext
    exact ⟨run_calls_notices C calls s hext, fun h => absurd h hc.2⟩
  · have ht : termination_check C now s = (s, false) := by
      unfold termination_check; rw [if_neg hc]
    rw [ht]
    refine ⟨by simp [hc], fun h => by simp at h, fun _ => ⟨rfl, rfl⟩,
      fun h => ⟨rfl, h, rfl⟩, ?_⟩
    intro calls hext
    exact ⟨run_calls_notices C calls s hext, fun h => run_calls_terminated C calls s hext h⟩

/-- C13, an instance: the block over its limit prints the notice in the first
of three calls and in no later one. -/
theorem termination_once_witness :
    (general_work sample_consts 7 over_limit_open_block four_samples).notice = true ∧
    (general_work sample_consts 7 over_limit_open_block
      four_samples).state.reader_state.reader_stats.end_tv_sec = 7 ∧
    (run_calls sample_consts over_limit_open_block
      [(7, id, four_samples), (8, id, four_samples), (9, id, four_samples)]).2 ≤ 1 :=
  ⟨(termination_once sample_consts 7 over_limit_open_block four_samples).1.2
      ⟨by decide!, by decide⟩,
   ((termination_once sample_consts 7 over_limit_open_block four_samples).2.1
      ((termination_once sample_consts 7 over_limit_open_block four_samples).1.2
        ⟨by decide!, by decide⟩)).2,
   ((termination_once sample_consts 7 over_limit_open_block four_samples).2.2.2.2
      [(7, id, four_samples), (8, id, four_samples), (9, id, four_samples)]
      (by
        intro c hc rs
        simp only [List.mem_cons, List.mem_singleton, List.mem_nil_iff, or_false] at hc
        rcases hc with rfl | rfl | rfl <;> rfl)).1⟩

/-! ## C14: termination stops the sample loop of the same call -/

/-- C14, the claim as written fails: `over_limit_open_block` and `open_block`
differ only in the number of queries sent (1001 against 0, with
`MAX_NUM_QUERIES = 1000`). On the same four samples, the call in which the
termination check flips the status writes nothing, consumes all four samples
and leaves the averager untouched and the gate OPEN, whereas the call without
the termination condition forwards three samples, consumes three, absorbs them
into the averager and closes the gate. -/
theorem termination_stops_loop_counterexample :
    over_limit_open_block.reader_state.status = RUNNING ∧
    (general_work sample_consts 0 over_limit_open_block four_samples).state.reader_state.status
      = TERMINATED ∧
    (general_work sample_consts 0 over_limit_open_block four_samples).out = [] ∧
    (general_work sample_consts 0 open_block four_samples).out =
      [⟨1, 0⟩, ⟨2, 0⟩, ⟨3, 0⟩] ∧
    (general_work sample_consts 0 over_limit_open_block four_samples).consumed = 4 ∧
    (general_work sample_consts 0 open_block four_samples).consumed = 3 ∧
    (general_work sample_consts 0 over_limit_open_block four_samples).state.avg_ampl = 0 ∧
    (general_work sample_consts 0 open_block four_samples).state.avg_ampl = 3 / 50 ∧
    (general_work sample_consts 0 over_limit_open_block
      four_samples).state.reader_state.gate_status = GATE_OPEN ∧
    (general_work sample_consts 0 open_block four_samples).state.reader_state.gate_status
      = GATE_CLOSED := by
  decide!

/-- C14 (as amended). Termination stops the sample loop of the same call. In a
call in which the termination check flips the status to TERMINATED (a limit is
exceeded and the status at entry is not TERMINATED), the guard on the status
skips the sample loop: the notice is printed, no sample is written, the whole
batch is reported consumed, and the state after the call is the state at entry
with the status and end time set by the check and the arming step applied;
the averager, the DC estimator, the edge state, the pulse counter and the
squared-magnitude buffer are as at entry. -/
theorem termination_stops_loop (C : Consts) (now : Int) (s : gate_impl)
    (input : List gr_complex)
    (hlim : limits_exceeded C s) (hst : s.reader_state.status ≠ TERMINATED) :
    (general_work C now s input).notice = true ∧
    (general_work C now s input).out = [] ∧
    (general_work C now s input).returned = 0 ∧
    (general_work C now s input).consumed = (input.length : Int) ∧
    (general_work C now s input).state =
      gate_control C
        { s with reader_state :=
            { s.reader_state with
              status := TERMINATED,
              reader_stats := { s.reader_state.reader_stats with end_tv_sec := now } } } ∧
    (general_work C now s input).state.reader_state.status = TERMINATED ∧
    (general_work C now s input).state.avg_ampl = s.avg_ampl ∧
    (general_work C now s input).state.win_samples = s.win_samples ∧
    (general_work C now s input).state.win_index = s.win_index ∧
    (general_work C now s input).state.dc_est = s.dc_est ∧
    (general_work C now s input).state.dc_samples = s.dc_samples ∧
    (general_work C now s input).state.dc_index = s.dc_index ∧
    (general_work C now s input).state.signal_state = s.signal_state ∧
    (general_work C now s input).state.num_pulses = s.num_pulses ∧
    (general_work C now s input).state.reader_state.magn_squared_samples =
      s.reader_state.magn_squared_samples := by
  have ht : termination_check C now s =
      ({ s with reader_state :=
          { s.reader_state with
            status := TERMINATED,
            reader_stats := { s.reader_state.reader_stats with end_tv_sec := now } } },
        true) := by
    unfold termination_check; rw [if_pos ⟨hlim, hst⟩]
  have hs : (gate_control C (termination_check C now s).1).reader_state.status ≠ RUNNING := by
    rw [gate_control_status, ht]
    intro h
    exact STATUS.noConfusion h
  have e : general_work C now s input =
      { state := gate_control C (termination_check C now s).1, out := [],
        consumed := (input.length : Int), returned := 0,
        notice := (termination_check C now s).2 } := by
    simp only [general_work, hs, if_false]
  rw [e, ht]
  refine ⟨rfl, rfl, rfl, rfl, rfl, ?_, ?_⟩
  · show (gate_control C _).reader_state.status = TERMINATED
    rw [gate_control_status]
  · show (gate_control C _).avg_ampl = _ ∧ _
    unfold gate_control
    split_ifs <;> exact ⟨rfl, rfl, rfl, rfl, rfl, rfl, rfl, rfl, rfl⟩

/-- C14, the amended claim at the block of the counterexample. -/
theorem termination_stops_loop_witness :
    (general_work sample_consts 0 over_limit_open_block four_samples).notice = true ∧
    (general_work sample_consts 0 over_limit_open_block four_samples).out = [] ∧
    (general_work sample_consts 0 over_limit_open_block four_samples).returned = 0 ∧
    (general_work sample_consts 0 over_limit_open_block four_samples).consumed =
      (four_samples.length : Int) :=
  ⟨(termination_stops_loop sample_consts 0 over_limit_open_block four_samples
      (by decide!) (by decide)).1,
   (termination_stops_loop sample_consts 0 over_limit_open_block four_samples
      (by decide!) (by decide)).2.1,
   (termination_stops_loop sample_consts 0 over_limit_open_block four_samples
      (by decide!) (by decide)).2.2.1,
   (termination_stops_loop sample_consts 0 over_limit_open_block four_samples
      (by decide!) (by decide)).2.2.2.1⟩

/-! ## C15: the output never exceeds the input -/

/-- C15. For every state and every batch of `N` samples, the returned (written)
count and the consumed count of a call satisfy `0 ≤ written ≤ consumed ≤ N`,
the written count is the number of samples in the output, and the output is the
image, in order and one output per input, of a contiguous run `seg` of the
consumed inputs (`take consumed input = pre ++ seg`) under subtraction of one DC
value. -/
theorem output_never_exceeds_input (C : Consts) (now : Int) (s : gate_impl)
    (input : List gr_complex) :
    0 ≤ (general_work C now s input).returned ∧
    (general_work C now s input).returned ≤ (general_work C now s input).consumed ∧
    (general_work C now s input).consumed ≤ (input.length : Int) ∧
    (general_work C now s input).returned = ((general_work C now s input).out.length : Int) ∧
    ∃ (pre seg : List gr_complex) (d : gr_complex),
      input.take (general_work C now s input).consumed.toNat = pre ++ seg ∧
      (general_work C now s input).out = seg.map (fun x => x - d) := by
  rcases general_work_cases C now s input with ⟨_, e⟩ | ⟨_, _, e⟩
  · rw [e]
    refine ⟨le_refl _, by simp, le_refl _, by simp, input, [], ⟨0, 0⟩, by simp, by simp⟩
  · rw [e]
    simp only
    by_cases ho : (gate_control C s).reader_state.gate_status = GATE_OPEN
    · obtain ⟨m, hm, hout, hw, _, _, hbt, hbf⟩ :=
        sample_loop_open_trace C input (gate_control C s) (initial_locals input) 0 ho
      have hc : (sample_loop C (gate_control C s) (initial_locals input) 0
          input).2.1.number_samples_consumed = (m : Int) := by
        cases hb : (sample_loop C (gate_control C s) (initial_locals input) 0 input).2.2
        · obtain ⟨h1, h2, _⟩ := hbf hb
          rw [h2, h1]; rfl
        · rw [(hbt hb).1]; simp
      rw [hc, hw, hout]
      refine ⟨by simp [initial_locals], by simp [initial_locals],
        by exact_mod_cast hm, by simp [initial_locals]; omega,
        [], input.take m, (gate_control C s).dc_est, by simp, by simp [initial_locals]⟩
    · rcases sample_loop_seek_trace C input (gate_control C s) (initial_locals input) 0 ho with
        ⟨_, hq⟩ | ⟨pre, x, ys, m, e1, _, _, hm, hout, hw, _, _, hbt, hbf⟩
      · rw [hq]
        refine ⟨le_refl _, by simp [initial_locals], le_refl _, by simp [initial_locals],
          input, [], ⟨0, 0⟩, by simp [initial_locals], by simp [initial_locals]⟩
      · have hlen : input.length = pre.length + 1 + ys.length := by
          rw [e1]; simp; omega
        have hc : (sample_loop C (gate_control C s) (initial_locals input) 0
            input).2.1.number_samples_consumed = ((pre.length + 1 + m : Nat) : Int) := by
          cases hb : (sample_loop C (gate_control C s) (initial_locals input) 0 input).2.2
          · obtain ⟨h1, h2, _⟩ := hbf hb
            rw [h2, h1]
            show (input.length : Int) = _
            rw [hlen]
          · rw [(hbt hb).1]; push_cast; ring
        rw [hc, hw, hout]
        refine ⟨by simp [initial_locals]; omega, by simp [initial_locals]; omega,
          by exact_mod_cast (by omega : pre.length + 1 + m ≤ input.length),
          by simp [initial_locals]; omega,
          pre, (x :: ys).take (m + 1),
          (seek_step C (seek_run C (gate_control C s) pre) x).dc_est, ?_,
          by simp [initial_locals]⟩
        rw [Int.toNat_ofNat, e1, List.take_append_eq_append_take]
        have h1 : List.take (pre.length + 1 + m) pre = pre :=
          List.take_of_length_le (by omega)
        have h2 : pre.length + 1 + m - pre.length = m + 1 := by omega
        rw [h1, h2]

/-! ## C16: pulse counting at a rising edge -/

/-- C16, the claim as written fails: the block `primed_block 250` (gate CLOSED,
edge state RISING, 96 samples elapsed, 6 pulses counted) takes the sample
`(1,0)`, whose magnitude 1 is above the threshold 3/400, so that neither edge
case applies; yet the sample leaves the pulse counter at 0, not 6, and the
elapsed counter at 1, not 97, because the command is detected on it. -/
theorem pulse_counting_counterexample :
    (primed_block 250).reader_state.gate_status = GATE_CLOSED ∧
    (primed_block 250).signal_state = POS_EDGE ∧
    (primed_block 250).num_pulses = 6 ∧
    (primed_block 250).n_samples = 96 ∧
    (track_amplitude sample_consts (primed_block 250) ⟨1, 0⟩).avg_ampl
      * sample_consts.THRESH_FRACTION = 3 / 400 ∧
    sample_consts.abs ⟨1, 0⟩ = 1 ∧
    (loop_body sample_consts (primed_block 250) (initial_locals [⟨1, 0⟩]) 0 ⟨1, 0⟩).1.num_pulses
      = 0 ∧
    (loop_body sample_consts (primed_block 250) (initial_locals [⟨1, 0⟩]) 0 ⟨1, 0⟩).1.n_samples
      = 1 ∧
    (loop_body sample_consts (primed_block 250) (initial_locals [⟨1, 0⟩]) 0 ⟨1, 0⟩).1.signal_state
      = POS_EDGE := by
  decide!

/-- C16 (as amended). For a sample `x` processed while the gate is not OPEN,
with the threshold `avg_ampl * THRESH_FRACTION` computed after the averager has
absorbed `x`, the state the sample leaves (`(loop_body C s l i x).1`) is as
follows, as long as the command is not detected on this sample. With edge state
FALLING and magnitude strictly above the threshold: the edge state becomes
RISING, the pulse counter becomes `old + 1` if the elapsed counter including
this sample is strictly greater than `n_samples_PW / 2` (integer division) and 0
otherwise, and the elapsed counter becomes 0. With edge state RISING and
magnitude strictly below the threshold: the edge state becomes FALLING, the
elapsed counter becomes 0 and the pulse counter is unchanged. In every other
case the edge state and the pulse counter are unchanged and the elapsed counter
is incremented by 1. The command is never detected at a falling edge, and at a
rising edge only if `n_samples_T1 < 0`; in the other cases it is detected
exactly when the edge state is RISING, the elapsed counter including this sample
is above `n_samples_T1` and the pulse counter is above `NUM_PULSES_COMMAND`.
When it is detected, the sample leaves the edge state as the edge detector set
it, the pulse counter at 0, the elapsed counter at 1 and the gate OPEN. -/
theorem pulse_counting (C : Consts) (s : gate_impl) (l : work_locals) (i : Int)
    (x : gr_complex) (hg : s.reader_state.gate_status ≠ GATE_OPEN) :
    ((track_amplitude C s x).avg_ampl =
        s.avg_ampl + (C.abs x - s.win_samples.getD s.win_index.toNat 0) / (s.win_length : ℚ) ∧
      (loop_body C s l i x).1.sample_thresh =
        (track_amplitude C s x).avg_ampl * C.THRESH_FRACTION) ∧
    (s.signal_state = NEG_EDGE →
      C.abs x > (track_amplitude C s x).avg_ampl * C.THRESH_FRACTION →
      (0 ≤ s.n_samples_T1 → ¬ command_detected C (seek_step C s x)) ∧
      (¬ command_detected C (seek_step C s x) →
        (loop_body C s l i x).1.signal_state = POS_EDGE ∧
        (loop_body C s l i x).1.num_pulses =
          (if s.n_samples + 1 > Int.tdiv s.n_samples_PW 2 then s.num_pulses + 1 else 0) ∧
        (0 ≤ s.n_samples_PW → Int.tdiv s.n_samples_PW 2 = s.n_samples_PW / 2) ∧
        (loop_body C s l i x).1.n_samples = 0)) ∧
    (s.signal_state = POS_EDGE →
      C.abs x < (track_amplitude C s x).avg_ampl * C.THRESH_FRACTION →
      ¬ command_detected C (seek_step C s x) ∧
      (loop_body C s l i x).1.signal_state = NEG_EDGE ∧
      (loop_body C s l i x).1.n_samples = 0 ∧
      (loop_body C s l i x).1.num_pulses = s.num_pulses) ∧
    (¬ (s.signal_state = NEG_EDGE ∧
        C.abs x > (track_amplitude C s x).avg_ampl * C.THRESH_FRACTION) →
      ¬ (s.signal_state = POS_EDGE ∧
        C.abs x < (track_amplitude C s x).avg_ampl * C.THRESH_FRACTION) →
      (command_detected C (seek_step C s x) ↔
        s.n_samples + 1 > s.n_samples_T1 ∧ s.signal_state = POS_EDGE ∧
          s.num_pulses > C.NUM_PULSES_COMMAND) ∧
      (¬ command_detected C (seek_step C s x) →
        (loop_body C s l i x).1.signal_state = s.signal_state ∧
        (loop_body C s l i x).1.num_pulses = s.num_pulses ∧
        (loop_body C s l i x).1.n_samples = s.n_samples + 1)) ∧
    (command_detected C (seek_step C s x) →
      (loop_body C s l i x).1.signal_state = (seek_step C s x).signal_state ∧
      (loop_body C s l i x).1.signal_state = POS_EDGE ∧
      (loop_body C s l i x).1.num_pulses = 0 ∧
      (loop_body C s l i x).1.n_samples = 1 ∧
      (loop_body C s l i x).1.reader_state.gate_status = GATE_OPEN) := by
  have quiet : ¬ command_detected C (seek_step C s x) →
      (loop_body C s l i x).1 = seek_step C s x := fun hd => by
    rw [loop_body_seek_quiet C s l i x hg hd]
  have found : command_detected C (seek_step C s x) →
      (loop_body C s l i x).1 = opened C s x := fun hd => by
    rw [loop_body_seek_detected C s l i x hg hd]
  have thr : (seek_step C s x).sample_thresh =
      (track_amplitude C s x).avg_ampl * C.THRESH_FRACTION := by
    refine (seek_step_win C s x).2.2.2.trans ?_
    rw [(seek_step_win C s x).1]; rfl
  refine ⟨⟨rfl, ?_⟩, fun hs ha => ?_, fun hs ha => ?_, fun h1 h2 => ?_, fun hd => ?_⟩
  · by_cases hd : command_detected C (seek_step C s x)
    · rw [found hd]; exact thr
    · rw [quiet hd]; exact thr
  · have c1 : ¬ (C.abs x < (track_amplitude C s x).avg_ampl * C.THRESH_FRACTION ∧
        s.signal_state = POS_EDGE) := by
      rintro ⟨_, h⟩; rw [hs] at h; exact SIGNAL_STATE.noConfusion h
    have e : seek_step C s x =
        { track_dc (track_amplitude C s x) x with
          signal_state := POS_EDGE,
          num_pulses :=
            if s.n_samples + 1 > Int.tdiv s.n_samples_PW 2 then s.num_pulses + 1 else 0,
          n_samples := 0 } := by
      rw [seek_step_edge, if_neg c1, if_pos ⟨ha, hs⟩]
    constructor
    · intro hT hd
      rw [e] at hd
      have h0 : (0 : Int) > s.n_samples_T1 := hd.1
      omega
    · intro hd
      rw [quiet hd, e]
      exact ⟨rfl, rfl, fun h => Int.tdiv_eq_ediv h (by norm_num), rfl⟩
  · have e : seek_step C s x =
        { track_dc (track_amplitude C s x) x with n_samples := 0, signal_state := NEG_EDGE } := by
      rw [seek_step_edge, if_pos ⟨ha, hs⟩]
    have hd : ¬ command_detected C (seek_step C s x) := by
      rw [e]
      rintro ⟨_, h, _⟩
      exact SIGNAL_STATE.noConfusion h
    refine ⟨hd, ?_⟩
    rw [quiet hd, e]
    exact ⟨rfl, rfl, rfl⟩
  · have c1 : ¬ (C.abs x < (track_amplitude C s x).avg_ampl * C.THRESH_FRACTION ∧
        s.signal_state = POS_EDGE) := fun h => h2 ⟨h.2, h.1⟩
    have c2 : ¬ (C.abs x > (track_amplitude C s x).avg_ampl * C.THRESH_FRACTION ∧
        s.signal_state = NEG_EDGE) := fun h => h1 ⟨h.2, h.1⟩
    have e : seek_step C s x =
        { track_dc (track_amplitude C s x) x with n_samples := s.n_samples + 1 } := by
      rw [seek_step_edge, if_neg c1, if_neg c2]
    constructor
    · rw [e]; exact Iff.rfl
    · intro hd
      rw [quiet hd, e]
      exact ⟨rfl, rfl, rfl⟩
  · rw [found hd]
    exact ⟨rfl, hd.2.1, rfl, rfl, rfl⟩

/-- C16, an instance: the block `pulsed_block` (gate CLOSED, FALLING, three
samples elapsed, six pulses counted, `n_samples_PW / 2 = 2`) takes the sample
`(1,0)` as a rising edge that counts: the command is not detected, the edge
state becomes RISING, the pulse counter becomes 7 and the elapsed counter 0. -/
theorem pulse_counting_witness :
    ¬ command_detected sample_consts (seek_step sample_consts pulsed_block ⟨1, 0⟩) ∧
    (loop_body sample_consts pulsed_block (initial_locals [⟨1, 0⟩]) 0 ⟨1, 0⟩).1.signal_state
      = POS_EDGE ∧
    (loop_body sample_consts pulsed_block (initial_locals [⟨1, 0⟩]) 0 ⟨1, 0⟩).1.num_pulses = 7 ∧
    (loop_body sample_consts pulsed_block (initial_locals [⟨1, 0⟩]) 0 ⟨1, 0⟩).1.n_samples = 0 := by
  have h := (pulse_counting sample_consts pulsed_block (initial_locals [⟨1, 0⟩]) 0 ⟨1, 0⟩
    (by decide)).2.1 (by decide) (by decide!)
  have hd := h.1 (by decide)
  obtain ⟨a, b, -, c⟩ := h.2 hd
  exact ⟨hd, a, b.trans (by decide), c⟩

/-! ## C17: detection is never early -/

/-- C17. Let a FALLING-to-RISING transition be taken on a sample `x` processed
with the gate not OPEN, in a block with `n_samples_T1 ≥ 0`. The command is not
detected on `x`, and the elapsed counter is 0 after it. Over every continuation
of the run (further samples processed in this call or in later calls, with
arming steps and changes to the shared reader state in between): if a sample `y`
opens the gate after the samples `ys` processed since `x`, then `y` is at least
the `(n_samples_T1 + 1)`-th processed sample after `x`; and if a falling edge
was taken on some sample `z` between `x` and `y`, then `y` comes strictly later
than that. -/
theorem detection_never_early (C : Consts) (s : gate_impl) (l : work_locals) (i : Int)
    (x : gr_complex) (hT : 0 ≤ s.n_samples_T1)
    (hg : s.reader_state.gate_status ≠ GATE_OPEN)
    (hneg : s.signal_state = NEG_EDGE)
    (hrise : (seek_step C s x).signal_state = POS_EDGE) :
    (¬ command_detected C (seek_step C s x) ∧
      (loop_body C s l i x).1.reader_state.gate_status ≠ GATE_OPEN ∧
      (loop_body C s l i x).1.n_samples = 0) ∧
    (∀ (ys : List gr_complex) (t : gate_impl) (l' : work_locals) (i' : Int) (y : gr_complex),
      processes C (loop_body C s l i x).1 ys t →
      t.reader_state.gate_status ≠ GATE_OPEN →
      (loop_body C t l' i' y).1.reader_state.gate_status = GATE_OPEN →
      s.n_samples_T1 + 1 ≤ (ys.length : Int) + 1) ∧
    (∀ (ys1 : List gr_complex) (t1 : gate_impl) (l1 : work_locals) (i1 : Int) (z : gr_complex)
      (ys2 : List gr_complex) (t2 : gate_impl) (l2 : work_locals) (i2 : Int) (y : gr_complex),
      processes C (loop_body C s l i x).1 ys1 t1 →
      t1.reader_state.gate_status ≠ GATE_OPEN →
      t1.signal_state = POS_EDGE → (seek_step C t1 z).signal_state = NEG_EDGE →
      processes C (loop_body C t1 l1 i1 z).1 ys2 t2 →
      t2.reader_state.gate_status ≠ GATE_OPEN →
      (loop_body C t2 l2 i2 y).1.reader_state.gate_status = GATE_OPEN →
      s.n_samples_T1 + 1 < (ys1.length : Int) + 1 + (ys2.length : Int) + 1) := by
  have hn0 : (seek_step C s x).n_samples = 0 := by
    apply seek_step_edge_resets
    rw [hrise, hneg]
    intro h
    exact SIGNAL_STATE.noConfusion h
  have hnd : ¬ command_detected C (seek_step C s x) := by
    intro hd
    have h1 := hd.1
    rw [(seek_step_frame C s x).1, hn0] at h1
    omega
  have hbody : (loop_body C s l i x).1 = seek_step C s x := by
    rw [loop_body_seek_quiet C s l i x hg hnd]
  have hT1 : (seek_step C s x).n_samples_T1 = s.n_samples_T1 := (seek_step_frame C s x).1
  refine ⟨⟨hnd, ?_, ?_⟩, ?_, ?_⟩
  · rw [hbody, seek_step_reader_state]; exact hg
  · rw [hbody]; exact hn0
  · intro ys t l' i' y hp hgt ho
    rw [hbody] at hp
    have := opening_needs_elapsed C (seek_step C s x) (by omega) (by omega) ys t hp l' i' y hgt ho
    rw [hT1] at this
    omega
  · intro ys1 t1 l1 i1 z ys2 t2 l2 i2 y hp1 hg1 hpos hfall hp2 hg2 ho
    rw [hbody] at hp1
    obtain ⟨_, e2⟩ := processes_elapsed C (seek_step C s x) (by omega) ys1 t1 hp1
    have hz0 : (seek_step C t1 z).n_samples = 0 := by
      apply seek_step_edge_resets
      rw [hfall, hpos]
      intro h
      exact SIGNAL_STATE.noConfusion h
    have hzd : ¬ command_detected C (seek_step C t1 z) := by
      intro hd
      have h2 := hd.2.1
      rw [hfall] at h2
      exact SIGNAL_STATE.noConfusion h2
    have hzb : (loop_body C t1 l1 i1 z).1 = seek_step C t1 z := by
      rw [loop_body_seek_quiet C t1 l1 i1 z hg1 hzd]
    rw [hzb] at hp2
    have hzT : (seek_step C t1 z).n_samples_T1 = s.n_samples_T1 := by
      rw [(seek_step_frame C t1 z).1, e2, hT1]
    have := opening_needs_elapsed C (seek_step C t1 z) (by omega) (by omega) ys2 t2 hp2
      l2 i2 y hg2 ho
    rw [hzT] at this
    have : (0 : Int) ≤ (ys1.length : Int) := Int.ofNat_nonneg _
    omega

/-- C17, an instance: the freshly built block at 400 kHz (`n_samples_T1 = 96`,
edge state FALLING) takes `(1,0)` as a rising edge; the command is not detected
on it, and no sample can open the gate before the 97th sample after it. The
bound is met: `pulsed_block` takes `(1,0)` as a rising edge that completes the
preamble, stays closed over the next 96 samples of carrier and opens on the
97th. -/
theorem detection_never_early_witness :
    (¬ command_detected sample_consts (seek_step sample_consts armed_block ⟨1, 0⟩) ∧
      (loop_body sample_consts armed_block (initial_locals []) 0
        ⟨1, 0⟩).1.reader_state.gate_status ≠ GATE_OPEN ∧
      (loop_body sample_consts armed_block (initial_locals []) 0 ⟨1, 0⟩).1.n_samples = 0) ∧
    (∀ (ys : List gr_complex) (t : gate_impl) (l' : work_locals) (i' : Int) (y : gr_complex),
      processes sample_consts
        (loop_body sample_consts armed_block (initial_locals []) 0 ⟨1, 0⟩).1 ys t →
      t.reader_state.gate_status ≠ GATE_OPEN →
      (loop_body sample_consts t l' i' y).1.reader_state.gate_status = GATE_OPEN →
      armed_block.n_samples_T1 + 1 ≤ (ys.length : Int) + 1) ∧
    (general_work sample_consts 0 pulsed_block (⟨1, 0⟩ :: carrier 96)).out = [] ∧
    (general_work sample_consts 0 pulsed_block
      (⟨1, 0⟩ :: carrier 96)).state.reader_state.gate_status = GATE_CLOSED ∧
    (general_work sample_consts 0 pulsed_block (⟨1, 0⟩ :: carrier 97)).out.length = 1 ∧
    (general_work sample_consts 0 pulsed_block
      (⟨1, 0⟩ :: carrier 97)).state.reader_state.gate_status = GATE_OPEN :=
  ⟨(detection_never_early sample_consts armed_block (initial_locals []) 0 ⟨1, 0⟩
      (by decide) (by decide) (by decide) (by decide!)).1,
   (detection_never_early sample_consts armed_block (initial_locals []) 0 ⟨1, 0⟩
      (by decide) (by decide) (by decide) (by decide!)).2.1,
   by decide!⟩

/-! ## C18: the amplitude average converges on a constant magnitude -/

/-- C18. Over exact arithmetic, from a state whose amplitude ring is well formed
(`win_length ≥ 1`, a buffer of `win_length` entries, the index inside it) and
satisfies the running-mean invariant: once at least `win_length` samples have
been processed, all of magnitude `A`, `avg_ampl` equals `A` and every entry of
the window is `A`; it stays equal to `A` over every further processed sample of
magnitude `A` and after every further call whose input samples all have
magnitude `A`. The samples may be processed with the gate open or not, in one
call or in several. -/
theorem amplitude_average_converges (C : Consts) (s : gate_impl) (A : ℚ) (hw : win_ok s)
    (hm : s.avg_ampl = mean s.win_samples) (xs : List gr_complex) (t : gate_impl)
    (hp : processes C s xs t) (hA : ∀ x ∈ xs, C.abs x = A)
    (hlen : s.win_length ≤ (xs.length : Int)) :
    t.avg_ampl = A ∧ (∀ v ∈ t.win_samples, v = A) ∧
    (∀ (ys : List gr_complex) (u : gate_impl), processes C t ys u →
      (∀ y ∈ ys, C.abs y = A) → u.avg_ampl = A) ∧
    (∀ (now : Int) (input : List gr_complex), (∀ y ∈ input, C.abs y = A) →
      (general_work C now t input).state.avg_ampl = A) := by
  have key : ∀ (ys : List gr_complex) (u : gate_impl), processes C t ys u →
      (∀ y ∈ ys, C.abs y = A) → u.avg_ampl = A := by
    intro ys u hq hB
    have hp2 := processes_trans C s t xs hp ys u hq
    refine (window_converged C s A hw hm (xs ++ ys) u hp2 ?_ ?_).1
    · intro x hx
      rw [List.mem_append] at hx
      rcases hx with h | h
      · exact hA x h
      · exact hB x h
    · rw [List.length_append]; push_cast
      have : (0 : Int) ≤ (ys.length : Int) := Int.ofNat_nonneg _
      omega
  obtain ⟨c1, c2⟩ := window_converged C s A hw hm xs t hp hA hlen
  refine ⟨c1, c2, key, fun now input hB => ?_⟩
  obtain ⟨k, _, hq⟩ := general_work_processes C now t input
  exact key _ _ hq (fun y hy => hB y (List.mem_of_mem_take hy))

/-- C18, an instance: the block built at 400 kHz (window of 100, all zero, mean
0) that has processed 100 samples of magnitude 1 in one call has `avg_ampl = 1`,
and keeps it over a further call on four samples of magnitude 1. -/
theorem amplitude_average_converges_witness :
    (general_work sample_consts 0 (sample_block (sample_reader_state RUNNING GATE_OPEN 500 0))
      (carrier 100)).state.avg_ampl = 1 ∧
    (general_work sample_consts 1
      (general_work sample_consts 0 (sample_block (sample_reader_state RUNNING GATE_OPEN 500 0))
        (carrier 100)).state (carrier 4)).state.avg_ampl = 1 := by
  obtain ⟨k, _, hp, hc⟩ := general_work_processes_consumed sample_consts 0
    (sample_block (sample_reader_state RUNNING GATE_OPEN 500 0)) (carrier 100)
  have hk : k = 100 := by
    have h1 := hc (by decide)
    have h2 : (general_work sample_consts 0
        (sample_block (sample_reader_state RUNNING GATE_OPEN 500 0))
        (carrier 100)).consumed = 100 := by decide!
    omega
  subst hk
  have hone : ∀ (n : Nat), ∀ x ∈ carrier n, sample_consts.abs x = 1 := by
    intro n x hx
    rw [carrier, List.mem_replicate] at hx
    rw [hx.2]
    decide!
  have h := amplitude_average_converges sample_consts
    (sample_block (sample_reader_state RUNNING GATE_OPEN 500 0)) 1 (by decide) (by decide!)
    (List.take 100 (carrier 100)) _ hp
    (fun x hx => hone 100 x (List.mem_of_mem_take hx)) (by decide)
  exact ⟨h.1, h.2.2.2 1 (carrier 4) (hone 4)⟩

/-! ## C19: the ring indices stay in range -/

/-- C19. From every state with `win_length ≥ 1`, `dc_length ≥ 1`, `win_samples`
of size `win_length`, `dc_samples` of size `dc_length`, `0 ≤ win_index <
win_length` and `0 ≤ dc_index < dc_length`, every call of `general_work` on any
input leaves a state with the same facts, and so does every sequence of calls;
every state met on the way, sample by sample, has them too, so that each access
to `win_samples` and `dc_samples` is inside the buffer and no division or
modulo by zero occurs: the call with its accesses checked returns the same
result as the unchecked one. -/
theorem ring_indices_in_range (C : Consts) (now : Int) (s : gate_impl)
    (input : List gr_complex) (h : ring_ok s) :
    ring_ok (general_work C now s input).state ∧
    general_work_checked C now s input = some (general_work C now s input) ∧
    (∀ (xs : List gr_complex) (t : gate_impl), processes C s xs t →
      ring_ok t ∧ win_access_ok t ∧ dc_access_ok t) ∧
    (∀ calls : List (Int × (READER_STATE → READER_STATE) × List gr_complex),
      ring_ok (run_calls C s calls).1) := by
  refine ⟨(general_work_invariants C now s input h).1, ?_, fun xs t hp => ?_, fun calls => ?_⟩
  · have ha := arming_ring_ok C now s h
    simp only [general_work_checked, general_work]
    split_ifs
    · rw [sample_loop_checked_ok C input _ _ 0 ha]; rfl
    · rfl
  · have := (processes_invariants C s h xs t hp).1
    exact ⟨this, ring_ok_access t this⟩
  · obtain ⟨xs, hp⟩ := run_calls_processes C calls s
    exact (processes_invariants C s h xs _ hp).1

/-- C19, an instance: the block built at 400 kHz keeps its rings well formed
over the call on `first_batch`, and the checked call returns the same result.
The hypothesis matters: for the block built at 1000 Hz, whose windows have
length 0, the checked call on one sample has no result. -/
theorem ring_indices_in_range_witness :
    ring_ok (general_work sample_consts 0 armed_block first_batch).state ∧
    general_work_checked sample_consts 0 armed_block first_batch =
      some (general_work sample_consts 0 armed_block first_batch) ∧
    (gate_impl.gate_impl sample_consts (sample_reader_state RUNNING GATE_CLOSED 0 0) 1000).bind
      (fun b => general_work_checked sample_consts 0 b [⟨1, 0⟩]) = none :=
  ⟨(ring_indices_in_range sample_consts 0 armed_block first_batch (by decide)).1,
   (ring_indices_in_range sample_consts 0 armed_block first_batch (by decide)).2.1,
   by decide!⟩

/-! ## C20: a block that is not running is a sink -/

/-- C20, the claim as written fails: `over_limit_open_block` (status RUNNING,
gate OPEN, 1001 queries sent) is called at time 7 with four samples. The
termination check fires, so the status is not RUNNING after it; the gate is
OPEN, so the arming step changes nothing; and yet the call changes the state:
the status goes from RUNNING to TERMINATED and the end time from 0 to 7. -/
theorem non_running_sink_counterexample :
    over_limit_open_block.reader_state.status = RUNNING ∧
    over_limit_open_block.reader_state.reader_stats.end_tv_sec = 0 ∧
    (termination_check sample_consts 7 over_limit_open_block).1.reader_state.status ≠ RUNNING ∧
    gate_control sample_consts over_limit_open_block = over_limit_open_block ∧
    (general_work sample_consts 7 over_limit_open_block four_samples).state
      ≠ over_limit_open_block ∧
    (general_work sample_consts 7 over_limit_open_block four_samples).state
      ≠ gate_control sample_consts over_limit_open_block ∧
    (general_work sample_consts 7 over_limit_open_block four_samples).state.reader_state.status
      = TERMINATED ∧
    (general_work sample_consts 7 over_limit_open_block
      four_samples).state.reader_state.reader_stats.end_tv_sec = 7 := by
  decide!

/-- C20 (as amended). In every call of `general_work` in which the status is
not RUNNING after the termination check, for every batch of `N` samples: no
output sample is written, all `N` samples are reported consumed, and the state
after the call is the state the termination check leaves with the arming step
applied. The averager, the DC estimator, the edge state, the pulse counter, the
squared-magnitude buffer and every other member are as at entry, except for the
status and the end time, which the termination check writes when it fires in
this call, and for the gate status, the forward-window length and the elapsed
counter, which differ only as the arming step sets them (gate CLOSED, window
length set, counter 0, when a SEEK request is pending; nothing otherwise). When
the status is already TERMINATED at entry, the arming step is the only change. -/
theorem non_running_sink (C : Consts) (now : Int) (s : gate_impl) (input : List gr_complex)
    (h : (termination_check C now s).1.reader_state.status ≠ RUNNING) :
    (general_work C now s input).out = [] ∧
    (general_work C now s input).returned = 0 ∧
    (general_work C now s input).consumed = (input.length : Int) ∧
    (general_work C now s input).state = gate_control C (termination_check C now s).1 ∧
    (general_work C now s input).state =
      { s with
        n_samples := (general_work C now s input).state.n_samples,
        reader_state :=
          { s.reader_state with
            status := (termination_check C now s).1.reader_state.status,
            gate_status := (general_work C now s input).state.reader_state.gate_status,
            n_samples_to_ungate :=
              (general_work C now s input).state.reader_state.n_samples_to_ungate,
            reader_stats :=
              { s.reader_state.reader_stats with
                end_tv_sec :=
                  (termination_check C now s).1.reader_state.reader_stats.end_tv_sec } } } ∧
    (s.reader_state.status = TERMINATED →
      (general_work C now s input).state = gate_control C s) ∧
    (s.reader_state.gate_status = GATE_CLOSED ∨ s.reader_state.gate_status = GATE_OPEN →
      (general_work C now s input).state.reader_state.gate_status = s.reader_state.gate_status ∧
      (general_work C now s input).state.reader_state.n_samples_to_ungate =
        s.reader_state.n_samples_to_ungate ∧
      (general_work C now s input).state.n_samples = s.n_samples) ∧
    (s.reader_state.gate_status = GATE_SEEK_EPC →
      (general_work C now s input).state.reader_state.gate_status = GATE_CLOSED ∧
      (general_work C now s input).state.reader_state.n_samples_to_ungate =
        (C.EPC_BITS + C.TAG_PREAMBLE_BITS) * s.n_samples_TAG_BIT + 2 * s.n_samples_TAG_BIT ∧
      (general_work C now s input).state.n_samples = 0) ∧
    (s.reader_state.gate_status = GATE_SEEK_RN16 →
      (general_work C now s input).state.reader_state.gate_status = GATE_CLOSED ∧
      (general_work C now s input).state.reader_state.n_samples_to_ungate =
        (C.RN16_BITS + C.TAG_PREAMBLE_BITS) * s.n_samples_TAG_BIT + 2 * s.n_samples_TAG_BIT ∧
      (general_work C now s input).state.n_samples = 0) := by
  have hr : (gate_control C (termination_check C now s).1).reader_state.status ≠ RUNNING := by
    rw [gate_control_status]; exact h
  have e : general_work C now s input =
      { state := gate_control C (termination_check C now s).1, out := [],
        consumed := (input.length : Int), returned := 0,
        notice := (termination_check C now s).2 } := by
    simp only [general_work, hr, if_false]
  rw [e]
  simp only
  have ht := (termination_check_fields C now s).2.2.2
  have hg := (termination_check_fields C now s).2.1
  have hstats : (termination_check C now s).1.reader_state =
      { s.reader_state with
        status := (termination_check C now s).1.reader_state.status,
        reader_stats :=
          { s.reader_state.reader_stats with
            end_tv_sec := (termination_check C now s).1.reader_state.reader_stats.end_tv_sec } } := by
    unfold termination_check; split_ifs <;> rfl
  refine ⟨trivial, trivial, trivial, trivial, ?_, ?_, ?_, ?_, ?_⟩
  · clear e hr h ht hg hstats
    unfold termination_check
    split_ifs
    · unfold gate_control
      dsimp only
      split_ifs <;> rfl
    · unfold gate_control
      split_ifs <;> rfl
  · intro hterm
    have : termination_check C now s = (s, false) := by
      unfold termination_check
      rw [if_neg]
      rintro ⟨_, h2⟩
      exact h2 hterm
    rw [this]
  · intro hs
    have hs' : (termination_check C now s).1.reader_state.gate_status = GATE_OPEN ∨
        (termination_check C now s).1.reader_state.gate_status = GATE_CLOSED := by
      rw [hg]; exact hs.symm
    rw [gate_control_idle C _ hs']
    refine ⟨hg, (termination_check_fields C now s).2.2.1, ?_⟩
    rw [ht]
  · intro hs
    have hs' : (termination_check C now s).1.reader_state.gate_status = GATE_SEEK_EPC :=
      hg.trans hs
    have hn : (termination_check C now s).1.n_samples_TAG_BIT = s.n_samples_TAG_BIT := by
      rw [ht]
    simp [gate_control, hs', hn]
  · intro hs
    have hs' : (termination_check C now s).1.reader_state.gate_status = GATE_SEEK_RN16 :=
      hg.trans hs
    have hn : (termination_check C now s).1.n_samples_TAG_BIT = s.n_samples_TAG_BIT := by
      rw [ht]
    simp [gate_control, hs', hn]

/-- C20, an instance: a terminated block with an EPC request pending writes
nothing for four samples, reports the four consumed, and is armed all the same
(gate CLOSED, window length 1370, counter 0). -/
theorem non_running_sink_witness :
    (general_work sample_consts 0
      (sample_block (sample_reader_state TERMINATED GATE_SEEK_EPC 0 0)) four_samples).out = [] ∧
    (general_work sample_consts 0
      (sample_block (sample_reader_state TERMINATED GATE_SEEK_EPC 0 0)) four_samples).consumed =
      (four_samples.length : Int) ∧
    (general_work sample_consts 0
      (sample_block (sample_reader_state TERMINATED GATE_SEEK_EPC 0 0))
      four_samples).state.reader_state.gate_status = GATE_CLOSED ∧
    (general_work sample_consts 0
      (sample_block (sample_reader_state TERMINATED GATE_SEEK_EPC 0 0))
      four_samples).state.reader_state.n_samples_to_ungate = 1370 :=
  ⟨(non_running_sink sample_consts 0
      (sample_block (sample_reader_state TERMINATED GATE_SEEK_EPC 0 0)) four_samples
      (by decide!)).1,
   (non_running_sink sample_consts 0
      (sample_block (sample_reader_state TERMINATED GATE_SEEK_EPC 0 0)) four_samples
      (by decide!)).2.2.1,
   ((non_running_sink sample_consts 0
      (sample_block (sample_reader_state TERMINATED GATE_SEEK_EPC 0 0)) four_samples
      (by decide!)).2.2.2.2.2.2.2.1 rfl).1,
   ((non_running_sink sample_consts 0
      (sample_block (sample_reader_state TERMINATED GATE_SEEK_EPC 0 0)) four_samples
      (by decide!)).2.2.2.2.2.2.2.1 rfl).2.1⟩

end gr.rfid
